import Mathlib

/-!
Shallow embedding of the klore template engine core: the `.klore` definition
parser (`KloreParser` in `kloreParser.ts`), the generator (`generateKlore`),
and the replacement application engine / installer (`installer.ts`).

Strings are modelled as `List Char` (`Str`).  JavaScript string operations
(`split`, `trim`, `includes`, `replace` with a global regex, `toUpperCase`)
are modelled character-by-character; case mapping is ASCII (the inputs the
claims quantify over are ASCII).  The concrete regular expressions used by
the source are small and fixed, and each is translated into an explicit
leftmost-match scanner over the character list.
-/

set_option maxRecDepth 10000

abbrev Str := List Char

/-- The double-quote character. -/
def dqChar : Char := Char.ofNat 34

/-- The single-quote character. -/
def sqChar : Char := Char.ofNat 39

/-- The backslash character. -/
def bsChar : Char := Char.ofNat 92

/-- The newline character. -/
def nlChar : Char := Char.ofNat 10

/-- JavaScript whitespace (ASCII fragment): space, tab, CR, LF, form feed,
vertical tab. -/
def isSpc (c : Char) : Bool :=
  c = ' ' || c = Char.ofNat 9 || c = Char.ofNat 13 || c = nlChar ||
  c = Char.ofNat 12 || c = Char.ofNat 11

/-- JavaScript `\w`: ASCII letters, digits, underscore. -/
def isWordChar (c : Char) : Bool :=
  (('a' ≤ c && c ≤ 'z') || ('A' ≤ c && c ≤ 'Z') || ('0' ≤ c && c ≤ '9') || c = '_')

/-- ASCII `toUpperCase`, applied charwise. -/
def jsToUpper (s : Str) : Str := s.map Char.toUpper

/-- ASCII `toLowerCase`, applied charwise. -/
def jsToLower (s : Str) : Str := s.map Char.toLower

/-- Auxiliary for `split('\n')`: first piece and remaining pieces. -/
def splitNlA : Str → Str × List Str
  | [] => ([], [])
  | c :: r =>
    let p := splitNlA r
    if c = nlChar then ([], p.1 :: p.2) else (c :: p.1, p.2)

/-- `String.prototype.split('\n')`. -/
def splitNl (s : Str) : List Str := (splitNlA s).1 :: (splitNlA s).2

/-- `Array.prototype.join('\n')`. -/
def joinNl : List Str → Str
  | [] => []
  | [l] => l
  | l :: ls => l ++ nlChar :: joinNl ls

/-- `String.prototype.trim()` (ASCII whitespace). -/
def jsTrim (s : Str) : Str :=
  ((s.dropWhile isSpc).reverse.dropWhile isSpc).reverse

/-- `a.startsWith b` / prefix test. -/
def startsWithB (l p : Str) : Bool := p.isPrefixOf l

/-- `String.prototype.includes pat`: substring occurrence test. -/
def containsSub (pat : Str) : Str → Bool
  | [] => startsWithB [] pat
  | c :: cs => startsWithB (c :: cs) pat || containsSub pat cs

/-- Suffix of `s` just after the first occurrence of `pat`
(`s.substring(s.indexOf(pat) + pat.length)`); `none` when `pat` does not
occur. -/
def afterSub (pat : Str) : Str → Option Str
  | [] => if startsWithB [] pat then some [] else none
  | c :: cs =>
    if startsWithB (c :: cs) pat then some ((c :: cs).drop pat.length)
    else afterSub pat cs

/-- Split at the first occurrence of character `q`: content before it and
rest after it. -/
def splitAtChar (q : Char) : Str → Option (Str × Str)
  | [] => none
  | c :: cs =>
    if c = q then some ([], cs)
    else match splitAtChar q cs with
      | some (a, b) => some (c :: a, b)
      | none => none

/-- Generic leftmost-match scanner: try `att` on every suffix, left to
right, and return the first success.  This is how each of the source's
`String.match(regex)` calls is modelled: `att` recognises the regex at the
start of a suffix. -/
def scanFirst (att : Str → Option α) : Str → Option α
  | [] => att []
  | c :: cs =>
    match att (c :: cs) with
    | some r => some r
    | none => scanFirst att cs

/-- Case-insensitive literal match: strip `pat` (compared ASCII
case-insensitively) from the front of `s`. -/
def ciStrip : Str → Str → Option Str
  | [], s => some s
  | _ :: _, [] => none
  | p :: ps, c :: cs => if c.toUpper = p.toUpper then ciStrip ps cs else none

-- ════════════════════════════════════════════════════════════════════
-- Data model (`core/types.ts`).  `KloreVariable.type` is declared in the
-- source as a union of six string literals, but the parser casts an
-- arbitrary runtime string into the field, so it is modelled as `Str`.
-- `KloreReplacement.variable` is called `varName` because `variable` is a
-- Lean keyword.
-- ════════════════════════════════════════════════════════════════════

structure KloreVariable where
  name : Str
  type : Str
  defaultValue : Str
  required : Bool
deriving DecidableEq

structure KloreGroup where
  name : Str
  vars : List Str
deriving DecidableEq

structure KloreReplacement where
  original : Str
  varName : Str
  filePatterns : List Str
deriving DecidableEq

structure KloreConditional where
  varName : Str
  replacements : List KloreReplacement
deriving DecidableEq

structure KloreTemplate where
  name : Str
  version : Str
  author : Str
  description : Str
  framework : Option Str
  requires : Option (List Str)
  vars : List KloreVariable
  groups : List KloreGroup
  replacements : List KloreReplacement
  conditionals : List KloreConditional
  onInstall : Option (List Str)
  aiHints : Option (List Str)
deriving DecidableEq

/-- The template literal initialised at the top of `KloreParser.parse`. -/
def emptyTemplate : KloreTemplate :=
  { name := []
    version := "1.0.0".data
    author := []
    description := []
    framework := none
    requires := none
    vars := []
    groups := []
    replacements := []
    conditionals := []
    onInstall := some []
    aiHints := some [] }

-- ════════════════════════════════════════════════════════════════════
-- Tokenizer: regex /"[^"]*"|'[^']*'|\[.*?\]|\S+/g applied per line.
-- Fuel-based so that it reduces by `decide`/`rfl`; `tokenize` supplies
-- fuel `length + 1`, which always suffices because every step consumes at
-- least one character.
-- ════════════════════════════════════════════════════════════════════

def tokenizeF : Nat → Str → List Str
  | 0, _ => []
  | _ + 1, [] => []
  | f + 1, c :: cs =>
    if isSpc c then tokenizeF f cs
    else if c = dqChar then
      match splitAtChar dqChar cs with
      | some (tok, rest) => (dqChar :: (tok ++ [dqChar])) :: tokenizeF f rest
      | none =>
        ((c :: cs).takeWhile (fun d => !isSpc d)) ::
          tokenizeF f ((c :: cs).dropWhile (fun d => !isSpc d))
    else if c = sqChar then
      match splitAtChar sqChar cs with
      | some (tok, rest) => (sqChar :: (tok ++ [sqChar])) :: tokenizeF f rest
      | none =>
        ((c :: cs).takeWhile (fun d => !isSpc d)) ::
          tokenizeF f ((c :: cs).dropWhile (fun d => !isSpc d))
    else if c = '[' then
      match splitAtChar ']' cs with
      | some (tok, rest) => ('[' :: (tok ++ [']'])) :: tokenizeF f rest
      | none =>
        ((c :: cs).takeWhile (fun d => !isSpc d)) ::
          tokenizeF f ((c :: cs).dropWhile (fun d => !isSpc d))
    else
      ((c :: cs).takeWhile (fun d => !isSpc d)) ::
        tokenizeF f ((c :: cs).dropWhile (fun d => !isSpc d))

def tokenize (l : Str) : List Str := tokenizeF (l.length + 1) l

/-- `extractString`: first match of /"([^"]*)"|'([^']*)'/, else ''. -/
def extractString : Str → Str
  | [] => []
  | c :: cs =>
    if c = dqChar then
      match splitAtChar dqChar cs with
      | some (tok, _) => tok
      | none => extractString cs
    else if c = sqChar then
      match splitAtChar sqChar cs with
      | some (tok, _) => tok
      | none => extractString cs
    else extractString cs

/-- `String.prototype.split(',')`. -/
def splitComma : Str → List Str
  | [] => [[]]
  | c :: r =>
    match splitComma r with
    | [] => if c = ',' then [[], []] else [[c]]
    | h :: t => if c = ',' then [] :: h :: t else (c :: h) :: t

/-- remove every double or single quote (regex /["']/g with ''). -/
def removeQuotes (s : Str) : Str :=
  s.filter (fun c => !(c = dqChar || c = sqChar))

/-- `extractArray`: first /\[([^\]]*)\]/ content, split on commas, each
piece trimmed and stripped of quotes, empties dropped. -/
def extractArray (l : Str) : List Str :=
  match scanFirst
      (fun s =>
        match s with
        | [] => none
        | c :: cs => if c = '[' then (splitAtChar ']' cs).map Prod.fst else none) l with
  | none => []
  | some content =>
    ((splitComma content).map (fun s => removeQuotes (jsTrim s))).filter
      (fun s => s.length ≠ 0)

-- ════════════════════════════════════════════════════════════════════
-- `parseVariable` (VAR lines, positional tokens).
-- ════════════════════════════════════════════════════════════════════

def parseVariable (tokens : List Str) : KloreVariable :=
  { name := (tokens.get? 1).getD []
    type :=
      match tokens.get? 2 with
      | none => "STRING".data
      | some tk => if (jsToUpper tk).length = 0 then "STRING".data else jsToUpper tk
    defaultValue :=
      match tokens.get? 3 with
      | none => []
      | some tk => if tk.length = 0 then [] else removeQuotes tk
    required := tokens.any (fun t => jsToUpper t = "REQUIRED".data) }

-- ════════════════════════════════════════════════════════════════════
-- `parseAsk` (ASK lines, regex based).
-- ════════════════════════════════════════════════════════════════════

/-- /^ASK\s+(\w+)/i : anchored, so no scan. -/
def matchAskName (l : Str) : Option Str :=
  match ciStrip "ASK".data l with
  | none => none
  | some rest =>
    let sp := rest.takeWhile isSpc
    if sp.length = 0 then none
    else
      let afterSp := rest.dropWhile isSpc
      let w := afterSp.takeWhile isWordChar
      if w.length = 0 then none else some w

/-- One attempt of /DEFAULT\s+"([^"]*)"/i at the start of a suffix. -/
def attemptDefault (s : Str) : Option Str :=
  match ciStrip "DEFAULT".data s with
  | none => none
  | some rest =>
    if (rest.takeWhile isSpc).length = 0 then none
    else
      match rest.dropWhile isSpc with
      | [] => none
      | c :: cs =>
        if c = dqChar then (splitAtChar dqChar cs).map Prod.fst else none

def matchDefault : Str → Option Str := scanFirst attemptDefault

/-- Type inference from the variable name in `parseAsk`. -/
def inferTypeFromName (name : Str) : Str :=
  let low := jsToLower name
  if containsSub "color".data low then "COLOR".data
  else if containsSub "email".data low then "EMAIL".data
  else if containsSub "phone".data low then "PHONE".data
  else if containsSub "url".data low then "URL".data
  else "STRING".data

def parseAsk (l : Str) : KloreVariable :=
  let name := (matchAskName l).getD []
  { name := name
    type := inferTypeFromName name
    defaultValue := (matchDefault l).getD []
    required := containsSub "REQUIRED".data (jsToUpper l) }

-- ════════════════════════════════════════════════════════════════════
-- `parseGroup` (GROUP lines).
-- ════════════════════════════════════════════════════════════════════

/-- `Array.prototype.join(' ')`. -/
def joinSpace : List Str → Str
  | [] => []
  | [l] => l
  | l :: ls => l ++ ' ' :: joinSpace ls

def parseGroup (tokens : List Str) : KloreGroup :=
  { name := (tokens.get? 1).getD []
    vars :=
      match scanFirst
          (fun s =>
            match s with
            | [] => none
            | c :: cs => if c = '[' then (splitAtChar ']' cs).map Prod.fst else none)
          (joinSpace tokens) with
      | none => []
      | some content => (splitComma content).map jsTrim }

-- ════════════════════════════════════════════════════════════════════
-- `parseReplacement` (REPLACE lines).
-- ════════════════════════════════════════════════════════════════════

/-- The no-op replacement returned on any format deviation. -/
def noopReplacement : KloreReplacement :=
  { original := [], varName := [], filePatterns := ["**/*".data] }

/-- The character scan that finds the closing unescaped quote of the
original: mirrors the `for` loop with its `escaped` flag.  Returns the raw
(still escaped) original and the remainder after the closing quote. -/
def scanQ : Str → Bool → Option (Str × Str)
  | [], _ => none
  | c :: cs, esc =>
    if c = bsChar && !esc then
      match scanQ cs true with
      | some (a, b) => some (c :: a, b)
      | none => none
    else if c = dqChar && !esc then some ([], cs)
    else
      match scanQ cs false with
      | some (a, b) => some (c :: a, b)
      | none => none

/-- Global replacement of the two-character literal pattern `a b` by `r`:
JavaScript `String.replace(/ab/g, r)` for literal two-character patterns
(leftmost, non-overlapping, resume after the match). -/
def replace2 (a b : Char) (r : Str) : Str → Str
  | [] => []
  | [c] => [c]
  | c :: d :: rest =>
    if c = a && d = b then r ++ replace2 a b r rest
    else c :: replace2 a b r (d :: rest)

/-- Parser-side unescaping of a REPLACE original:
`.replace(/\\n/g,'\n').replace(/\\"/g,'"').replace(/\\\\/g,'\\')`. -/
def unescapeOriginal (s : Str) : Str :=
  replace2 bsChar bsChar [bsChar]
    (replace2 bsChar dqChar [dqChar]
      (replace2 bsChar 'n' [nlChar] s))

/-- One attempt of /WITH\s+["']?\{\{\s*(\w+)\s*\}\}["']?/i at the start of
a suffix. -/
def attemptWith (s : Str) : Option Str :=
  match ciStrip "WITH".data s with
  | none => none
  | some rest =>
    if (rest.takeWhile isSpc).length = 0 then none
    else
      let r1 := rest.dropWhile isSpc
      let r2 :=
        match r1 with
        | c :: cs => if c = dqChar || c = sqChar then cs else r1
        | [] => r1
      match ciStrip "\x7b\x7b".data r2 with
      | none => none
      | some r3 =>
        let r4 := r3.dropWhile isSpc
        let w := r4.takeWhile isWordChar
        if w.length = 0 then none
        else
          let r5 := (r4.dropWhile isWordChar).dropWhile isSpc
          match ciStrip "\x7d\x7d".data r5 with
          | none => none
          | some _ => some w

/-- One attempt of /IN\s+(.+)$/i at the start of a suffix: `IN`, at least
one whitespace, then at least one further character; `\s+` is greedy but
`.` also matches a space, so when only spaces follow, one is given back. -/
def attemptIn (s : Str) : Option Str :=
  match ciStrip "IN".data s with
  | none => none
  | some rest =>
    match rest.takeWhile isSpc with
    | [] => none
    | s0 :: sp =>
      match rest.dropWhile isSpc with
      | [] => if (s0 :: sp).length ≥ 2 then some [(s0 :: sp).getLast (by simp)] else none
      | c :: cs => some (c :: cs)

/-- All matches of /"[^"]+"/g, contents only (the source strips the quotes
with a further replace). -/
def quotedTokensF : Nat → Str → List Str
  | 0, _ => []
  | _ + 1, [] => []
  | f + 1, c :: cs =>
    if c = dqChar then
      match splitAtChar dqChar cs with
      | some (tok, rest) =>
        if tok.length = 0 then quotedTokensF f cs else tok :: quotedTokensF f rest
      | none => []
    else quotedTokensF f cs

def quotedTokens (s : Str) : List Str := quotedTokensF (s.length + 1) s

def parseReplacement (line : Str) : KloreReplacement :=
  if !(containsSub "REPLACE".data line) || !(containsSub "WITH".data line) then
    noopReplacement
  else
    match afterSub "REPLACE".data line with
    | none => noopReplacement
    | some afterRaw =>
      let afterReplace := jsTrim afterRaw
      match afterReplace with
      | [] => noopReplacement
      | c :: cs =>
        if c = dqChar then
          match scanQ cs false with
          | none => noopReplacement
          | some (raw, remaining) =>
            let original := unescapeOriginal raw
            let varName := (scanFirst attemptWith remaining).getD []
            let filePatterns :=
              match scanFirst attemptIn remaining with
              | none => ["**/*".data]
              | some cap =>
                match quotedTokens cap with
                | [] => ["**/*".data]
                | p :: ps => (p :: ps).map (fun s => s.filter (fun c => !(c = dqChar)))
            { original := original, varName := varName, filePatterns := filePatterns }
        else noopReplacement

-- ════════════════════════════════════════════════════════════════════
-- Line dispatch (`parseLine`), the ON_INSTALL block (`parseOnInstall`)
-- and the main loop (`parse`).  The main loop is fuel-based (fuel
-- `lines.length` always suffices: each outer step consumes at least one
-- line).
-- ════════════════════════════════════════════════════════════════════

def parseLineFn (line : Str) (t : KloreTemplate) : KloreTemplate :=
  match tokenize line with
  | [] => t
  | tok0 :: _ =>
    let command := jsToUpper tok0
    if command = "NAME".data then { t with name := extractString line }
    else if command = "VERSION".data then { t with version := extractString line }
    else if command = "AUTHOR".data then { t with author := extractString line }
    else if command = "DESCRIPTION".data then { t with description := extractString line }
    else if command = "FRAMEWORK".data then { t with framework := some (extractString line) }
    else if command = "REQUIRES".data then { t with requires := some (extractArray line) }
    else if command = "VAR".data then
      { t with vars := t.vars ++ [parseVariable (tokenize line)] }
    else if command = "ASK".data then
      { t with vars := t.vars ++ [parseAsk line] }
    else if command = "GROUP".data then
      { t with groups := t.groups ++ [parseGroup (tokenize line)] }
    else if command = "REPLACE".data then
      { t with replacements := t.replacements ++ [parseReplacement line] }
    else if command = "AI_HINT".data then
      { t with aiHints := t.aiHints.map (fun h => h ++ [extractString line]) }
    else t

/-- Is this line the start of an ON_INSTALL block? -/
def isOnInstallCmd (line : Str) : Bool :=
  match tokenize line with
  | [] => false
  | tok0 :: _ =>
    jsToUpper tok0 = "ON_INSTALL".data || jsToUpper tok0 = "ON".data

/-- One line inside the ON/ON_INSTALL block. -/
def blockStep (line : Str) (t : KloreTemplate) : KloreTemplate :=
  let trimmed := jsTrim line
  let upperLine := jsToUpper trimmed
  if startsWithB upperLine "RUN".data then
    let command := extractString line
    if command.length = 0 then t
    else { t with onInstall := t.onInstall.map (fun l => l ++ [command]) }
  else if startsWithB upperLine "REPLACE".data then
    { t with replacements := t.replacements ++ [parseReplacement trimmed] }
  else t

/-- `parseOnInstall`: consume lines until END, returning the template and
the remaining lines after END. -/
def parseOnInstallLines : List Str → KloreTemplate → KloreTemplate × List Str
  | [], t => (t, [])
  | l :: rest, t =>
    if jsToUpper l = "END".data then (t, rest)
    else parseOnInstallLines rest (blockStep l t)

def parseLinesF : Nat → List Str → KloreTemplate → KloreTemplate
  | 0, _, t => t
  | _ + 1, [], t => t
  | f + 1, l :: rest, t =>
    if isOnInstallCmd l then
      match parseOnInstallLines rest t with
      | (t', rest') => parseLinesF f rest' t'
    else parseLinesF f rest (parseLineFn l t)

/-- `content.split('\n').map(l => l.trim()).filter(l => l && !l.startsWith('#'))` -/
def preprocess (content : Str) : List Str :=
  ((splitNl content).map jsTrim).filter
    (fun l => l.length ≠ 0 && !(startsWithB l "#".data))

/-- `parseKlore` : the exported total parsing function. -/
def parseKlore (content : Str) : KloreTemplate :=
  let lines := preprocess content
  parseLinesF lines.length lines emptyTemplate

-- ════════════════════════════════════════════════════════════════════
-- Generator (`generateKlore`, part of `kloreParser.ts`).
-- ════════════════════════════════════════════════════════════════════

/-- A double quote, as a one-character string. -/
def dq : Str := [dqChar]

/-- `name.replace(/([A-Z])/g, ' $1')`. -/
def spacedCaps (s : Str) : Str :=
  s.flatMap (fun c => if 'A' ≤ c && c ≤ 'Z' then [' ', c] else [c])

/-- The hand-authored question table in `generateSmartQuestion`
(`questions[groupKey]?.[varName]`). -/
def smartQuestionTable (groupKey varName : Str) : Option Str :=
  if groupKey = "branding".data then
    if varName = "storeName".data then some "What is your store/company name?".data
    else if varName = "appName".data then some "What is your application name?".data
    else if varName = "companyName".data then some "What is your company name?".data
    else if varName = "tagline".data then some "What is your tagline/slogan?".data
    else if varName = "storeDescription".data then
      some "Describe your store/company in one paragraph:".data
    else none
  else if groupKey = "colors".data then
    if varName = "primaryColor".data then some "What is your primary brand color? (hex)".data
    else if varName = "secondaryColor".data then some "What is your secondary color? (hex)".data
    else if varName = "accentColor".data then some "What is your accent color? (hex)".data
    else none
  else if groupKey = "contact".data then
    if varName = "email".data then some "What is your contact email?".data
    else if varName = "phone".data then some "What is your phone number?".data
    else if varName = "address".data then some "What is your business address?".data
    else if varName = "businessHours".data then some "What are your business hours?".data
    else none
  else if groupKey = "social".data then
    if varName = "facebookUrl".data then some "Enter your Facebook URL:".data
    else if varName = "instagramUrl".data then some "Enter your Instagram URL:".data
    else if varName = "twitterUrl".data then some "Enter your Twitter/X URL:".data
    else if varName = "youtubeUrl".data then some "Enter your YouTube URL:".data
    else none
  else none

def generateSmartQuestion (varName groupKey : Str) : Str :=
  let readable := jsToLower (jsTrim (spacedCaps varName))
  match smartQuestionTable groupKey varName with
  | some q => q
  | none => "Enter ".data ++ readable ++ ":".data

/-- Generator-side escaping of a REPLACE original:
`.replace(/\\/g,'\\\\').replace(/"/g,'\\"').replace(/\n/g,'\\n')`. -/
def escapeOriginal (s : Str) : Str :=
  ((s.flatMap (fun c => if c = bsChar then [bsChar, bsChar] else [c])).flatMap
      (fun c => if c = dqChar then [bsChar, dqChar] else [c])).flatMap
    (fun c => if c = nlChar then [bsChar, 'n'] else [c])

/-- ASK-default escaping: `.replace(/"/g,'\\"').replace(/\n/g,' ')`. -/
def escDefault (s : Str) : Str :=
  (s.flatMap (fun c => if c = dqChar then [bsChar, dqChar] else [c])).map
    (fun c => if c = nlChar then ' ' else c)

/-- `substring(0,100) + '...'` truncation past 100 characters. -/
def truncDefault (s : Str) : Str :=
  if s.length > 100 then s.take 100 ++ "...".data else s

/-- `template.name.toLowerCase().replace(/\s+/g, '-')`: every maximal
whitespace run becomes one dash. -/
def collapseWsDash : Str → Str
  | [] => []
  | c :: r => if isSpc c then '-' :: collapseWsDashSkip r else c :: collapseWsDash r
where
  collapseWsDashSkip : Str → Str
    | [] => []
    | c :: r => if isSpc c then collapseWsDashSkip r else c :: collapseWsDash r

def groupOrder : List Str :=
  ["branding".data, "colors".data, "contact".data, "content".data, "social".data,
   "institution".data, "legal".data, "maps".data, "config".data]

def emojiFor (g : Str) : Str :=
  if g = "branding".data then "🏷️".data
  else if g = "colors".data then "🎨".data
  else if g = "contact".data then "📍".data
  else if g = "content".data then "📝".data
  else if g = "social".data then "📱".data
  else if g = "institution".data then "🏫".data
  else if g = "legal".data then "⚖️".data
  else if g = "maps".data then "🗺️".data
  else if g = "config".data then "⚙️".data
  else "📦".data

def descFor (g : Str) : Str :=
  if g = "branding".data then "Brand Identity".data
  else if g = "colors".data then "Theme Colors".data
  else if g = "contact".data then "Contact Information".data
  else if g = "content".data then "Page Content".data
  else if g = "social".data then "Social Media".data
  else if g = "institution".data then "Organization Info".data
  else if g = "legal".data then "Legal & Copyright".data
  else if g = "maps".data then "Location & Maps".data
  else if g = "config".data then "Configuration".data
  else g

/-- Which group bucket a variable lands in
(`template.groups.find(g => g.variables.includes(v.name))`, else 'other').
An empty group name is kept as-is (`group ? group.name : 'other'`). -/
def varGroupName (t : KloreTemplate) (v : KloreVariable) : Str :=
  match t.groups.find? (fun g => g.vars.contains v.name) with
  | some g => g.name
  | none => "other".data

/-- Group bucket of a replacement (`group?.name || 'other'`): here an empty
group name falls back to 'other'. -/
def replGroupName (t : KloreTemplate) (r : KloreReplacement) : Str :=
  match t.groups.find? (fun g => g.vars.contains r.varName) with
  | some g => if g.name.length = 0 then "other".data else g.name
  | none => "other".data

/-- The '# ───…' divider (`'─'.repeat(40)`). -/
def dashHdr : Str := "# ".data ++ List.replicate 40 '─'

/-- The '# ═══…' banner line, copied from the source literal. -/
def eqHdr : Str := "# ═══════════════════════════════════════".data

/-- An ASK line from a variable, its question and its processed default. -/
def mkAskLine (v : KloreVariable) (q dv : Str) : Str :=
  "ASK ".data ++ v.name ++ " ".data ++ dq ++ q ++ dq ++
    (if dv.length ≠ 0 then " DEFAULT ".data ++ dq ++ dv ++ dq else []) ++
    (if v.required then " REQUIRED".data else [])

/-- ASK line in the canonical-group loop: truncate, then escape. -/
def askLineMain (gk : Str) (v : KloreVariable) : Str :=
  mkAskLine v (generateSmartQuestion v.name gk) (escDefault (truncDefault v.defaultValue))

/-- ASK line in the ungrouped branch: escape, then truncate. -/
def askLineOther (v : KloreVariable) : Str :=
  mkAskLine v (generateSmartQuestion v.name "other".data) (truncDefault (escDefault v.defaultValue))

/-- A REPLACE line from a replacement, without its four-space indent. -/
def replCore (r : KloreReplacement) : Str :=
  "REPLACE ".data ++ dq ++ escapeOriginal r.original ++ dq ++ " WITH ".data ++
    dq ++ "\x7b\x7b ".data ++ r.varName ++ " \x7d\x7d".data ++ dq ++ " IN ".data ++
    joinSpace (r.filePatterns.map (fun p => dq ++ p ++ dq))

/-- A REPLACE line from a replacement. -/
def mkReplaceLine (r : KloreReplacement) : Str := "    ".data ++ replCore r

/-- Progress message synthesis for a RUN line (successive `if`s: the last
matching pattern wins). -/
def msgFor (cmd : Str) : Str :=
  let m0 := "Running ".data ++ cmd ++ "...".data
  let m1 := if containsSub "composer install".data cmd then "Installing PHP dependencies...".data else m0
  let m2 := if containsSub "npm install".data cmd then "Installing Node dependencies...".data else m1
  let m3 := if containsSub "artisan migrate".data cmd then "Setting up database...".data else m2
  if containsSub "npm run build".data cmd then "Building assets...".data else m3

/-- A RUN line, without its four-space indent. -/
def runCore (cmd : Str) : Str :=
  "RUN ".data ++ dq ++ cmd ++ dq ++ " MESSAGE ".data ++ dq ++ msgFor cmd ++ dq

def mkRunLine (cmd : Str) : Str := "    ".data ++ runCore cmd

/-- The five default RUN lines emitted when `template.onInstall` is empty
or absent, without their four-space indents. -/
def defaultRunCores : List Str :=
  ["RUN ".data ++ dq ++ "composer install".data ++ dq ++ " MESSAGE ".data ++ dq ++
      "Installing PHP dependencies...".data ++ dq,
   "RUN ".data ++ dq ++ "php artisan key:generate".data ++ dq ++ " MESSAGE ".data ++ dq ++
      "Generating app key...".data ++ dq,
   "RUN ".data ++ dq ++ "php artisan migrate --seed".data ++ dq ++ " MESSAGE ".data ++ dq ++
      "Setting up database...".data ++ dq,
   "RUN ".data ++ dq ++ "npm install".data ++ dq ++ " MESSAGE ".data ++ dq ++
      "Installing Node dependencies...".data ++ dq,
   "RUN ".data ++ dq ++ "npm run build".data ++ dq ++ " MESSAGE ".data ++ dq ++
      "Building assets...".data ++ dq]

def defaultRunLines : List Str := defaultRunCores.map (fun l => "    ".data ++ l)

/-- The five default install command strings, as parsed back. -/
def defaultCommands : List Str :=
  ["composer install".data, "php artisan key:generate".data,
   "php artisan migrate --seed".data, "npm install".data, "npm run build".data]

/-- The generated NAME line. -/
def nameLineG (t : KloreTemplate) : Str :=
  "NAME ".data ++ dq ++ collapseWsDash (jsToLower t.name) ++ "-template".data ++ dq

/-- The generated VERSION line. -/
def versionLineG (t : KloreTemplate) : Str := "VERSION ".data ++ dq ++ t.version ++ dq

/-- The generated FRAMEWORK line body. -/
def frameworkLineG (f : Str) : Str := "FRAMEWORK ".data ++ dq ++ f ++ dq

/-- Header region of the generated file, up to the TEMPLATE VARIABLES
banner. -/
def headerLines (t : KloreTemplate) : List Str :=
  ["# ".data ++ t.name ++ " Template".data,
   "# Generated by Klore AI - Comprehensive Templatization".data,
   []] ++
  [nameLineG t] ++
  (if t.version.length ≠ 0 then [versionLineG t] else []) ++
  (match t.framework with
   | some f => if f.length ≠ 0 then [frameworkLineG f] else []
   | none => []) ++
  [[]] ++
  (match t.aiHints with
   | some hs =>
     if hs.length ≠ 0 then
       [eqHdr, "# PROJECT ANALYSIS".data, eqHdr] ++
         hs.map (fun h => "# ".data ++ h) ++ [[]]
     else []
   | none => []) ++
  [eqHdr, "# TEMPLATE VARIABLES".data, eqHdr, []]

/-- The ASK block for one canonical group. -/
def groupBlock (t : KloreTemplate) (gk : Str) : List Str :=
  match t.vars.filter (fun v => varGroupName t v = gk) with
  | [] => []
  | v :: vs =>
    ["# ".data ++ emojiFor gk ++ " ".data ++ jsToUpper (descFor gk), dashHdr] ++
      (v :: vs).map (askLineMain gk) ++ [[]]

/-- The ungrouped-variable list
(`groupedVars['other'] || groupedVars['General Settings']`). -/
def otherVarsList (t : KloreTemplate) : List KloreVariable :=
  let o := t.vars.filter (fun v => varGroupName t v = "other".data)
  let g := t.vars.filter (fun v => varGroupName t v = "General Settings".data)
  if o.length ≠ 0 then o else g

/-- The ASK block for ungrouped variables. -/
def otherBlock (t : KloreTemplate) : List Str :=
  match otherVarsList t with
  | [] => []
  | v :: vs =>
    ["# 📦 OTHER SETTINGS".data, dashHdr] ++ (v :: vs).map askLineOther ++ [[]]

def varsSection (t : KloreTemplate) : List Str :=
  (groupOrder.map (groupBlock t)).flatten ++ otherBlock t

/-- The COPY line inside the ON INSTALL block, without its indent. -/
def copyCore : Str :=
  "COPY ".data ++ dq ++ ".env.example".data ++ dq ++ " TO ".data ++ dq ++ ".env".data ++ dq

/-- Fixed lines between the variables and the replacement blocks. -/
def onInstallHeader : List Str :=
  [eqHdr, "# REPLACEMENTS".data, eqHdr, [],
   "ON INSTALL".data, [],
   "    # Setup environment".data,
   "    ".data ++ copyCore,
   []]

/-- The REPLACE block for one group bucket. -/
def replBlock (t : KloreTemplate) (gk : Str) : List Str :=
  match t.replacements.filter (fun r => replGroupName t r = gk) with
  | [] => []
  | r :: rs =>
    ["    # ".data ++ emojiFor gk ++ " ".data ++ descFor gk] ++
      (r :: rs).map mkReplaceLine ++ [[]]

def replSection (t : KloreTemplate) : List Str :=
  ((groupOrder ++ ["other".data]).map (replBlock t)).flatten

def runSection (t : KloreTemplate) : List Str :=
  ["    # Run setup commands".data] ++
  (match t.onInstall.getD [] with
   | [] => defaultRunLines
   | cmd :: cmds => (cmd :: cmds).map mkRunLine) ++
  [[], "END".data, [],
   eqHdr, "# Template ready! 🚀".data, eqHdr]

def genLines (t : KloreTemplate) : List Str :=
  headerLines t ++ varsSection t ++ onInstallHeader ++ replSection t ++ runSection t

def generateKlore (t : KloreTemplate) : Str := joinNl (genLines t)

-- ════════════════════════════════════════════════════════════════════
-- Installer (`core/template/installer.ts`).
-- ════════════════════════════════════════════════════════════════════

/-- The backtick character (special in JS replacement patterns). -/
def btChar : Char := Char.ofNat 96

/-- JavaScript `GetSubstitution` for a replacement string used with a
regex that has no capture groups: `$$`, `$&`, `$`-backtick and
`$`-apostrophe are interpreted; `$n` and `$<` pass through literally
because there are no (named) captures.  `m` is the matched text, `b` the
part of the input before the match, `a` the part after it. -/
def expandRepl (m b a : Str) : Str → Str
  | [] => []
  | c :: r =>
    if c = '$' then
      match r with
      | [] => ['$']
      | d :: r' =>
        if d = '$' then '$' :: expandRepl m b a r'
        else if d = '&' then m ++ expandRepl m b a r'
        else if d = btChar then b ++ expandRepl m b a r'
        else if d = sqChar then a ++ expandRepl m b a r'
        else '$' :: expandRepl m b a (d :: r')
    else c :: expandRepl m b a r

/-- `result.replace(new RegExp(escaped, 'g'), value)` where `escaped` is
the metacharacter-escaped (hence literal) original: global leftmost
non-overlapping literal search, each match replaced by the
`GetSubstitution` expansion of `value`.  `pre` is the already-scanned part
of the input string. -/
def jsReplGoF (pat val : Str) : Nat → Str → Str → Str
  | 0, _, _ => []
  | _ + 1, _, [] => []
  | f + 1, pre, c :: cs =>
    if startsWithB (c :: cs) pat then
      expandRepl pat pre ((c :: cs).drop pat.length) val ++
        jsReplGoF pat val f (pre ++ pat) ((c :: cs).drop pat.length)
    else c :: jsReplGoF pat val f (pre ++ [c]) cs

/-- Global replace with a nonempty literal pattern.  (`applyReplacements`
guards `replacement.original` truthy, so the pattern is never empty; the
empty-pattern case is given the identity as a placeholder.) -/
def jsReplaceAll (pat val s : Str) : Str :=
  if pat.length = 0 then s else jsReplGoF pat val (s.length + 1) [] s

/-- JS object property lookup for the values record: the last write to a
key wins. -/
def valuesGet (vs : List (Str × Str)) (k : Str) : Option Str :=
  (vs.reverse.find? (fun p => p.1 = k)).map (fun p => p.2)

/-- `applyReplacements`: each replacement in list order, as one global
literal replace over the current content; skipped when its variable has no
resolved value or its original is empty. -/
def applyReplacements (content : Str) (replacements : List KloreReplacement)
    (values : List (Str × Str)) : Str :=
  replacements.foldl
    (fun result r =>
      match valuesGet values r.varName with
      | some v => if r.original.length ≠ 0 then jsReplaceAll r.original v result else result
      | none => result)
    content

-- `validateInput` and its per-type regexes.

def isDigitChar (c : Char) : Bool := '0' ≤ c && c ≤ '9'

def isHexChar (c : Char) : Bool :=
  isDigitChar c || ('a' ≤ c && c ≤ 'f') || ('A' ≤ c && c ≤ 'F')

/-- /^[^\s@]+@[^\s@]+\.[^\s@]+$/ -/
def emailOk (value : Str) : Bool :=
  match splitAtChar '@' value with
  | none => false
  | some (a, b) =>
    a.length ≠ 0 && a.all (fun c => !isSpc c) &&
      b.all (fun c => !isSpc c && c ≠ '@') && ((b.dropLast.drop 1).contains '.')

/-- /^#([0-9A-Fa-f]{3}|[0-9A-Fa-f]{6})$/ -/
def colorOk (value : Str) : Bool :=
  match value with
  | c :: rest => c = '#' && rest.all isHexChar && (rest.length = 3 || rest.length = 6)
  | [] => false

/-- /^[\d\s\-\+\(\)]+$/ -/
def phoneOk (value : Str) : Bool :=
  value.length ≠ 0 &&
    value.all (fun c => isDigitChar c || isSpc c || c = '-' || c = '+' || c = '(' || c = ')')

/-- `validateInput(value, variable)`. `urlOk` abstracts `new URL(value)`
succeeding (the WHATWG URL parser is an external collaborator). -/
def validateInput (urlOk : Str → Bool) (value : Str) (v : KloreVariable) : Option Str :=
  if v.required && (jsTrim value).length = 0 then some "This field is required".data
  else if (jsTrim value).length = 0 then none
  else if v.type = "EMAIL".data then
    if !emailOk value then some "Please enter a valid email address".data else none
  else if v.type = "COLOR".data then
    if !colorOk value then some "Please enter a valid hex color (e.g., #FF7800)".data else none
  else if v.type = "PHONE".data then
    if !phoneOk value then some "Please enter a valid phone number".data else none
  else if v.type = "URL".data then
    if !urlOk value && value.length ≠ 0 && value ≠ "#".data then
      some "Please enter a valid URL".data
    else none
  else none

-- The tree walk (`copyWithReplacements`).

mutual
inductive FsEntry where
  | file : Str → Str → FsEntry
  | dir : Str → FsEntryList → FsEntry
inductive FsEntryList where
  | nil : FsEntryList
  | cons : FsEntry → FsEntryList → FsEntryList
end

def FsEntry.name : FsEntry → Str
  | .file n _ => n
  | .dir n _ => n

inductive FsOp where
  | mkdir : List Str → FsOp
  | writeFile : List Str → Str → FsOp
  | copyFile : List Str → List Str → FsOp
deriving DecidableEq

/-- `path.extname(name).toLowerCase()` (ASCII): suffix from the last dot,
empty when there is no dot or the only dot is the leading one. -/
def extnameJS (name : Str) : Str :=
  match (name.reverse).indexOf? '.' with
  | none => []
  | some j =>
    let i := name.length - 1 - j
    if i = 0 then [] else name.drop i

def endsWithB (s pat : Str) : Bool := startsWithB s.reverse pat.reverse

def textExtensions : List Str :=
  [".php".data, ".js".data, ".ts".data, ".jsx".data, ".tsx".data, ".vue".data,
   ".svelte".data, ".html".data, ".htm".data, ".css".data, ".scss".data, ".less".data,
   ".json".data, ".xml".data, ".yaml".data, ".yml".data, ".toml".data,
   ".md".data, ".txt".data, ".env.example".data, ".gitignore".data,
   ".blade.php".data, ".twig".data, ".ejs".data, ".pug".data]

def isTextFileName (name : Str) : Bool :=
  textExtensions.contains (jsToLower (extnameJS name)) ||
    endsWithB name ".blade.php".data || name = ".env.example".data

def excludeNames : List Str :=
  [".klore".data, "node_modules".data, "vendor".data, ".git".data]

/-- The entry loop of `processDir`: each entry in order, exact-name
exclusions skipped, directories recursed into (with their `mkdir`), text
files rewritten through `applyReplacements`, other files copied verbatim.
Returns (filesCreated, replacementsApplied, operations). -/
def procEntries (reps : List KloreReplacement) (vals : List (Str × Str)) :
    FsEntryList → List Str → Nat × Nat × List FsOp
  | .nil, _ => (0, 0, [])
  | .cons e es, dest =>
    if excludeNames.contains e.name then procEntries reps vals es dest
    else
      match e with
      | .dir n sub =>
        let sr := procEntries reps vals sub (dest ++ [n])
        let er := procEntries reps vals es dest
        (sr.1 + er.1, sr.2.1 + er.2.1,
          (FsOp.mkdir (dest ++ [n]) :: sr.2.2) ++ er.2.2)
      | .file n content =>
        let er := procEntries reps vals es dest
        if isTextFileName n then
          let replaced := applyReplacements content reps vals
          (1 + er.1, (if replaced ≠ content then 1 else 0) + er.2.1,
            FsOp.writeFile (dest ++ [n]) replaced :: er.2.2)
        else
          (1 + er.1, er.2.1, FsOp.copyFile (dest ++ [n]) (dest ++ [n]) :: er.2.2)

/-- `copyWithReplacements(srcDir, destDir, …)`: `processDir` starting at
the root (which `mkdir`s the destination first). -/
def copyWithReplacements (entries : FsEntryList) (dest : List Str)
    (reps : List KloreReplacement) (vals : List (Str × Str)) : Nat × Nat × List FsOp :=
  let r := procEntries reps vals entries dest
  (r.1, r.2.1, FsOp.mkdir dest :: r.2.2)

-- `installTemplate`.

structure InstallOptions where
  outputPath : List Str
  force : Bool
  values : Option (List (Str × Str))
deriving DecidableEq

structure InstallResult where
  success : Bool
  outputPath : List Str
  filesCreated : Nat
  replacementsApplied : Nat
  errors : List Str
deriving DecidableEq

/-- The abstracted outside world of one `installTemplate` call: the
`.klore` file content (none = missing file), whether the output path
exists, the entries of the template directory, and the interactive
collaborators (the outcome of `promptVariables`, of the post-install
confirm, and of `runPostInstall`), which are IO and are modelled as
oracle inputs. -/
structure InstallEnv where
  kloreContent : Option Str
  outputExists : Bool
  sourceEntries : FsEntryList
  promptResult : Option (List (Str × Str))
  confirmPostInstall : Option Bool
  postInstallError : Option Str

/-- The filesystem writes performed and whether `promptVariables` was
invoked. -/
structure InstallTrace where
  ops : List FsOp
  prompted : Bool
deriving DecidableEq

def failResult (outputPath : List Str) (msg : Str) : InstallResult :=
  { success := false, outputPath := outputPath, filesCreated := 0,
    replacementsApplied := 0, errors := [msg] }

def installTemplate (env : InstallEnv) (options : InstallOptions) :
    InstallResult × InstallTrace :=
  match env.kloreContent with
  | none =>
    (failResult options.outputPath "No .klore file found in template directory".data,
     { ops := [], prompted := false })
  | some content =>
    let template := parseKlore content
    if env.outputExists && !options.force then
      (failResult options.outputPath
        "Output directory already exists. Use --force to overwrite.".data,
       { ops := [], prompted := false })
    else
      let prompted := options.values.isNone
      match (match options.values with
             | some vs => some vs
             | none => env.promptResult) with
      | none =>
        (failResult options.outputPath "Installation cancelled by user".data,
         { ops := [], prompted := prompted })
      | some values =>
        let cr := copyWithReplacements env.sourceEntries options.outputPath
          template.replacements values
        let errors :=
          if (template.onInstall.getD []).length ≠ 0 then
            match env.confirmPostInstall with
            | some true =>
              match env.postInstallError with
              | some m => ["Post-install error: ".data ++ m]
              | none => []
            | _ => []
          else []
        ({ success := true, outputPath := options.outputPath, filesCreated := cr.1,
           replacementsApplied := cr.2.1, errors := errors },
         { ops := cr.2.2, prompted := prompted })

/-- The `--defaults` flow of the install command (`part_000`): pre-fill
every variable with its declared default. -/
def buildDefaultValues (t : KloreTemplate) : List (Str × Str) :=
  t.vars.map (fun v => (v.name, v.defaultValue))

/-- `uniqueVariables` in `promptVariables`: deduplicate by name, keeping
the first occurrence. -/
def dedupeByName (vs : List KloreVariable) : List KloreVariable :=
  go vs []
where
  go : List KloreVariable → List Str → List KloreVariable
    | [], _ => []
    | v :: r, seen =>
      if seen.contains v.name then go r seen else v :: go r (v.name :: seen)

-- ════════════════════════════════════════════════════════════════════
-- Predicates and derived forms used by the verification statements.
-- ════════════════════════════════════════════════════════════════════

/-- Does the string contain a backslash immediately followed by `n`?
(The one shape on which the generator escaping / parser unescaping pair is
not the identity.) -/
def hasBSn : Str → Bool
  | [] => false
  | [_] => false
  | c :: d :: rest => (c = bsChar && d = 'n') || hasBSn (d :: rest)

/-- Per-character view of the generator escaping (proved equal to
`escapeOriginal` below). -/
def escUnit (c : Char) : Str :=
  if c = bsChar then [bsChar, bsChar]
  else if c = dqChar then [bsChar, dqChar]
  else if c = nlChar then [bsChar, 'n']
  else [c]

/-- State of the escaped text after the parser's first unescaping pass
(backslash-n back to newline). -/
def escUnit1 (c : Char) : Str :=
  if c = bsChar then [bsChar, bsChar]
  else if c = dqChar then [bsChar, dqChar]
  else [c]

/-- State after the second pass (escaped quote back to quote). -/
def escUnit2 (c : Char) : Str :=
  if c = bsChar then [bsChar, bsChar]
  else [c]

/-- Lowercase-ASCII word characters. -/
def isLowerWordChar (c : Char) : Bool :=
  ('a' ≤ c && c ≤ 'z') || ('0' ≤ c && c ≤ '9') || c = '_'

/-- Class of variables on which the generated ASK line parses back to the
variable itself: a nonempty lowercase word-character name that does not
contain `required` or `default`; a declared type that agrees with the
name-based inference the parser will redo; a default without quotes or
newlines, of length at most 100, and without a case-insensitive
`required`. -/
def niceVarB (v : KloreVariable) : Bool :=
  v.name.length ≠ 0 && v.name.all isLowerWordChar &&
    !containsSub "REQUIRED".data (jsToUpper v.name) &&
    !containsSub "DEFAULT".data (jsToUpper v.name) &&
    v.type = inferTypeFromName v.name &&
    !v.defaultValue.contains dqChar && !v.defaultValue.contains nlChar &&
    v.defaultValue.length ≤ 100 &&
    !containsSub "REQUIRED".data (jsToUpper v.defaultValue)

/-- Class of replacements on which the generated REPLACE line parses back
to the replacement itself: an original without a backslash-n character
pair, a nonempty word-character variable reference that does not end in
`in` (case-insensitively), and a nonempty pattern list of nonempty
patterns without quotes or newlines. -/
def niceReplB (r : KloreReplacement) : Bool :=
  !hasBSn r.original &&
    r.varName.length ≠ 0 && r.varName.all isWordChar &&
    !endsWithB (jsToLower r.varName) "in".data &&
    r.filePatterns.length ≠ 0 &&
    r.filePatterns.all (fun p => p.length ≠ 0 && !p.contains dqChar && !p.contains nlChar)

/-- Newline hygiene of the template fields that are rendered verbatim into
single generated lines. -/
def cleanTemplateB (t : KloreTemplate) : Bool :=
  !t.name.contains nlChar && !t.version.contains nlChar &&
    (match t.framework with | some f => !f.contains nlChar | none => true) &&
    (match t.aiHints with | some hs => hs.all (fun h => !h.contains nlChar) | none => true) &&
    (match t.onInstall with | some cs => cs.all (fun c => !c.contains nlChar) | none => true) &&
    t.vars.all (fun v => !v.name.contains nlChar) &&
    t.replacements.all (fun r =>
      !r.varName.contains nlChar && r.filePatterns.all (fun p => !p.contains nlChar))

/-- The round-trip class for the amended C1: group-free and clean, with
every variable and replacement in the nice classes above. -/
def niceTemplateB (t : KloreTemplate) : Bool :=
  t.groups.isEmpty && cleanTemplateB t &&
    t.vars.all niceVarB && t.replacements.all niceReplB

/-- The rendered variables, paired with the group key they are rendered
under, in generated order. -/
def orderedVars (t : KloreTemplate) : List (Str × KloreVariable) :=
  (groupOrder.flatMap (fun gk =>
    (t.vars.filter (fun v => varGroupName t v = gk)).map (fun v => (gk, v)))) ++
  (otherVarsList t).map (fun v => ("other".data, v))

/-- The rendered replacements, in generated order. -/
def orderedReps (t : KloreTemplate) : List KloreReplacement :=
  (groupOrder ++ ["other".data]).flatMap
    (fun gk => t.replacements.filter (fun r => replGroupName t r = gk))

/-- The RUN line bodies of the generated ON INSTALL block, without
indents. -/
def runCoresOf (t : KloreTemplate) : List Str :=
  match t.onInstall.getD [] with
  | [] => defaultRunCores
  | cmd :: cmds => (cmd :: cmds).map runCore

/-- The ASK line the generator emits for variable `v` under group key
`gk`. -/
def askLineFor (gk : Str) (v : KloreVariable) : Str :=
  if gk = "other".data then askLineOther v else askLineMain gk v

/-- The number of lines of `content` that are an ASK line for the variable
name `n`. -/
def askLineCount (n : Str) (content : Str) : Nat :=
  ((splitNl content).filter
    (fun l => startsWithB l ("ASK ".data ++ n ++ " ".data))).length

-- ════════════════════════════════════════════════════════════════════
-- The substitution semantics as the specification words it ("each matched
-- occurrence is replaced by the resolved value"): global leftmost literal
-- search with the value inserted verbatim, no `$`-expansion.  These
-- definitions are written from the spec's words, not from the source, to
-- be compared against `jsReplaceAll`/`applyReplacements` above.
-- ════════════════════════════════════════════════════════════════════

def specReplGoF (pat val : Str) : Nat → Str → Str
  | 0, _ => []
  | _ + 1, [] => []
  | f + 1, c :: cs =>
    if startsWithB (c :: cs) pat then
      val ++ specReplGoF pat val f ((c :: cs).drop pat.length)
    else c :: specReplGoF pat val f cs

def specReplaceAll (pat val s : Str) : Str :=
  if pat.length = 0 then s else specReplGoF pat val (s.length + 1) s

def specApplyReplacements (content : Str) (replacements : List KloreReplacement)
    (values : List (Str × Str)) : Str :=
  replacements.foldl
    (fun result r =>
      match valuesGet values r.varName with
      | some v => if r.original.length ≠ 0 then specReplaceAll r.original v result else result
      | none => result)
    content

-- ════════════════════════════════════════════════════════════════════
-- Concrete instances the verification statements are evaluated on.
-- ════════════════════════════════════════════════════════════════════

/-- A template declaring a NUMBER-typed variable. -/
def tNum : KloreTemplate := { emptyTemplate with
  vars := [{ name := "port".data, type := "NUMBER".data, defaultValue := [],
             required := false }] }

/-- A template in the nice round-trip class. -/
def tNice : KloreTemplate := { emptyTemplate with
  vars := [{ name := "appname".data, type := "STRING".data,
             defaultValue := "8080".data, required := true }],
  replacements := [{ original := "Acme".data, varName := "appName".data,
                     filePatterns := ["**/*.php".data] }] }

/-- A template with two variables of the same name. -/
def tDup : KloreTemplate := { emptyTemplate with
  vars := [{ name := "city".data, type := "STRING".data, defaultValue := [],
             required := false },
           { name := "city".data, type := "STRING".data, defaultValue := "x".data,
             required := false }] }

/-- A template whose name smuggles a whole ON INSTALL block through the
generator via embedded newlines. -/
def tNasty : KloreTemplate := { emptyTemplate with
  name := "a\nON INSTALL\nRUN \"evil\"\nEND".data }

/-- A newline-clean template with an empty onInstall list. -/
def tShop : KloreTemplate := { emptyTemplate with name := "shop".data }

/-- A VAR line with an unrecognized TYPE token. -/
def varLineFoo : Str := "VAR port FOO \"8080\"".data

/-- A definition file declaring one required variable with empty default. -/
def reqContent : Str := "VAR x STRING \"\" REQUIRED".data

/-- An environment holding `reqContent`, with a free output path. -/
def envReq : InstallEnv :=
  { kloreContent := some reqContent
    outputExists := false
    sourceEntries := FsEntryList.nil
    promptResult := none
    confirmPostInstall := none
    postInstallError := none }

/-- The `--defaults` options for `reqContent`: every variable pre-filled
with its declared default. -/
def optDefaults : InstallOptions :=
  { outputPath := ["out".data]
    force := false
    values := some (buildDefaultValues (parseKlore reqContent)) }

/-- An environment whose output path already exists. -/
def envExists : InstallEnv :=
  { kloreContent := some "NAME t".data
    outputExists := true
    sourceEntries := FsEntryList.nil
    promptResult := none
    confirmPostInstall := none
    postInstallError := none }

/-- Options without the force flag and without pre-supplied values. -/
def optPlain : InstallOptions :=
  { outputPath := ["out".data]
    force := false
    values := none }

-- ════════════════════════════════════════════════════════════════════
-- The expected shape of `parseKlore (generateKlore t)`.
-- ════════════════════════════════════════════════════════════════════

/-- The trimmed, comment-free lines of the generated ON INSTALL block. -/
def blockCores (t : KloreTemplate) : List Str :=
  [copyCore] ++ (orderedReps t).map (fun r => jsTrim (replCore r)) ++ runCoresOf t

/-- The template state just before the ON INSTALL block is parsed. -/
def preBlockTemplate (t : KloreTemplate) : KloreTemplate :=
  { emptyTemplate with
      name := extractString (nameLineG t)
      version := if t.version.length ≠ 0 then extractString (versionLineG t)
                 else "1.0.0".data
      framework :=
        match t.framework with
        | some f => if f.length ≠ 0 then some (extractString (frameworkLineG f)) else none
        | none => none
      vars := (orderedVars t).map (fun p => parseAsk (askLineFor p.1 p.2)) }

/-- What parsing the generated text yields: the pre-block state, then the
ON INSTALL block folded through `blockStep`. -/
def expectedParse (t : KloreTemplate) : KloreTemplate :=
  (blockCores t).foldl (fun acc l => blockStep l acc) (preBlockTemplate t)

/-- The trim-then-keep preprocessing step, applied to a list of lines. -/
def keptOf (ls : List Str) : List Str :=
  (ls.map jsTrim).filter (fun l => l.length ≠ 0 && !(startsWithB l "#".data))

/-- Whether a single raw line survives preprocessing. -/
def lineKept (l : Str) : Bool :=
  (jsTrim l).length ≠ 0 && !(startsWithB (jsTrim l) "#".data)

/-- The lines of the generated file that survive preprocessing. -/
def keptLines (t : KloreTemplate) : List Str :=
  [nameLineG t] ++
  (if t.version.length ≠ 0 then [versionLineG t] else []) ++
  (match t.framework with
   | some f => if f.length ≠ 0 then [frameworkLineG f] else []
   | none => []) ++
  (orderedVars t).map (fun p => askLineFor p.1 p.2) ++
  ["ON INSTALL".data] ++ blockCores t ++ ["END".data]

-- ════════════════════════════════════════════════════════════════════
-- Lemmas.  Part A: generic string utilities.
-- ════════════════════════════════════════════════════════════════════

theorem splitNlA_append_nofree (a b : Str) (ha : a.contains nlChar = false) :
    splitNlA (a ++ nlChar :: b) = (a, splitNl b) := by
  induction a with
  | nil => simp [splitNlA, splitNl]
  | cons c cs ih =>
    simp only [List.contains_cons, Bool.or_eq_false_iff] at ha
    have hne : ¬(c = nlChar) := by
      intro h; rw [h] at ha; simpa using ha.1
    simp [splitNlA, ih ha.2, hne]

theorem splitNlA_nofree (a : Str) (ha : a.contains nlChar = false) :
    splitNlA a = (a, []) := by
  induction a with
  | nil => rfl
  | cons c cs ih =>
    simp only [List.contains_cons, Bool.or_eq_false_iff] at ha
    have hne : ¬(c = nlChar) := by
      intro h; rw [h] at ha; simpa using ha.1
    simp [splitNlA, ih ha.2, hne]

theorem splitNl_joinNl (ls : List Str) (h : ∀ l ∈ ls, l.contains nlChar = false)
    (hne : ls ≠ []) : splitNl (joinNl ls) = ls := by
  induction ls with
  | nil => exact absurd rfl hne
  | cons a ls ih =>
    cases ls with
    | nil =>
      simp only [joinNl, splitNl]
      rw [splitNlA_nofree a (h a (by simp))]
    | cons b ls' =>
      simp only [joinNl, splitNl]
      rw [splitNlA_append_nofree a (joinNl (b :: ls')) (h a (by simp))]
      have := ih (fun l hl => h l (by simp [hl])) (by simp)
      simpa using this

theorem dropWhile_eq_self_of_head (p : Char → Bool) (l : Str)
    (h : ∀ c, l.head? = some c → p c = false) : l.dropWhile p = l := by
  cases l with
  | nil => rfl
  | cons c cs => simp [List.dropWhile, h c rfl]

theorem jsTrim_eq_self (l : Str)
    (h1 : ∀ c, l.head? = some c → isSpc c = false)
    (h2 : ∀ c, l.getLast? = some c → isSpc c = false) : jsTrim l = l := by
  unfold jsTrim
  rw [dropWhile_eq_self_of_head _ _ h1]
  rw [dropWhile_eq_self_of_head _ _ (by
    intro c hc
    exact h2 c (by rw [← List.head?_reverse]; exact hc))]
  simp

theorem jsTrim_spaces_append (sp l : Str) (hsp : ∀ c ∈ sp, isSpc c = true) :
    jsTrim (sp ++ l) = jsTrim l := by
  unfold jsTrim
  congr 2
  induction sp with
  | nil => rfl
  | cons c cs ih =>
    simp only [List.cons_append, List.dropWhile, hsp c (by simp)]
    exact ih (fun d hd => hsp d (by simp [hd]))

theorem startsWithB_nil (l : Str) : startsWithB l [] = true := by cases l <;> rfl

theorem startsWithB_append (p r : Str) : startsWithB (p ++ r) p = true := by
  simp [startsWithB, List.isPrefixOf_iff_prefix]

theorem startsWithB_iff_pref (l p : Str) : startsWithB l p = true ↔ p <+: l :=
  List.isPrefixOf_iff_prefix

theorem containsSub_of_startsWith (pat l : Str) (h : startsWithB l pat = true) :
    containsSub pat l = true := by
  cases l with
  | nil => simpa [containsSub] using h
  | cons c cs => simp only [containsSub, h, Bool.true_or]

theorem containsSub_append_right (pat a b : Str) (h : containsSub pat b = true) :
    containsSub pat (a ++ b) = true := by
  induction a with
  | nil => simpa using h
  | cons c cs ih =>
    have : containsSub pat ((c :: cs) ++ b) =
        (startsWithB ((c :: cs) ++ b) pat || containsSub pat (cs ++ b)) := rfl
    rw [this, ih]
    simp

theorem containsSub_cons_of (pat : Str) (c : Char) (cs : Str)
    (h : containsSub pat cs = true) : containsSub pat (c :: cs) = true := by
  simp only [containsSub, h, Bool.or_true]

theorem prefix_append_cases {α : Type} {pat x y : List α} (h : pat <+: x ++ y) :
    pat <+: x ∨ ∃ z, pat = x ++ z ∧ z <+: y := by
  induction x generalizing pat with
  | nil => right; exact ⟨pat, rfl, by simpa using h⟩
  | cons c xs ih =>
    cases pat with
    | nil => left; exact List.nil_prefix
    | cons p ps =>
      rw [List.cons_append, List.cons_prefix_cons] at h
      rcases ih h.2 with hp | ⟨z, hz1, hz2⟩
      · left; rw [List.cons_prefix_cons]; exact ⟨h.1, hp⟩
      · right; exact ⟨z, by rw [h.1, List.cons_append, hz1], hz2⟩

/-- Decomposition of a substring occurrence in a concatenation: it lies in
`a`, lies in `b`, or crosses the single boundary. -/
theorem containsSub_append_cases (pat a b : Str)
    (h : containsSub pat (a ++ b) = true) :
    containsSub pat a = true ∨ containsSub pat b = true ∨
      ∃ w1 w2, pat = w1 ++ w2 ∧ w1 ≠ [] ∧ w2 ≠ [] ∧ w1 <:+ a ∧ w2 <+: b := by
  induction a with
  | nil => right; left; simpa using h
  | cons c cs ih =>
    simp only [List.cons_append, containsSub, Bool.or_eq_true] at h
    rcases h with h | h
    · rw [startsWithB_iff_pref] at h
      rcases prefix_append_cases (x := c :: cs) (by simpa using h) with hp | ⟨z, hz1, hz2⟩
      · left
        exact containsSub_of_startsWith _ _ ((startsWithB_iff_pref _ _).mpr hp)
      · cases z with
        | nil =>
          left
          refine containsSub_of_startsWith _ _ ((startsWithB_iff_pref _ _).mpr ?_)
          simp only [List.append_nil] at hz1
          exact hz1 ▸ List.prefix_refl _
        | cons z0 zs =>
          right; right
          exact ⟨c :: cs, z0 :: zs, by simpa using hz1, by simp, by simp,
            List.suffix_refl _, hz2⟩
    · rcases ih h with h1 | h1 | ⟨w1, w2, he, hn1, hn2, hs, hp⟩
      · left; exact containsSub_cons_of _ _ _ h1
      · right; left; exact h1
      · right; right
        exact ⟨w1, w2, he, hn1, hn2, hs.trans (List.suffix_cons _ _), hp⟩

theorem notContains_append_headKill (pat a b : Str)
    (h1 : containsSub pat a = false) (h2 : containsSub pat b = false)
    (h3 : ∀ c, b.head? = some c → ¬ c ∈ pat) :
    containsSub pat (a ++ b) = false := by
  by_contra hcon
  simp only [Bool.not_eq_false] at hcon
  rcases containsSub_append_cases pat a b hcon with h | h | ⟨w1, w2, he, hn1, hn2, hs, hp⟩
  · rw [h] at h1; exact absurd h1 (by simp)
  · rw [h] at h2; exact absurd h2 (by simp)
  · cases w2 with
    | nil => exact hn2 rfl
    | cons d ds =>
      rcases hp with ⟨tl, htl⟩
      have hb : b.head? = some d := by rw [← htl]; rfl
      have hmem : d ∈ pat := by rw [he]; simp
      exact h3 d hb hmem

theorem notContains_append_lastKill (pat a b : Str)
    (h1 : containsSub pat a = false) (h2 : containsSub pat b = false)
    (h3 : ∀ c, a.getLast? = some c → ¬ c ∈ pat) :
    containsSub pat (a ++ b) = false := by
  by_contra hcon
  simp only [Bool.not_eq_false] at hcon
  rcases containsSub_append_cases pat a b hcon with h | h | ⟨w1, w2, he, hn1, hn2, hs, hp⟩
  · rw [h] at h1; exact absurd h1 (by simp)
  · rw [h] at h2; exact absurd h2 (by simp)
  · have hlast : a.getLast? = some (w1.getLast hn1) := by
      rcases hs with ⟨pre, hpre⟩
      rw [← hpre, List.getLast?_append_of_ne_nil _ hn1]
      exact (List.getLast?_eq_getLast _ hn1)
    have hmem : w1.getLast hn1 ∈ pat := by
      rw [he]
      exact List.mem_append_left _ (List.getLast_mem hn1)
    exact h3 _ hlast hmem

-- ════════════════════════════════════════════════════════════════════
-- Part B: the escaping / unescaping pair.
-- ════════════════════════════════════════════════════════════════════

theorem bs_ne_dq : bsChar ≠ dqChar := by decide
theorem bs_ne_nl : bsChar ≠ nlChar := by decide
theorem dq_ne_nl : dqChar ≠ nlChar := by decide
theorem bs_ne_n : bsChar ≠ 'n' := by decide
theorem dq_ne_n : dqChar ≠ 'n' := by decide

theorem escapeOriginal_cons (c : Char) (s : Str) :
    escapeOriginal (c :: s) = escUnit c ++ escapeOriginal s := by
  have hbd := bs_ne_dq
  have hbn := bs_ne_nl
  have hdn := dq_ne_nl
  by_cases h1 : c = bsChar
  · subst h1; simp [escapeOriginal, escUnit, hbd, hbn]
  · by_cases h2 : c = dqChar
    · subst h2; simp [escapeOriginal, escUnit, h1, hbn, hdn]
    · by_cases h3 : c = nlChar
      · subst h3; simp [escapeOriginal, escUnit, h1, h2, hbn]
      · simp [escapeOriginal, escUnit, h1, h2, h3]

theorem escapeOriginal_eq_flatMap (s : Str) :
    escapeOriginal s = s.flatMap escUnit := by
  induction s with
  | nil => rfl
  | cons c cs ih => rw [escapeOriginal_cons, ih, List.flatMap_cons]

theorem replace2_cons_ne (a b : Char) (r : Str) (c : Char) (l : Str)
    (h : c ≠ a ∨ ∀ d, l.head? = some d → d ≠ b) :
    replace2 a b r (c :: l) = c :: replace2 a b r l := by
  cases l with
  | nil => rfl
  | cons d rest =>
    have hcond : (c = a && d = b) = false := by
      rcases h with h | h
      · simp [h]
      · simp [h d rfl]
    simp only [replace2, hcond]
    simp at hcond
    by_cases hc : c = a
    · simp [hc, hcond hc]
    · simp [hc]

theorem replace2_match (a b : Char) (r : Str) (rest : Str) :
    replace2 a b r (a :: b :: rest) = r ++ replace2 a b r rest := by
  simp [replace2]

theorem head?_flatMap_escUnit (s : Str) (d : Char)
    (h : s.head? = some d) (hd : d ≠ 'n') :
    ∀ e, (s.flatMap escUnit).head? = some e → e ≠ 'n' := by
  cases s with
  | nil => simp at h
  | cons c cs =>
    intro e he
    have hc : c = d := by
      have := h
      simp only [List.head?_cons, Option.some_inj] at this
      exact this
    subst hc
    rw [List.flatMap_cons] at he
    by_cases h1 : c = bsChar
    · subst h1; simp [escUnit] at he
      rw [← he]; decide
    · by_cases h2 : c = dqChar
      · subst h2; simp [escUnit, h1] at he
        rw [← he]; decide
      · by_cases h3 : c = nlChar
        · subst h3; simp [escUnit, h1, h2] at he
          rw [← he]; decide
        · simp [escUnit, h1, h2, h3] at he
          rw [← he]; exact hd

theorem unescape_step1 (s : Str) (h : hasBSn s = false) :
    replace2 bsChar 'n' [nlChar] (s.flatMap escUnit) = s.flatMap escUnit1 := by
  induction s with
  | nil => rfl
  | cons c cs ih =>
    have hcs : hasBSn cs = false := by
      cases cs with
      | nil => rfl
      | cons d rest =>
        simp only [hasBSn, Bool.or_eq_false_iff] at h
        exact h.2
    have hnotbn : ∀ d, cs.head? = some d → ¬(c = bsChar ∧ d = 'n') := by
      intro d hd hcd
      cases cs with
      | nil => simp at hd
      | cons e rest =>
        have he : e = d := by
          simp only [List.head?_cons, Option.some_inj] at hd
          exact hd
        subst he
        simp only [hasBSn, Bool.or_eq_false_iff] at h
        rcases h with ⟨h1, _⟩
        simp [hcd.1, hcd.2] at h1
    rw [List.flatMap_cons, List.flatMap_cons]
    by_cases h1 : c = bsChar
    · subst h1
      have e1 : escUnit bsChar = [bsChar, bsChar] := by simp [escUnit]
      have e2 : escUnit1 bsChar = [bsChar, bsChar] := by simp [escUnit1]
      rw [e1, e2]
      simp only [List.cons_append, List.nil_append]
      have step1 : replace2 bsChar 'n' [nlChar]
          (bsChar :: bsChar :: cs.flatMap escUnit) =
          bsChar :: replace2 bsChar 'n' [nlChar] (bsChar :: cs.flatMap escUnit) := by
        apply replace2_cons_ne
        right; intro d hd
        have hdd : bsChar = d := by
          simp only [List.head?_cons, Option.some_inj] at hd
          exact hd
        rw [← hdd]; decide
      rw [step1]
      have step2 : replace2 bsChar 'n' [nlChar] (bsChar :: cs.flatMap escUnit) =
          bsChar :: replace2 bsChar 'n' [nlChar] (cs.flatMap escUnit) := by
        apply replace2_cons_ne
        right
        intro d hd hdn
        cases hcs2 : cs with
        | nil => rw [hcs2] at hd; simp at hd
        | cons e rest =>
          rw [hcs2] at hd
          have hen : e ≠ 'n' := by
            intro he
            exact hnotbn e (by rw [hcs2]; rfl) ⟨rfl, he⟩
          exact (head?_flatMap_escUnit (e :: rest) e rfl hen d hd) hdn
      rw [step2, ih hcs]
    · by_cases h2 : c = dqChar
      · subst h2
        have e1 : escUnit dqChar = [bsChar, dqChar] := by simp [escUnit, h1]
        have e2 : escUnit1 dqChar = [bsChar, dqChar] := by simp [escUnit1, h1]
        rw [e1, e2]
        simp only [List.cons_append, List.nil_append]
        have step1 : replace2 bsChar 'n' [nlChar]
            (bsChar :: dqChar :: cs.flatMap escUnit) =
            bsChar :: replace2 bsChar 'n' [nlChar] (dqChar :: cs.flatMap escUnit) := by
          apply replace2_cons_ne
          right; intro d hd
          have hdd : dqChar = d := by
            simp only [List.head?_cons, Option.some_inj] at hd
            exact hd
          rw [← hdd]; decide
        rw [step1]
        have step2 : replace2 bsChar 'n' [nlChar] (dqChar :: cs.flatMap escUnit) =
            dqChar :: replace2 bsChar 'n' [nlChar] (cs.flatMap escUnit) := by
          apply replace2_cons_ne
          left; decide
        rw [step2, ih hcs]
      · by_cases h3 : c = nlChar
        · subst h3
          have e1 : escUnit nlChar = [bsChar, 'n'] := by simp [escUnit, h1, h2]
          have e2 : escUnit1 nlChar = [nlChar] := by simp [escUnit1, h1, h2]
          rw [e1, e2]
          simp only [List.cons_append, List.nil_append]
          rw [replace2_match, ih hcs]
          rfl
        · have e1 : escUnit c = [c] := by simp [escUnit, h1, h2, h3]
          have e2 : escUnit1 c = [c] := by simp [escUnit1, h1, h2]
          rw [e1, e2]
          simp only [List.cons_append, List.nil_append]
          have step1 : replace2 bsChar 'n' [nlChar] (c :: cs.flatMap escUnit) =
              c :: replace2 bsChar 'n' [nlChar] (cs.flatMap escUnit) := by
            apply replace2_cons_ne
            left; exact h1
          rw [step1, ih hcs]

theorem unescape_step2 (s : Str) :
    replace2 bsChar dqChar [dqChar] (s.flatMap escUnit1) = s.flatMap escUnit2 := by
  induction s with
  | nil => rfl
  | cons c cs ih =>
    have hhead : ∀ d, (cs.flatMap escUnit1).head? = some d → d ≠ dqChar := by
      intro d hd
      cases cs with
      | nil => simp at hd
      | cons e rest =>
        rw [List.flatMap_cons] at hd
        by_cases he1 : e = bsChar
        · subst he1; simp [escUnit1] at hd
          rw [← hd]; decide
        · by_cases he2 : e = dqChar
          · subst he2; simp [escUnit1, he1] at hd
            rw [← hd]; decide
          · simp [escUnit1, he1, he2] at hd
            rw [← hd]; exact he2
    rw [List.flatMap_cons, List.flatMap_cons]
    by_cases h1 : c = bsChar
    · subst h1
      have e1 : escUnit1 bsChar = [bsChar, bsChar] := by simp [escUnit1]
      have e2 : escUnit2 bsChar = [bsChar, bsChar] := by simp [escUnit2]
      rw [e1, e2]
      simp only [List.cons_append, List.nil_append]
      have step1 : replace2 bsChar dqChar [dqChar]
          (bsChar :: bsChar :: cs.flatMap escUnit1) =
          bsChar :: replace2 bsChar dqChar [dqChar] (bsChar :: cs.flatMap escUnit1) := by
        apply replace2_cons_ne
        right; intro d hd
        have hdd : bsChar = d := by
          simp only [List.head?_cons, Option.some_inj] at hd
          exact hd
        rw [← hdd]; decide
      rw [step1]
      have step2 : replace2 bsChar dqChar [dqChar] (bsChar :: cs.flatMap escUnit1) =
          bsChar :: replace2 bsChar dqChar [dqChar] (cs.flatMap escUnit1) := by
        apply replace2_cons_ne
        right
        exact hhead
      rw [step2, ih]
    · by_cases h2 : c = dqChar
      · subst h2
        have e1 : escUnit1 dqChar = [bsChar, dqChar] := by simp [escUnit1, h1]
        have e2 : escUnit2 dqChar = [dqChar] := by simp [escUnit2, h1]
        rw [e1, e2]
        simp only [List.cons_append, List.nil_append]
        rw [replace2_match, ih]
        rfl
      · have e1 : escUnit1 c = [c] := by simp [escUnit1, h1, h2]
        have e2 : escUnit2 c = [c] := by simp [escUnit2, h1]
        rw [e1, e2]
        simp only [List.cons_append, List.nil_append]
        have step1 : replace2 bsChar dqChar [dqChar] (c :: cs.flatMap escUnit1) =
            c :: replace2 bsChar dqChar [dqChar] (cs.flatMap escUnit1) := by
          apply replace2_cons_ne
          left; exact h1
        rw [step1, ih]

theorem unescape_step3 (s : Str) :
    replace2 bsChar bsChar [bsChar] (s.flatMap escUnit2) = s := by
  induction s with
  | nil => rfl
  | cons c cs ih =>
    rw [List.flatMap_cons]
    by_cases h1 : c = bsChar
    · subst h1
      have e1 : escUnit2 bsChar = [bsChar, bsChar] := by simp [escUnit2]
      rw [e1]
      simp only [List.cons_append, List.nil_append]
      rw [replace2_match, ih]
      rfl
    · have e1 : escUnit2 c = [c] := by simp [escUnit2, h1]
      rw [e1]
      simp only [List.cons_append, List.nil_append]
      have step1 : replace2 bsChar bsChar [bsChar] (c :: cs.flatMap escUnit2) =
          c :: replace2 bsChar bsChar [bsChar] (cs.flatMap escUnit2) := by
        apply replace2_cons_ne
        left; exact h1
      rw [step1, ih]

/-- The load-bearing inversion: on originals without a backslash directly
followed by `n`, the parser's unescaping inverts the generator's
escaping. -/
theorem unescape_escape (s : Str) (h : hasBSn s = false) :
    unescapeOriginal (escapeOriginal s) = s := by
  rw [escapeOriginal_eq_flatMap]
  unfold unescapeOriginal
  rw [unescape_step1 s h, unescape_step2 s, unescape_step3 s]

-- ════════════════════════════════════════════════════════════════════
-- Part C: character-class facts.
-- ════════════════════════════════════════════════════════════════════

theorem char_le_iff_toNat (a b : Char) : (a ≤ b) ↔ a.toNat ≤ b.toNat := Iff.rfl

theorem char_eq_iff_toNat (a b : Char) : (a = b) ↔ a.toNat = b.toNat := by
  constructor
  · intro h; rw [h]
  · intro h
    apply Char.ext
    exact UInt32.ext h

theorem isLowerWordChar_toNat (c : Char) (h : isLowerWordChar c = true) :
    (97 ≤ c.toNat ∧ c.toNat ≤ 122) ∨ (48 ≤ c.toNat ∧ c.toNat ≤ 57) ∨ c.toNat = 95 := by
  simp only [isLowerWordChar, Bool.or_eq_true, Bool.and_eq_true, decide_eq_true_eq,
    char_le_iff_toNat, char_eq_iff_toNat] at h
  revert h
  have e1 : ('a').toNat = 97 := by decide
  have e2 : ('z').toNat = 122 := by decide
  have e3 : ('0').toNat = 48 := by decide
  have e4 : ('9').toNat = 57 := by decide
  have e5 : ('_').toNat = 95 := by decide
  rw [e1, e2, e3, e4, e5]
  tauto

theorem isWordChar_toNat (c : Char) (h : isWordChar c = true) :
    (97 ≤ c.toNat ∧ c.toNat ≤ 122) ∨ (65 ≤ c.toNat ∧ c.toNat ≤ 90) ∨
      (48 ≤ c.toNat ∧ c.toNat ≤ 57) ∨ c.toNat = 95 := by
  simp only [isWordChar, Bool.or_eq_true, Bool.and_eq_true, decide_eq_true_eq,
    char_le_iff_toNat, char_eq_iff_toNat] at h
  revert h
  have e1 : ('a').toNat = 97 := by decide
  have e2 : ('z').toNat = 122 := by decide
  have e3 : ('0').toNat = 48 := by decide
  have e4 : ('9').toNat = 57 := by decide
  have e5 : ('_').toNat = 95 := by decide
  have e6 : ('A').toNat = 65 := by decide
  have e7 : ('Z').toNat = 90 := by decide
  rw [e1, e2, e3, e4, e5, e6, e7]
  tauto

theorem isSpc_eq_false_of_toNat (c : Char)
    (h : c.toNat ≠ 32 ∧ c.toNat ≠ 9 ∧ c.toNat ≠ 13 ∧ c.toNat ≠ 10 ∧
      c.toNat ≠ 12 ∧ c.toNat ≠ 11) : isSpc c = false := by
  simp only [isSpc, Bool.or_eq_false_iff]
  refine ⟨⟨⟨⟨⟨?_, ?_⟩, ?_⟩, ?_⟩, ?_⟩, ?_⟩ <;>
    · simp only [decide_eq_false_iff_not, char_eq_iff_toNat]
      simp_all [nlChar, Char.ofNat]

theorem isSpc_false_of_word (c : Char) (h : isWordChar c = true) : isSpc c = false := by
  rcases isWordChar_toNat c h with h1 | h1 | h1 | h1 <;>
    exact isSpc_eq_false_of_toNat c (by omega)

theorem isSpc_false_of_lower (c : Char) (h : isLowerWordChar c = true) :
    isSpc c = false := by
  rcases isLowerWordChar_toNat c h with h1 | h1 | h1 <;>
    exact isSpc_eq_false_of_toNat c (by omega)

theorem isWordChar_of_lower (c : Char) (h : isLowerWordChar c = true) :
    isWordChar c = true := by
  simp only [isLowerWordChar, Bool.or_eq_true] at h
  simp only [isWordChar, Bool.or_eq_true]
  tauto

theorem not_upper_of_lower (c : Char) (h : isLowerWordChar c = true) :
    ('A' ≤ c && c ≤ 'Z') = false := by
  rcases isLowerWordChar_toNat c h with h1 | h1 | h1 <;>
    · simp only [Bool.and_eq_false_iff, decide_eq_false_iff_not, char_le_iff_toNat]
      have e3 : ('A').toNat = 65 := by decide
      have e4 : ('Z').toNat = 90 := by decide
      omega

theorem spacedCaps_of_lower (s : Str) (h : ∀ c ∈ s, isLowerWordChar c = true) :
    spacedCaps s = s := by
  induction s with
  | nil => rfl
  | cons c cs ih =>
    have hc := not_upper_of_lower c (h c (by simp))
    have hrest := ih (fun d hd => h d (by simp [hd]))
    simp only [spacedCaps, List.flatMap_cons] at *
    rw [hc] at *
    simp only [Bool.false_eq_true, if_false]
    rw [hrest]
    rfl

-- ════════════════════════════════════════════════════════════════════
-- Part D: scanners, leftmost matches, takeWhile helpers.
-- ════════════════════════════════════════════════════════════════════

theorem takeWhile_append_stop (p : Char → Bool) (xs : Str) (y : Char) (ys : Str)
    (h1 : ∀ x ∈ xs, p x = true) (h2 : p y = false) :
    (xs ++ y :: ys).takeWhile p = xs := by
  induction xs with
  | nil => simp [List.takeWhile, h2]
  | cons c cs ih =>
    simp only [List.cons_append, List.takeWhile]
    rw [h1 c (by simp)]
    simp [ih (fun x hx => h1 x (by simp [hx]))]

theorem dropWhile_append_stop (p : Char → Bool) (xs : Str) (y : Char) (ys : Str)
    (h1 : ∀ x ∈ xs, p x = true) (h2 : p y = false) :
    (xs ++ y :: ys).dropWhile p = y :: ys := by
  induction xs with
  | nil => simp [List.dropWhile, h2]
  | cons c cs ih =>
    simp only [List.cons_append, List.dropWhile]
    rw [h1 c (by simp)]
    simpa using ih (fun x hx => h1 x (by simp [hx]))

theorem takeWhile_all (p : Char → Bool) (xs : Str) (h : ∀ x ∈ xs, p x = true) :
    xs.takeWhile p = xs := by
  induction xs with
  | nil => rfl
  | cons c cs ih =>
    simp only [List.takeWhile]
    rw [h c (by simp)]
    simp [ih (fun x hx => h x (by simp [hx]))]

theorem scanFirst_cons_none {α : Type} (att : Str → Option α) (c : Char) (cs : Str)
    (h : att (c :: cs) = none) : scanFirst att (c :: cs) = scanFirst att cs := by
  simp [scanFirst, h]

theorem scanFirst_cons_some {α : Type} (att : Str → Option α) (c : Char) (cs : Str)
    (r : α) (h : att (c :: cs) = some r) : scanFirst att (c :: cs) = some r := by
  simp [scanFirst, h]

theorem suffix_append_cases {α : Type} {a' x y : List α} (h : a' <:+ x ++ y) :
    a' <:+ y ∨ ∃ x', x' <:+ x ∧ x' ≠ [] ∧ a' = x' ++ y := by
  induction x with
  | nil => left; simpa using h
  | cons c xs ih =>
    rw [List.cons_append, List.suffix_cons_iff] at h
    rcases h with h | h
    · right
      exact ⟨c :: xs, List.suffix_refl _, by simp, by simpa using h⟩
    · rcases ih h with h1 | ⟨x', hx1, hx2, hx3⟩
      · left; exact h1
      · right; exact ⟨x', hx1.trans (List.suffix_cons _ _), hx2, hx3⟩

theorem scanFirst_append_skip {α : Type} (att : Str → Option α) (a b : Str)
    (h : ∀ a', a' <:+ a → a' ≠ [] → att (a' ++ b) = none) :
    scanFirst att (a ++ b) = scanFirst att b := by
  induction a with
  | nil => rfl
  | cons c cs ih =>
    rw [List.cons_append]
    rw [scanFirst_cons_none att c (cs ++ b)
      (h (c :: cs) (List.suffix_refl _) (by simp))]
    exact ih (fun a' ha' hne => h a' (ha'.trans (List.suffix_cons _ _)) hne)

theorem ciStrip_self_append (p r : Str) : ciStrip p (p ++ r) = some r := by
  induction p with
  | nil => rfl
  | cons c cs ih => simp [ciStrip, ih]

/-- A successful case-insensitive strip exposes the matched region: the
input starts with a block whose uppercase image is that of the pattern. -/
theorem ciStrip_some_decompose (p s r : Str) (h : ciStrip p s = some r) :
    ∃ u, s = u ++ r ∧ jsToUpper u = jsToUpper p := by
  induction p generalizing s with
  | nil =>
    refine ⟨[], ?_, rfl⟩
    simpa [ciStrip] using h
  | cons c cs ih =>
    cases s with
    | nil => simp [ciStrip] at h
    | cons d ds =>
      simp only [ciStrip] at h
      by_cases hd : d.toUpper = c.toUpper
      · rw [if_pos hd] at h
        rcases ih ds h with ⟨u, hu1, hu2⟩
        exact ⟨d :: u, by simp [hu1], by simp [jsToUpper, hd] at *; simpa using hu2⟩
      · rw [if_neg hd] at h
        exact absurd h (by simp)

theorem ciStrip_none_of_head (p ps : Str) (c : Char) (cs : Str) (q : Char)
    (hp : p = q :: ps) (h : c.toUpper ≠ q.toUpper) :
    ciStrip p (c :: cs) = none := by
  subst hp
  simp [ciStrip, h]

theorem head?_append_of (a b : Str) (c : Char) (h : a.head? = some c) :
    (a ++ b).head? = some c := by
  cases a with
  | nil => simp at h
  | cons d ds => simpa using h

theorem getLast?_append_ne (a b : Str) (h : b ≠ []) :
    (a ++ b).getLast? = b.getLast? := by
  rw [List.getLast?_append_of_ne_nil _ h]

theorem dropWhile_append_last (p : Char → Bool) (r : Str) (c : Char)
    (h : p c = false) : ∃ r', (r ++ [c]).dropWhile p = r' ++ [c] := by
  induction r with
  | nil => exact ⟨[], by simp [List.dropWhile, h]⟩
  | cons d ds ih =>
    by_cases hd : p d
    · simpa [List.dropWhile, hd] using ih
    · exact ⟨d :: ds, by simp [List.dropWhile, hd]⟩

theorem jsTrim_head_nonspace (l : Str) (c : Char) (h : l.head? = some c)
    (hc : isSpc c = false) : (jsTrim l).head? = some c := by
  cases l with
  | nil => simp at h
  | cons d ds =>
    have hd : d = c := by simpa using h
    subst hd
    unfold jsTrim
    rw [dropWhile_eq_self_of_head isSpc (d :: ds) (by
      intro e he
      have hde : d = e := by simpa using he
      rw [← hde]; exact hc)]
    rw [List.reverse_cons]
    rcases dropWhile_append_last isSpc ds.reverse d hc with ⟨r', hr'⟩
    rw [hr']
    simp

theorem startsWith_single_iff (l : Str) (c : Char) :
    startsWithB l [c] = true ↔ l.head? = some c := by
  cases l with
  | nil => simp [startsWithB, List.isPrefixOf]
  | cons d ds =>
    rw [startsWithB_iff_pref]
    constructor
    · rintro ⟨t, ht⟩
      simp only [List.singleton_append] at ht
      rw [← ht]
      rfl
    · intro h
      have : d = c := by simpa using h
      exact ⟨ds, by simp [this]⟩

theorem tokenize_head_word (w r : Str) (hw : w ≠ [])
    (hns : ∀ c ∈ w, isSpc c = false)
    (hq : ∀ c, w.head? = some c → (c ≠ dqChar ∧ c ≠ sqChar ∧ c ≠ '[')) :
    ∃ ts, tokenize (w ++ ' ' :: r) = w :: ts := by
  cases w with
  | nil => exact absurd rfl hw
  | cons c w' =>
    rcases hq c rfl with ⟨hc1, hc2, hc3⟩
    have hcs : isSpc c = false := hns c (by simp)
    refine ⟨tokenizeF ((w' ++ ' ' :: r).length + 1) (' ' :: r), ?_⟩
    unfold tokenize
    have hform : (c :: w') ++ ' ' :: r = c :: (w' ++ ' ' :: r) := by simp
    rw [hform]
    have hlen : (c :: (w' ++ ' ' :: r)).length + 1 = ((w' ++ ' ' :: r).length + 1) + 1 := by
      simp
    rw [hlen]
    simp only [tokenizeF, hcs, Bool.false_eq_true, if_false, hc1, hc2, hc3, if_neg]
    rw [← hform]
    rw [takeWhile_append_stop _ _ _ _
      (fun x hx => by simp [hns x hx]) (by simp [isSpc])]
    rw [dropWhile_append_stop _ _ _ _
      (fun x hx => by simp [hns x hx]) (by simp [isSpc])]
    rfl

theorem parseLineFn_ask (rest : Str) (t : KloreTemplate) :
    parseLineFn ("ASK".data ++ ' ' :: rest) t =
      { t with vars := t.vars ++ [parseAsk ("ASK".data ++ ' ' :: rest)] } := by
  obtain ⟨ts, hts⟩ := tokenize_head_word "ASK".data rest (by decide) (by decide) (by decide)
  simp only [parseLineFn]
  rw [hts]
  simp only []
  rw [if_neg (by decide), if_neg (by decide), if_neg (by decide), if_neg (by decide),
    if_neg (by decide), if_neg (by decide), if_neg (by decide), if_pos (by decide)]

theorem parseLineFn_name (rest : Str) (t : KloreTemplate) :
    parseLineFn ("NAME".data ++ ' ' :: rest) t =
      { t with name := extractString ("NAME".data ++ ' ' :: rest) } := by
  obtain ⟨ts, hts⟩ := tokenize_head_word "NAME".data rest (by decide) (by decide) (by decide)
  simp only [parseLineFn]
  rw [hts]
  simp only []
  rw [if_pos (by decide)]

theorem parseLineFn_version (rest : Str) (t : KloreTemplate) :
    parseLineFn ("VERSION".data ++ ' ' :: rest) t =
      { t with version := extractString ("VERSION".data ++ ' ' :: rest) } := by
  obtain ⟨ts, hts⟩ := tokenize_head_word "VERSION".data rest (by decide) (by decide) (by decide)
  simp only [parseLineFn]
  rw [hts]
  simp only []
  rw [if_neg (by decide), if_pos (by decide)]

theorem parseLineFn_framework (rest : Str) (t : KloreTemplate) :
    parseLineFn ("FRAMEWORK".data ++ ' ' :: rest) t =
      { t with framework := some (extractString ("FRAMEWORK".data ++ ' ' :: rest)) } := by
  obtain ⟨ts, hts⟩ :=
    tokenize_head_word "FRAMEWORK".data rest (by decide) (by decide) (by decide)
  simp only [parseLineFn]
  rw [hts]
  simp only []
  rw [if_neg (by decide), if_neg (by decide), if_neg (by decide), if_neg (by decide),
    if_pos (by decide)]

theorem isOnInstallCmd_word (w rest : Str) (hw : w ≠ [])
    (hns : ∀ c ∈ w, isSpc c = false)
    (hq : ∀ c, w.head? = some c → (c ≠ dqChar ∧ c ≠ sqChar ∧ c ≠ '['))
    (hne1 : jsToUpper w ≠ "ON_INSTALL".data) (hne2 : jsToUpper w ≠ "ON".data) :
    isOnInstallCmd (w ++ ' ' :: rest) = false := by
  obtain ⟨ts, hts⟩ := tokenize_head_word w rest hw hns hq
  simp only [isOnInstallCmd]
  rw [hts]
  simp [hne1, hne2]

theorem parseLinesF_nil (f : Nat) (t : KloreTemplate) : parseLinesF f [] t = t := by
  cases f <;> rfl

theorem parseLinesF_cons_plain (f : Nat) (l : Str) (rest : List Str) (t : KloreTemplate)
    (h : isOnInstallCmd l = false) :
    parseLinesF (f + 1) (l :: rest) t = parseLinesF f rest (parseLineFn l t) := by
  simp [parseLinesF, h]

theorem parseLinesF_cons_on (f : Nat) (l : Str) (rest : List Str) (t : KloreTemplate)
    (h : isOnInstallCmd l = true) :
    parseLinesF (f + 1) (l :: rest) t =
      parseLinesF f (parseOnInstallLines rest t).2 (parseOnInstallLines rest t).1 := by
  simp [parseLinesF, h]

theorem parseOnInstallLines_end (l : Str) (rest : List Str) (t : KloreTemplate)
    (h : jsToUpper l = "END".data) :
    parseOnInstallLines (l :: rest) t = (t, rest) := by
  simp [parseOnInstallLines, h]

theorem parseOnInstallLines_step (l : Str) (rest : List Str) (t : KloreTemplate)
    (h : jsToUpper l ≠ "END".data) :
    parseOnInstallLines (l :: rest) t = parseOnInstallLines rest (blockStep l t) := by
  simp [parseOnInstallLines, h]

theorem jsToUpper_head (l : Str) : (jsToUpper l).head? = l.head?.map Char.toUpper := by
  cases l <;> rfl

theorem ne_of_head_upper (l : Str) (p : Str) (c : Char) (h : l.head? = some c)
    (hne : ∀ d, p.head? = some d → c.toUpper ≠ d) : jsToUpper l ≠ p := by
  intro he
  cases l with
  | nil => simp at h
  | cons e es =>
    have hec : e = c := by simpa using h
    subst hec
    cases p with
    | nil => simp [jsToUpper] at he
    | cons d ds =>
      have : e.toUpper = d := by
        have := congrArg List.head? he
        simpa [jsToUpper] using this
      exact hne d rfl this

theorem head?_dropWhile_false (p : Char → Bool) (l : Str) :
    ∀ c, (l.dropWhile p).head? = some c → p c = false := by
  induction l with
  | nil => intro c h; simp at h
  | cons d ds ih =>
    intro c h
    by_cases hd : p d
    · rw [List.dropWhile_cons_of_pos hd] at h
      exact ih c h
    · rw [List.dropWhile_cons_of_neg hd] at h
      have : d = c := by simpa using h
      rw [← this]
      simpa using hd

theorem head?_of_pref {P X : Str} (c : Char) (h : P <+: X) (hc : P.head? = some c) :
    X.head? = some c := by
  rcases h with ⟨t, rfl⟩
  cases P with
  | nil => simp at hc
  | cons a as => simpa using hc

theorem jsTrim_reverse_view (l : Str) :
    jsTrim l = ((l.dropWhile isSpc).reverse.dropWhile isSpc).reverse := rfl

/-- `jsTrim l` is a prefix of `l.dropWhile isSpc`. -/
theorem jsTrim_pref (l : Str) : jsTrim l <+: l.dropWhile isSpc := by
  rw [jsTrim_reverse_view]
  have hs : (l.dropWhile isSpc).reverse.dropWhile isSpc <:+ (l.dropWhile isSpc).reverse :=
    List.dropWhile_suffix _
  rcases hs with ⟨pre, hpre⟩
  refine ⟨pre.reverse, ?_⟩
  have := congrArg List.reverse hpre
  simpa using this

theorem jsTrim_head_nospace (l : Str) :
    ∀ c, (jsTrim l).head? = some c → isSpc c = false := by
  intro c h
  exact head?_dropWhile_false isSpc l c (head?_of_pref c (jsTrim_pref l) h)

theorem jsTrim_last_nospace (l : Str) :
    ∀ c, (jsTrim l).getLast? = some c → isSpc c = false := by
  intro c h
  rw [jsTrim_reverse_view, List.getLast?_reverse] at h
  exact head?_dropWhile_false isSpc _ c h

theorem jsTrim_idem (l : Str) : jsTrim (jsTrim l) = jsTrim l :=
  jsTrim_eq_self _ (jsTrim_head_nospace l) (jsTrim_last_nospace l)

theorem jsToUpper_append (a b : Str) : jsToUpper (a ++ b) = jsToUpper a ++ jsToUpper b := by
  simp [jsToUpper]

theorem splitAtChar_first (q : Char) (a b : Str) (ha : a.contains q = false) :
    splitAtChar q (a ++ q :: b) = some (a, b) := by
  induction a with
  | nil => simp [splitAtChar]
  | cons c cs ih =>
    simp only [List.contains_cons, Bool.or_eq_false_iff] at ha
    have hcq : ¬(c = q) := by
      intro h; rw [h] at ha; simpa using ha.1
    simp only [List.cons_append, splitAtChar, if_neg hcq]
    rw [show cs.append (q :: b) = cs ++ q :: b from rfl, ih ha.2]

theorem extractString_skip (c : Char) (cs : Str) (h1 : c ≠ dqChar) (h2 : c ≠ sqChar) :
    extractString (c :: cs) = extractString cs := by
  simp [extractString, h1, h2]

theorem extractString_dq (cs : Str) (a b : Str) (ha : a.contains dqChar = false)
    (hcs : cs = a ++ dqChar :: b) : extractString (dqChar :: cs) = a := by
  subst hcs
  simp [extractString, splitAtChar_first dqChar a b ha]

theorem dropWhile_append_of_mem (p : Char → Bool) (x y : Str)
    (h : ∃ c ∈ x, p c = false) :
    (x ++ y).dropWhile p = x.dropWhile p ++ y := by
  induction x with
  | nil => rcases h with ⟨c, hc, _⟩; simp at hc
  | cons d ds ih =>
    by_cases hd : p d
    · have hds : ∃ c ∈ ds, p c = false := by
        rcases h with ⟨c, hc, hcp⟩
        rcases List.mem_cons.mp hc with rfl | hmem
        · rw [hd] at hcp; simp at hcp
        · exact ⟨c, hmem, hcp⟩
      simp only [List.cons_append, List.dropWhile_cons_of_pos hd]
      exact ih hds
    · simp [List.dropWhile_cons_of_neg hd]

/-- Trimming a string with a space-free nonempty head block only touches
the tail. -/
theorem jsTrim_append_head (a b : Str) (hne : a ≠ [])
    (h1 : ∀ c ∈ a, isSpc c = false)
    (h2 : ∃ c ∈ b, isSpc c = false) :
    jsTrim (a ++ b) = a ++ (b.reverse.dropWhile isSpc).reverse := by
  rw [jsTrim_reverse_view]
  rw [dropWhile_eq_self_of_head isSpc (a ++ b) (by
    intro c hc
    cases a with
    | nil => exact absurd rfl hne
    | cons d ds =>
      have : d = c := by simpa using hc
      subst this
      exact h1 d (by simp))]
  rw [List.reverse_append]
  rw [dropWhile_append_of_mem isSpc b.reverse a.reverse (by
    rcases h2 with ⟨c, hc, hcp⟩
    exact ⟨c, by simpa using hc, hcp⟩)]
  simp

theorem blockStep_copyCore (t : KloreTemplate) : blockStep copyCore t = t := by rfl

theorem copyCore_upper_ne_end : jsToUpper copyCore ≠ "END".data := by decide

theorem runCore_head (cmd : Str) : (runCore cmd).head? = some 'R' := by
  unfold runCore
  repeat apply head?_append_of
  rfl

theorem runCore_last (cmd : Str) : (runCore cmd).getLast? = some dqChar := by
  unfold runCore
  rw [getLast?_append_ne _ _ (by simp [dq])]
  rfl

theorem runCore_trim (cmd : Str) : jsTrim (runCore cmd) = runCore cmd := by
  apply jsTrim_eq_self
  · intro c hc
    rw [runCore_head cmd] at hc
    have : 'R' = c := by simpa using hc
    rw [← this]; decide
  · intro c hc
    rw [runCore_last cmd] at hc
    have : dqChar = c := by simpa using hc
    rw [← this]; decide

theorem runCore_form (cmd : Str) : runCore cmd =
    "RUN ".data ++ (dq ++ (cmd ++ (dq ++ (" MESSAGE ".data ++ (dq ++ (msgFor cmd ++ dq)))))) := by
  simp [runCore, List.append_assoc]

theorem runCore_upper_startsWith (cmd : Str) :
    startsWithB (jsToUpper (runCore cmd)) "RUN".data = true := by
  rw [runCore_form]
  rfl

theorem runCore_upper_ne_end (cmd : Str) : jsToUpper (runCore cmd) ≠ "END".data := by
  apply ne_of_head_upper _ _ 'R' (runCore_head cmd)
  intro d hd
  have : 'E' = d := by simpa using hd
  rw [← this]; decide

theorem blockStep_runCore (cmd : Str) (t : KloreTemplate) :
    blockStep (runCore cmd) t =
      if (extractString (runCore cmd)).length = 0 then t
      else { t with onInstall :=
        t.onInstall.map (fun l => l ++ [extractString (runCore cmd)]) } := by
  show (let trimmed := jsTrim (runCore cmd)
        let upperLine := jsToUpper trimmed
        if startsWithB upperLine "RUN".data then
          let command := extractString (runCore cmd)
          if command.length = 0 then t
          else { t with onInstall := t.onInstall.map (fun l => l ++ [command]) }
        else if startsWithB upperLine "REPLACE".data then
          { t with replacements := t.replacements ++ [parseReplacement trimmed] }
        else t) = _
  simp only [runCore_trim]
  rw [if_pos (runCore_upper_startsWith cmd)]

theorem extractString_runCore (cmd : Str) (h : cmd.contains dqChar = false) :
    extractString (runCore cmd) = cmd := by
  rw [runCore_form]
  rw [show ("RUN ".data ++ (dq ++ (cmd ++ (dq ++ (" MESSAGE ".data ++
      (dq ++ (msgFor cmd ++ dq))))))) =
    'R' :: 'U' :: 'N' :: ' ' :: dqChar ::
      (cmd ++ dqChar :: (" MESSAGE ".data ++ (dq ++ (msgFor cmd ++ dq)))) by
    simp [dq]]
  rw [extractString_skip _ _ (by decide) (by decide)]
  rw [extractString_skip _ _ (by decide) (by decide)]
  rw [extractString_skip _ _ (by decide) (by decide)]
  rw [extractString_skip _ _ (by decide) (by decide)]
  exact extractString_dq _ cmd _ h rfl

theorem replCore_form (r : KloreReplacement) : replCore r =
    "REPLACE ".data ++ (dq ++ (escapeOriginal r.original ++ (dq ++ (" WITH ".data ++
      (dq ++ ("\x7b\x7b ".data ++ (r.varName ++ (" \x7d\x7d".data ++ (dq ++ (" IN ".data ++
        joinSpace (r.filePatterns.map (fun p => dq ++ p ++ dq)))))))))))) := by
  simp [replCore, List.append_assoc]

theorem replCore_form2 (r : KloreReplacement) : replCore r =
    "REPLACE".data ++ (' ' :: (dq ++ (escapeOriginal r.original ++ (dq ++ (" WITH ".data ++
      (dq ++ ("\x7b\x7b ".data ++ (r.varName ++ (" \x7d\x7d".data ++ (dq ++ (" IN ".data ++
        joinSpace (r.filePatterns.map (fun p => dq ++ p ++ dq))))))))))))) := by
  simp [replCore, List.append_assoc]

theorem replCore_trim_form (r : KloreReplacement) :
    ∃ z, jsTrim (replCore r) = "REPLACE".data ++ z := by
  rw [replCore_form2]
  refine ⟨_, jsTrim_append_head _ _ (by decide) (by decide) ?_⟩
  exact ⟨dqChar, by simp [dq], by decide⟩

theorem replCore_trim_head (r : KloreReplacement) :
    (jsTrim (replCore r)).head? = some 'R' := by
  rcases replCore_trim_form r with ⟨z, hz⟩
  rw [hz]
  rfl

theorem replCore_trim_upper_ne_end (r : KloreReplacement) :
    jsToUpper (jsTrim (replCore r)) ≠ "END".data := by
  apply ne_of_head_upper _ _ 'R' (replCore_trim_head r)
  intro d hd
  have : 'E' = d := by simpa using hd
  rw [← this]; decide

theorem replCore_trim_not_run (r : KloreReplacement) :
    startsWithB (jsToUpper (jsTrim (replCore r))) "RUN".data = false := by
  rcases replCore_trim_form r with ⟨z, hz⟩
  rw [hz, jsToUpper_append]
  rw [show jsToUpper "REPLACE".data = "REPLACE".data by rfl]
  rfl

theorem replCore_trim_is_replace (r : KloreReplacement) :
    startsWithB (jsToUpper (jsTrim (replCore r))) "REPLACE".data = true := by
  rcases replCore_trim_form r with ⟨z, hz⟩
  rw [hz, jsToUpper_append]
  rw [show jsToUpper "REPLACE".data = "REPLACE".data by rfl]
  exact startsWithB_append _ _

theorem blockStep_replCore (r : KloreReplacement) (t : KloreTemplate) :
    blockStep (jsTrim (replCore r)) t =
      { t with replacements :=
          t.replacements ++ [parseReplacement (jsTrim (replCore r))] } := by
  show (let trimmed := jsTrim (jsTrim (replCore r))
        let upperLine := jsToUpper trimmed
        if startsWithB upperLine "RUN".data then
          let command := extractString (jsTrim (replCore r))
          if command.length = 0 then t
          else { t with onInstall := t.onInstall.map (fun l => l ++ [command]) }
        else if startsWithB upperLine "REPLACE".data then
          { t with replacements := t.replacements ++ [parseReplacement trimmed] }
        else t) = _
  simp only [jsTrim_idem]
  rw [if_neg (by rw [replCore_trim_not_run]; simp)]
  rw [if_pos (replCore_trim_is_replace r)]

-- ════════════════════════════════════════════════════════════════════
-- Part F: the generated lines are newline-free.
-- ════════════════════════════════════════════════════════════════════

theorem contains_iff_mem (l : Str) (c : Char) : l.contains c = true ↔ c ∈ l := by
  induction l with
  | nil => simp
  | cons d ds ih =>
    simp only [List.contains_cons, Bool.or_eq_true, ih, List.mem_cons, beq_iff_eq]

theorem contains_false_iff (l : Str) (c : Char) : l.contains c = false ↔ c ∉ l := by
  rw [← contains_iff_mem]
  cases l.contains c <;> simp

theorem contains_false_of_infix {l' l : Str} {c : Char} (h : l' <:+: l)
    (hc : l.contains c = false) : l'.contains c = false := by
  rw [contains_false_iff] at *
  intro hm
  exact hc (List.IsInfix.mem hm h)

theorem contains_false_append {a b : Str} {c : Char} (ha : a.contains c = false)
    (hb : b.contains c = false) : (a ++ b).contains c = false := by
  rw [contains_false_iff] at *
  intro h
  rcases List.mem_append.mp h with h | h
  · exact ha h
  · exact hb h

theorem jsTrim_infx (l : Str) : jsTrim l <:+: l :=
  (jsTrim_pref l).isInfix.trans (List.dropWhile_suffix isSpc).isInfix

theorem ofNat_toNat_valid (n : Nat) (h1 : 97 ≤ n) (h2 : n ≤ 154) :
    (Char.ofNat n).toNat = n := by
  unfold Char.ofNat
  rw [dif_pos (by left; omega)]
  rfl

theorem toLower_ne_nl (c : Char) (h : c ≠ nlChar) : c.toLower ≠ nlChar := by
  unfold Char.toLower
  by_cases hc : c.toNat ≥ 65 ∧ c.toNat ≤ 90
  · rw [if_pos hc]
    intro he
    have h1 : (Char.ofNat (c.toNat + 32)).toNat = c.toNat + 32 :=
      ofNat_toNat_valid _ (by omega) (by omega)
    rw [he] at h1
    have h2 : nlChar.toNat = 10 := by decide
    omega
  · rw [if_neg hc]; exact h

theorem toUpper_ne_nl (c : Char) (h : c ≠ nlChar) : c.toUpper ≠ nlChar := by
  unfold Char.toUpper
  by_cases hc : c.toNat ≥ 97 ∧ c.toNat ≤ 122
  · rw [if_pos hc]
    intro he
    have h1 : (Char.ofNat (c.toNat - 32)).toNat = c.toNat - 32 := by
      unfold Char.ofNat
      rw [dif_pos (by left; omega)]
      rfl
    rw [he] at h1
    have h2 : nlChar.toNat = 10 := by decide
    omega
  · rw [if_neg hc]; exact h

theorem map_contains_nl_false (f : Char → Char) (s : Str)
    (hf : ∀ c, c ≠ nlChar → f c ≠ nlChar) (hs : s.contains nlChar = false) :
    (s.map f).contains nlChar = false := by
  rw [contains_false_iff] at *
  intro hm
  rcases List.mem_map.mp hm with ⟨c, hc, hfc⟩
  have hcne : c ≠ nlChar := fun he => hs (he ▸ hc)
  exact hf c hcne hfc

theorem jsToLower_nl_free (s : Str) (h : s.contains nlChar = false) :
    (jsToLower s).contains nlChar = false :=
  map_contains_nl_false Char.toLower s toLower_ne_nl h

theorem jsToUpper_nl_free (s : Str) (h : s.contains nlChar = false) :
    (jsToUpper s).contains nlChar = false :=
  map_contains_nl_false Char.toUpper s toUpper_ne_nl h

theorem jsTrim_nl_free (s : Str) (h : s.contains nlChar = false) :
    (jsTrim s).contains nlChar = false :=
  contains_false_of_infix (jsTrim_infx s) h

theorem spacedCaps_nl_free (s : Str) (h : s.contains nlChar = false) :
    (spacedCaps s).contains nlChar = false := by
  rw [contains_false_iff] at *
  intro hm
  rcases List.mem_flatMap.mp hm with ⟨c, hc, hmem⟩
  by_cases hcu : ('A' ≤ c && c ≤ 'Z') = true
  · rw [if_pos hcu] at hmem
    simp only [List.mem_cons, List.not_mem_nil, or_false] at hmem
    rcases hmem with h1 | h1
    · exact absurd h1 (by decide)
    · exact h (h1 ▸ hc)
  · rw [if_neg hcu] at hmem
    simp only [List.mem_singleton] at hmem
    exact h (hmem ▸ hc)

theorem escDefault_nl_free (s : Str) : (escDefault s).contains nlChar = false := by
  rw [contains_false_iff]
  intro hm
  rcases List.mem_map.mp hm with ⟨c, _, hfc⟩
  by_cases hc : c = nlChar
  · rw [if_pos hc] at hfc
    exact absurd hfc (by decide)
  · rw [if_neg hc] at hfc
    exact hc hfc

theorem escapeOriginal_nl_free (s : Str) :
    (escapeOriginal s).contains nlChar = false := by
  rw [escapeOriginal_eq_flatMap, contains_false_iff]
  intro hm
  rcases List.mem_flatMap.mp hm with ⟨c, _, hmem⟩
  unfold escUnit at hmem
  by_cases h1 : c = bsChar
  · rw [if_pos h1] at hmem
    simp only [List.mem_cons, List.not_mem_nil, or_false] at hmem
    rcases hmem with h | h <;> exact absurd h (by decide)
  · by_cases h2 : c = dqChar
    · rw [if_neg h1, if_pos h2] at hmem
      simp only [List.mem_cons, List.not_mem_nil, or_false] at hmem
      rcases hmem with h | h <;> exact absurd h (by decide)
    · by_cases h3 : c = nlChar
      · rw [if_neg h1, if_neg h2, if_pos h3] at hmem
        simp only [List.mem_cons, List.not_mem_nil, or_false] at hmem
        rcases hmem with h | h <;> exact absurd h (by decide)
      · rw [if_neg h1, if_neg h2, if_neg h3] at hmem
        simp only [List.mem_singleton] at hmem
        exact h3 (hmem ▸ rfl)

theorem truncDefault_nl_free (s : Str) (h : s.contains nlChar = false) :
    (truncDefault s).contains nlChar = false := by
  unfold truncDefault
  by_cases hl : s.length > 100
  · rw [if_pos hl]
    refine contains_false_append ?_ (by decide)
    exact contains_false_of_infix ((List.take_prefix _ _).isInfix) h
  · rw [if_neg hl]; exact h

theorem collapseWsDash_nl_free (s : Str) :
    (collapseWsDash s).contains nlChar = false ∧
      (collapseWsDash.collapseWsDashSkip s).contains nlChar = false := by
  induction s with
  | nil => exact ⟨by decide, by decide⟩
  | cons c cs ih =>
    have hcn : ∀ h : isSpc c = false, (nlChar == c) = false := by
      intro hsp
      have : c ≠ nlChar := by
        intro he; rw [he] at hsp; exact absurd hsp (by decide)
      simp only [beq_eq_false_iff_ne, ne_eq]
      exact fun he => this he.symm
    constructor
    · by_cases hc : isSpc c
      · rw [show collapseWsDash (c :: cs) = '-' :: collapseWsDash.collapseWsDashSkip cs by
          simp only [collapseWsDash, hc, if_true]]
        rw [List.contains_cons, ih.2]
        decide
      · rw [show collapseWsDash (c :: cs) = c :: collapseWsDash cs by
          simp only [collapseWsDash, hc, Bool.false_eq_true, if_false]]
        rw [List.contains_cons, ih.1, hcn (by simpa using hc)]
        rfl
    · by_cases hc : isSpc c
      · rw [show collapseWsDash.collapseWsDashSkip (c :: cs) =
            collapseWsDash.collapseWsDashSkip cs by
          simp only [collapseWsDash.collapseWsDashSkip, hc, if_true]]
        exact ih.2
      · rw [show collapseWsDash.collapseWsDashSkip (c :: cs) = c :: collapseWsDash cs by
          simp only [collapseWsDash.collapseWsDashSkip, hc, Bool.false_eq_true, if_false]]
        rw [List.contains_cons, ih.1, hcn (by simpa using hc)]
        rfl

theorem smartQuestionTable_nl_free (gk vn q : Str)
    (h : smartQuestionTable gk vn = some q) : q.contains nlChar = false := by
  unfold smartQuestionTable at h
  split_ifs at h <;> (try cases h) <;> first | decide | exact Option.noConfusion h

theorem question_nl_free (vn gk : Str) (h : vn.contains nlChar = false) :
    (generateSmartQuestion vn gk).contains nlChar = false := by
  unfold generateSmartQuestion
  cases hq : smartQuestionTable gk vn with
  | some q => exact smartQuestionTable_nl_free gk vn q hq
  | none =>
    refine contains_false_append (contains_false_append (by decide) ?_) (by decide)
    exact jsToLower_nl_free _ (jsTrim_nl_free _ (spacedCaps_nl_free _ h))

theorem contains_append_eq (a b : Str) (c : Char) :
    (a ++ b).contains c = (a.contains c || b.contains c) := by
  induction a with
  | nil => simp
  | cons d ds ih =>
    simp only [List.cons_append, List.contains_cons, ih, Bool.or_assoc]

theorem mkAskLine_nl_free (v : KloreVariable) (q dv : Str)
    (hn : v.name.contains nlChar = false) (hq : q.contains nlChar = false)
    (hdv : dv.contains nlChar = false) :
    (mkAskLine v q dv).contains nlChar = false := by
  unfold mkAskLine
  split_ifs <;> simp only [contains_append_eq, hn, hq, hdv] <;> decide

theorem askLineMain_nl_free (gk : Str) (v : KloreVariable)
    (hn : v.name.contains nlChar = false) :
    (askLineMain gk v).contains nlChar = false := by
  unfold askLineMain
  exact mkAskLine_nl_free v _ _ hn (question_nl_free _ _ hn) (escDefault_nl_free _)

theorem askLineOther_nl_free (v : KloreVariable)
    (hn : v.name.contains nlChar = false) :
    (askLineOther v).contains nlChar = false := by
  unfold askLineOther
  exact mkAskLine_nl_free v _ _ hn (question_nl_free _ _ hn)
    (truncDefault_nl_free _ (escDefault_nl_free _))

theorem joinSpace_nl_free (ls : List Str) (h : ∀ l ∈ ls, l.contains nlChar = false) :
    (joinSpace ls).contains nlChar = false := by
  induction ls with
  | nil => decide
  | cons a ls ih =>
    cases ls with
    | nil => simpa [joinSpace] using h a (by simp)
    | cons b ls' =>
      rw [show joinSpace (a :: b :: ls') = a ++ ' ' :: joinSpace (b :: ls') from rfl]
      rw [contains_append_eq, h a (by simp), List.contains_cons,
        ih (fun l hl => h l (by simp at hl ⊢; tauto))]
      decide

theorem replCore_nl_free (r : KloreReplacement)
    (hv : r.varName.contains nlChar = false)
    (hp : ∀ p ∈ r.filePatterns, p.contains nlChar = false) :
    (replCore r).contains nlChar = false := by
  have hjoin : (joinSpace (r.filePatterns.map (fun p => dq ++ p ++ dq))).contains
      nlChar = false := by
    apply joinSpace_nl_free
    intro l hl
    rcases List.mem_map.mp hl with ⟨p, hpmem, rfl⟩
    simp only [contains_append_eq, hp p hpmem]
    decide
  unfold replCore
  simp only [contains_append_eq, hv, hjoin, escapeOriginal_nl_free]
  decide

theorem msgFor_nl_free (cmd : Str) (h : cmd.contains nlChar = false) :
    (msgFor cmd).contains nlChar = false := by
  unfold msgFor
  split_ifs <;> simp only [contains_append_eq, h] <;> decide

theorem runCore_nl_free (cmd : Str) (h : cmd.contains nlChar = false) :
    (runCore cmd).contains nlChar = false := by
  unfold runCore
  simp only [contains_append_eq, h, msgFor_nl_free cmd h]
  decide

theorem groupBlock_nl_free (t : KloreTemplate) (gk : Str)
    (hgk : gk ∈ groupOrder)
    (hvars : ∀ v ∈ t.vars, v.name.contains nlChar = false) :
    ∀ l ∈ groupBlock t gk, l.contains nlChar = false := by
  intro l hl
  unfold groupBlock at hl
  rcases hfilter : t.vars.filter (fun v => varGroupName t v = gk) with _ | ⟨v, vs⟩
  · rw [hfilter] at hl; simp at hl
  · rw [hfilter] at hl
    rcases List.mem_append.mp hl with hl2 | hl2
    · rcases List.mem_append.mp hl2 with hl3 | hl3
      · rcases List.mem_cons.mp hl3 with rfl | hl4
        · revert hgk
          have : ∀ gk ∈ groupOrder,
              ("# ".data ++ emojiFor gk ++ " ".data ++ jsToUpper (descFor gk)).contains
                nlChar = false := by decide
          exact this gk
        · have : l = dashHdr := by simpa using hl4
          rw [this]; decide
      · rcases List.mem_map.mp hl3 with ⟨w, hw, heq⟩
        rw [← heq]
        apply askLineMain_nl_free
        apply hvars
        apply List.mem_of_mem_filter (p := fun v => varGroupName t v = gk)
        rw [hfilter]
        exact hw
    · have : l = [] := by simpa using hl2
      rw [this]; decide

theorem otherBlock_nl_free (t : KloreTemplate)
    (hvars : ∀ v ∈ t.vars, v.name.contains nlChar = false) :
    ∀ l ∈ otherBlock t, l.contains nlChar = false := by
  intro l hl
  unfold otherBlock at hl
  have hsub : ∀ v ∈ otherVarsList t, v ∈ t.vars := by
    intro v hv
    unfold otherVarsList at hv
    by_cases hc : (t.vars.filter (fun v => varGroupName t v = "other".data)).length ≠ 0
    · rw [if_pos hc] at hv
      exact List.mem_of_mem_filter hv
    · rw [if_neg hc] at hv
      exact List.mem_of_mem_filter hv
  rcases hfilter : otherVarsList t with _ | ⟨v, vs⟩
  · rw [hfilter] at hl; simp at hl
  · rw [hfilter] at hl
    rcases List.mem_append.mp hl with hl2 | hl2
    · rcases List.mem_append.mp hl2 with hl3 | hl3
      · rcases List.mem_cons.mp hl3 with rfl | hl4
        · decide
        · have : l = dashHdr := by simpa using hl4
          rw [this]; decide
      · rcases List.mem_map.mp hl3 with ⟨w, hw, heq⟩
        rw [← heq]
        apply askLineOther_nl_free
        apply hvars
        apply hsub
        rw [hfilter]
        exact hw
    · have : l = [] := by simpa using hl2
      rw [this]; decide

theorem replBlock_nl_free (t : KloreTemplate) (gk : Str)
    (hgk : gk ∈ groupOrder ++ ["other".data])
    (hreps : ∀ r ∈ t.replacements, r.varName.contains nlChar = false ∧
      ∀ p ∈ r.filePatterns, p.contains nlChar = false) :
    ∀ l ∈ replBlock t gk, l.contains nlChar = false := by
  intro l hl
  unfold replBlock at hl
  rcases hfilter : t.replacements.filter (fun r => replGroupName t r = gk) with _ | ⟨r, rs⟩
  · rw [hfilter] at hl; simp at hl
  · rw [hfilter] at hl
    rcases List.mem_append.mp hl with hl2 | hl2
    · rcases List.mem_append.mp hl2 with hl3 | hl3
      · have : l = "    # ".data ++ emojiFor gk ++ " ".data ++ descFor gk := by
          simpa using hl3
        rw [this]
        revert hgk
        have hall : ∀ gk ∈ groupOrder ++ ["other".data],
            ("    # ".data ++ emojiFor gk ++ " ".data ++ descFor gk).contains
              nlChar = false := by decide
        exact hall gk
      · rcases List.mem_map.mp hl3 with ⟨w, hw, heq⟩
        rw [← heq]
        have hwmem : w ∈ t.replacements := by
          apply List.mem_of_mem_filter (p := fun r => replGroupName t r = gk)
          rw [hfilter]
          exact hw
        unfold mkReplaceLine
        rw [contains_append_eq, replCore_nl_free w (hreps w hwmem).1 (hreps w hwmem).2]
        decide
    · have : l = [] := by simpa using hl2
      rw [this]; decide

theorem nameLineG_nl_free (t : KloreTemplate) :
    (nameLineG t).contains nlChar = false := by
  unfold nameLineG
  simp only [contains_append_eq, (collapseWsDash_nl_free (jsToLower t.name)).1]
  decide

theorem versionLineG_nl_free (t : KloreTemplate)
    (h : t.version.contains nlChar = false) :
    (versionLineG t).contains nlChar = false := by
  unfold versionLineG
  simp only [contains_append_eq, h]
  decide

theorem frameworkLineG_nl_free (f : Str) (h : f.contains nlChar = false) :
    (frameworkLineG f).contains nlChar = false := by
  unfold frameworkLineG
  simp only [contains_append_eq, h]
  decide

theorem headerLines_nl_free (t : KloreTemplate)
    (hname : t.name.contains nlChar = false)
    (hver : t.version.contains nlChar = false)
    (hfw : ∀ f, t.framework = some f → f.contains nlChar = false)
    (hhints : ∀ hs, t.aiHints = some hs → ∀ x ∈ hs, x.contains nlChar = false) :
    ∀ l ∈ headerLines t, l.contains nlChar = false := by
  unfold headerLines
  simp only [List.append_assoc]
  refine List.forall_mem_append.mpr ⟨?_, List.forall_mem_append.mpr ⟨?_,
    List.forall_mem_append.mpr ⟨?_, List.forall_mem_append.mpr ⟨?_,
    List.forall_mem_append.mpr ⟨?_, List.forall_mem_append.mpr ⟨?_, ?_⟩⟩⟩⟩⟩⟩
  · intro l hl
    rcases List.mem_cons.mp hl with rfl | hl
    · simp only [contains_append_eq, hname]; decide
    · have h2 : l = "# Generated by Klore AI - Comprehensive Templatization".data ∨
          l = [] := by simpa using hl
      rcases h2 with rfl | rfl <;> decide
  · intro l hl
    have h2 : l = nameLineG t := by simpa using hl
    rw [h2]; exact nameLineG_nl_free t
  · intro l hl
    split_ifs at hl
    · have h2 : l = versionLineG t := by simpa using hl
      rw [h2]; exact versionLineG_nl_free t hver
    · simp at hl
  · intro l hl
    cases hfr : t.framework with
    | none => rw [hfr] at hl; simp at hl
    | some f =>
      rw [hfr] at hl
      have hl2 : l ∈ (if f.length ≠ 0 then [frameworkLineG f] else []) := hl
      split_ifs at hl2
      · have h2 : l = frameworkLineG f := by simpa using hl2
        rw [h2]; exact frameworkLineG_nl_free f (hfw f hfr)
      · simp at hl2
  · intro l hl
    have h2 : l = [] := by simpa using hl
    rw [h2]; decide
  · intro l hl
    cases hai : t.aiHints with
    | none => rw [hai] at hl; simp at hl
    | some hs =>
      rw [hai] at hl
      have hl2 : l ∈ (if hs.length ≠ 0 then
          [eqHdr, "# PROJECT ANALYSIS".data, eqHdr] ++
            (hs.map (fun h => "# ".data ++ h) ++ [[]])
        else []) := hl
      split_ifs at hl2
      · rcases List.mem_append.mp hl2 with h2 | h2
        · have h3 : l = eqHdr ∨ l = "# PROJECT ANALYSIS".data ∨ l = eqHdr := by
            simpa using h2
          rcases h3 with rfl | rfl | rfl <;> decide
        · rcases List.mem_append.mp h2 with h3 | h3
          · rcases List.mem_map.mp h3 with ⟨x, hx, rfl⟩
            simp only [contains_append_eq, hhints hs hai x hx]
            decide
          · have h4 : l = [] := by simpa using h3
            rw [h4]; decide
      · simp at hl2
  · intro l hl
    have h2 : l = eqHdr ∨ l = "# TEMPLATE VARIABLES".data ∨ l = eqHdr ∨ l = [] := by
      simpa using hl
    rcases h2 with rfl | rfl | rfl | rfl <;> decide

theorem varsSection_nl_free (t : KloreTemplate)
    (hvars : ∀ v ∈ t.vars, v.name.contains nlChar = false) :
    ∀ l ∈ varsSection t, l.contains nlChar = false := by
  unfold varsSection
  refine List.forall_mem_append.mpr ⟨?_, otherBlock_nl_free t hvars⟩
  intro l hl
  rcases List.mem_flatten.mp hl with ⟨blk, hblk, hlblk⟩
  rcases List.mem_map.mp hblk with ⟨gk, hgk, rfl⟩
  exact groupBlock_nl_free t gk hgk hvars l hlblk

theorem onInstallHeader_nl_free :
    ∀ l ∈ onInstallHeader, l.contains nlChar = false := by decide

theorem replSection_nl_free (t : KloreTemplate)
    (hreps : ∀ r ∈ t.replacements, r.varName.contains nlChar = false ∧
      ∀ p ∈ r.filePatterns, p.contains nlChar = false) :
    ∀ l ∈ replSection t, l.contains nlChar = false := by
  unfold replSection
  intro l hl
  rcases List.mem_flatten.mp hl with ⟨blk, hblk, hlblk⟩
  rcases List.mem_map.mp hblk with ⟨gk, hgk, rfl⟩
  exact replBlock_nl_free t gk hgk hreps l hlblk

theorem runSection_nl_free (t : KloreTemplate)
    (hcmds : ∀ cs, t.onInstall = some cs → ∀ c ∈ cs, c.contains nlChar = false) :
    ∀ l ∈ runSection t, l.contains nlChar = false := by
  unfold runSection
  simp only [List.append_assoc]
  refine List.forall_mem_append.mpr ⟨by decide, List.forall_mem_append.mpr ⟨?_, by decide⟩⟩
  intro l hl
  cases hoi : t.onInstall with
  | none =>
    rw [hoi] at hl
    have h2 : l ∈ defaultRunLines := by simpa using hl
    exact (by decide : ∀ x ∈ defaultRunLines, x.contains nlChar = false) l h2
  | some cs =>
    rw [hoi] at hl
    cases cs with
    | nil =>
      have h2 : l ∈ defaultRunLines := by simpa using hl
      exact (by decide : ∀ x ∈ defaultRunLines, x.contains nlChar = false) l h2
    | cons cmd cmds =>
      have h2 : l ∈ (cmd :: cmds).map mkRunLine := by simpa using hl
      rcases List.mem_map.mp h2 with ⟨c, hc, rfl⟩
      unfold mkRunLine
      rw [contains_append_eq, runCore_nl_free c (hcmds (cmd :: cmds) hoi c hc)]
      decide

theorem genLines_nl_free (t : KloreTemplate) (hclean : cleanTemplateB t = true) :
    ∀ l ∈ genLines t, l.contains nlChar = false := by
  unfold cleanTemplateB at hclean
  simp only [Bool.and_eq_true, Bool.not_eq_true', List.all_eq_true] at hclean
  obtain ⟨⟨⟨⟨⟨⟨hname, hver⟩, hfw⟩, hhints⟩, hcmds⟩, hvars⟩, hreps⟩ := hclean
  unfold genLines
  simp only [List.append_assoc]
  refine List.forall_mem_append.mpr ⟨headerLines_nl_free t hname hver ?_ ?_,
    List.forall_mem_append.mpr ⟨varsSection_nl_free t ?_,
    List.forall_mem_append.mpr ⟨onInstallHeader_nl_free,
    List.forall_mem_append.mpr ⟨replSection_nl_free t ?_, runSection_nl_free t ?_⟩⟩⟩⟩
  · intro f hf; rw [hf] at hfw; simpa using hfw
  · intro hs hh x hx
    rw [hh] at hhints
    have h2 : hs.all (fun h => !h.contains nlChar) = true := hhints
    simpa using List.all_eq_true.mp h2 x hx
  · exact hvars
  · intro r hr
    have := hreps r hr
    simp only [Bool.and_eq_true, Bool.not_eq_true', List.all_eq_true] at this
    exact ⟨this.1, this.2⟩
  · intro cs hcs c hc
    rw [hcs] at hcmds
    have h2 : cs.all (fun c => !c.contains nlChar) = true := hcmds
    simpa using List.all_eq_true.mp h2 c hc

theorem genLines_ne_nil (t : KloreTemplate) : genLines t ≠ [] := by
  unfold genLines headerLines
  simp

theorem preprocess_eq_keptOf (content : Str) :
    preprocess content = keptOf (splitNl content) := rfl

theorem keptOf_nil : keptOf [] = [] := rfl

theorem keptOf_append (a b : List Str) : keptOf (a ++ b) = keptOf a ++ keptOf b := by
  unfold keptOf
  rw [List.map_append, List.filter_append]

theorem keptOf_cons (l : Str) (ls : List Str) :
    keptOf (l :: ls) = if lineKept l then jsTrim l :: keptOf ls else keptOf ls := by
  unfold keptOf lineKept
  rw [List.map_cons, List.filter_cons]

theorem keptOf_cons_keep (l : Str) (ls : List Str) (h : lineKept l = true) :
    keptOf (l :: ls) = jsTrim l :: keptOf ls := by
  rw [keptOf_cons, if_pos h]

theorem keptOf_cons_drop (l : Str) (ls : List Str) (h : lineKept l = false) :
    keptOf (l :: ls) = keptOf ls := by
  rw [keptOf_cons, if_neg (by rw [h]; exact Bool.false_ne_true)]

theorem lineKept_comment (l : Str) (h : (jsTrim l).head? = some '#') :
    lineKept l = false := by
  unfold lineKept
  have h2 : startsWithB (jsTrim l) "#".data = true := (startsWith_single_iff _ '#').mpr h
  rw [h2]
  simp

theorem lineKept_of_head_hash (l : Str) (h : l.head? = some '#') : lineKept l = false :=
  lineKept_comment l (jsTrim_head_nonspace l '#' h (by decide))

theorem lineKept_of_trim_head (l : Str) (c : Char) (hh : l.head? = some c)
    (hc : isSpc c = false) (hhash : c ≠ '#') : lineKept l = true := by
  have ht := jsTrim_head_nonspace l c hh hc
  unfold lineKept
  have h1 : (jsTrim l).length ≠ 0 := by
    intro h0
    rw [List.length_eq_zero] at h0
    rw [h0] at ht
    simp at ht
  have h2 : startsWithB (jsTrim l) "#".data = false := by
    cases hcase : startsWithB (jsTrim l) "#".data
    · rfl
    · have := (startsWith_single_iff _ '#').mp hcase
      rw [ht] at this
      exact absurd (Option.some.inj this) hhash
  rw [decide_eq_true h1, h2]
  rfl

theorem jsTrim_id_of_ends (l : Str) (c d : Char) (hh : l.head? = some c)
    (hl : l.getLast? = some d) (hc : isSpc c = false) (hd : isSpc d = false) :
    jsTrim l = l := by
  apply jsTrim_eq_self
  · intro e he
    rw [hh] at he
    have h2 : c = e := by simpa using he
    rw [← h2]; exact hc
  · intro e he
    rw [hl] at he
    have h2 : d = e := by simpa using he
    rw [← h2]; exact hd

theorem lineKept_indent (l : Str) : lineKept ("    ".data ++ l) = lineKept l := by
  unfold lineKept
  rw [jsTrim_spaces_append "    ".data l (by decide)]

theorem mkAskLine_head (v : KloreVariable) (q dv : Str) :
    (mkAskLine v q dv).head? = some 'A' := by
  unfold mkAskLine
  repeat apply head?_append_of
  rfl

theorem mkAskLine_last (v : KloreVariable) (q dv : Str) :
    (mkAskLine v q dv).getLast? = some 'D' ∨
      (mkAskLine v q dv).getLast? = some dqChar := by
  unfold mkAskLine
  split_ifs with h1 h2 h3
  · left
    rw [getLast?_append_ne _ _ (by simp)]
    rfl
  · right
    rw [List.append_nil, getLast?_append_ne _ _ (by simp [dq]),
        getLast?_append_ne _ _ (by simp [dq])]
    rfl
  · left
    rw [getLast?_append_ne _ _ (by simp)]
    rfl
  · right
    rw [List.append_nil, List.append_nil, getLast?_append_ne _ _ (by simp [dq])]
    rfl

theorem mkAskLine_kept (v : KloreVariable) (q dv : Str) :
    lineKept (mkAskLine v q dv) = true ∧
      jsTrim (mkAskLine v q dv) = mkAskLine v q dv := by
  refine ⟨lineKept_of_trim_head _ 'A' (mkAskLine_head v q dv) (by decide) (by decide), ?_⟩
  rcases mkAskLine_last v q dv with hl | hl
  · exact jsTrim_id_of_ends _ 'A' 'D' (mkAskLine_head v q dv) hl (by decide) (by decide)
  · exact jsTrim_id_of_ends _ 'A' dqChar (mkAskLine_head v q dv) hl (by decide) (by decide)

theorem askLineMain_kept (gk : Str) (v : KloreVariable) :
    lineKept (askLineMain gk v) = true ∧
      jsTrim (askLineMain gk v) = askLineMain gk v := by
  unfold askLineMain
  exact mkAskLine_kept v _ _

theorem askLineOther_kept (v : KloreVariable) :
    lineKept (askLineOther v) = true ∧
      jsTrim (askLineOther v) = askLineOther v := by
  unfold askLineOther
  exact mkAskLine_kept v _ _

theorem replCore_head (r : KloreReplacement) : (replCore r).head? = some 'R' := by
  unfold replCore
  repeat apply head?_append_of
  rfl

theorem keptOf_ask_map (f : KloreVariable → Str) (vs : List KloreVariable)
    (hf : ∀ v, lineKept (f v) = true ∧ jsTrim (f v) = f v) :
    keptOf (vs.map f) = vs.map f := by
  induction vs with
  | nil => rfl
  | cons a vs ih =>
    rw [List.map_cons, keptOf_cons_keep _ _ (hf a).1, (hf a).2, ih]

theorem keptOf_flatten (ls : List (List Str)) :
    keptOf ls.flatten = (ls.map keptOf).flatten := by
  induction ls with
  | nil => rfl
  | cons a ls ih =>
    rw [List.flatten_cons, keptOf_append, ih, List.map_cons, List.flatten_cons]

theorem map_flatMap_eq {α β γ : Type} (g : α → β) (f : γ → List α) (l : List γ) :
    (l.flatMap f).map g = (l.map (fun x => (f x).map g)).flatten := by
  induction l with
  | nil => rfl
  | cons a l ih =>
    rw [List.flatMap_cons, List.map_append, ih, List.map_cons, List.flatten_cons]

theorem keptOf_groupBlock (t : KloreTemplate) (gk : Str) (hgk : gk ∈ groupOrder) :
    keptOf (groupBlock t gk) =
      (t.vars.filter (fun v => varGroupName t v = gk)).map (askLineMain gk) := by
  unfold groupBlock
  rcases hf : t.vars.filter (fun v => varGroupName t v = gk) with _ | ⟨v, vs⟩
  · rfl
  · rw [keptOf_append, keptOf_append]
    rw [keptOf_cons_drop _ _ (by
      revert hgk
      have h : ∀ g ∈ groupOrder,
          lineKept ("# ".data ++ emojiFor g ++ " ".data ++ jsToUpper (descFor g)) =
            false := by decide
      exact h gk)]
    rw [keptOf_cons_drop _ _ (by decide), keptOf_nil]
    rw [keptOf_ask_map (askLineMain gk) (v :: vs) (askLineMain_kept gk)]
    rw [show keptOf [[]] = [] from rfl]
    simp

theorem keptOf_otherBlock (t : KloreTemplate) :
    keptOf (otherBlock t) = (otherVarsList t).map askLineOther := by
  unfold otherBlock
  rcases hf : otherVarsList t with _ | ⟨v, vs⟩
  · rfl
  · rw [keptOf_append, keptOf_append]
    rw [keptOf_cons_drop _ _ (by decide), keptOf_cons_drop _ _ (by decide), keptOf_nil]
    rw [keptOf_ask_map askLineOther (v :: vs) askLineOther_kept]
    rw [show keptOf [[]] = [] from rfl]
    simp

theorem keptOf_varsSection (t : KloreTemplate) :
    keptOf (varsSection t) = (orderedVars t).map (fun p => askLineFor p.1 p.2) := by
  unfold varsSection orderedVars
  rw [keptOf_append, keptOf_flatten, List.map_map, List.map_append, map_flatMap_eq,
    keptOf_otherBlock]
  congr 1
  · congr 1
    apply List.map_congr_left
    intro gk hgk
    show keptOf (groupBlock t gk) = _
    rw [keptOf_groupBlock t gk hgk, List.map_map]
    apply List.map_congr_left
    intro v hv
    show askLineMain gk v = askLineFor gk v
    unfold askLineFor
    rw [if_neg (by
      revert hgk
      have h : ∀ g ∈ groupOrder, ¬(g = "other".data) := by decide
      exact h gk)]
  · rw [List.map_map]
    apply List.map_congr_left
    intro v hv
    show askLineOther v = askLineFor "other".data v
    unfold askLineFor
    rw [if_pos rfl]

theorem nameLineG_kept (t : KloreTemplate) :
    lineKept (nameLineG t) = true ∧ jsTrim (nameLineG t) = nameLineG t := by
  have hh : (nameLineG t).head? = some 'N' := by
    unfold nameLineG
    repeat apply head?_append_of
    rfl
  have hl : (nameLineG t).getLast? = some dqChar := by
    unfold nameLineG
    rw [getLast?_append_ne _ _ (by simp [dq])]
    rfl
  exact ⟨lineKept_of_trim_head _ 'N' hh (by decide) (by decide),
    jsTrim_id_of_ends _ 'N' dqChar hh hl (by decide) (by decide)⟩

theorem versionLineG_kept (t : KloreTemplate) :
    lineKept (versionLineG t) = true ∧ jsTrim (versionLineG t) = versionLineG t := by
  have hh : (versionLineG t).head? = some 'V' := by
    unfold versionLineG
    repeat apply head?_append_of
    rfl
  have hl : (versionLineG t).getLast? = some dqChar := by
    unfold versionLineG
    rw [getLast?_append_ne _ _ (by simp [dq])]
    rfl
  exact ⟨lineKept_of_trim_head _ 'V' hh (by decide) (by decide),
    jsTrim_id_of_ends _ 'V' dqChar hh hl (by decide) (by decide)⟩

theorem frameworkLineG_kept (f : Str) :
    lineKept (frameworkLineG f) = true ∧ jsTrim (frameworkLineG f) = frameworkLineG f := by
  have hh : (frameworkLineG f).head? = some 'F' := by
    unfold frameworkLineG
    repeat apply head?_append_of
    rfl
  have hl : (frameworkLineG f).getLast? = some dqChar := by
    unfold frameworkLineG
    rw [getLast?_append_ne _ _ (by simp [dq])]
    rfl
  exact ⟨lineKept_of_trim_head _ 'F' hh (by decide) (by decide),
    jsTrim_id_of_ends _ 'F' dqChar hh hl (by decide) (by decide)⟩

theorem keptOf_hash_map (hs : List Str) :
    keptOf (hs.map (fun h => "# ".data ++ h)) = [] := by
  induction hs with
  | nil => rfl
  | cons a hs ih =>
    rw [List.map_cons,
      keptOf_cons_drop _ _ (lineKept_of_head_hash _ (by apply head?_append_of; rfl)), ih]

theorem keptOf_hdr1 (t : KloreTemplate) :
    keptOf ["# ".data ++ t.name ++ " Template".data,
      "# Generated by Klore AI - Comprehensive Templatization".data, []] = [] := by
  rw [keptOf_cons_drop _ _ (lineKept_of_head_hash _ (by
        apply head?_append_of; apply head?_append_of; rfl)),
      keptOf_cons_drop _ _ (by decide), keptOf_cons_drop _ _ (by decide), keptOf_nil]

theorem keptOf_name (t : KloreTemplate) : keptOf [nameLineG t] = [nameLineG t] := by
  rw [keptOf_cons_keep _ _ (nameLineG_kept t).1, (nameLineG_kept t).2, keptOf_nil]

theorem keptOf_version (t : KloreTemplate) :
    keptOf (if t.version.length ≠ 0 then [versionLineG t] else []) =
      (if t.version.length ≠ 0 then [versionLineG t] else []) := by
  split_ifs
  · rw [keptOf_cons_keep _ _ (versionLineG_kept t).1, (versionLineG_kept t).2, keptOf_nil]
  · rfl

theorem keptOf_framework (t : KloreTemplate) :
    keptOf (match t.framework with
      | some f => if f.length ≠ 0 then [frameworkLineG f] else []
      | none => []) =
      (match t.framework with
       | some f => if f.length ≠ 0 then [frameworkLineG f] else []
       | none => []) := by
  cases t.framework with
  | none => rfl
  | some f =>
    show keptOf (if f.length ≠ 0 then [frameworkLineG f] else []) =
      (if f.length ≠ 0 then [frameworkLineG f] else [])
    split_ifs
    · rw [keptOf_cons_keep _ _ (frameworkLineG_kept f).1, (frameworkLineG_kept f).2,
        keptOf_nil]
    · rfl

theorem keptOf_hints (t : KloreTemplate) :
    keptOf (match t.aiHints with
      | some hs =>
        if hs.length ≠ 0 then
          [eqHdr, "# PROJECT ANALYSIS".data, eqHdr] ++
            hs.map (fun h => "# ".data ++ h) ++ [[]]
        else []
      | none => []) = [] := by
  cases t.aiHints with
  | none => rfl
  | some hs =>
    show keptOf (if hs.length ≠ 0 then
        [eqHdr, "# PROJECT ANALYSIS".data, eqHdr] ++
          hs.map (fun h => "# ".data ++ h) ++ [[]]
      else []) = []
    split_ifs
    · rw [keptOf_append, keptOf_append]
      rw [show keptOf [eqHdr, "# PROJECT ANALYSIS".data, eqHdr] = [] from by decide]
      rw [keptOf_hash_map, show keptOf [[]] = [] from rfl]
      rfl
    · rfl

theorem keptOf_headerLines (t : KloreTemplate) :
    keptOf (headerLines t) =
      [nameLineG t] ++
      (if t.version.length ≠ 0 then [versionLineG t] else []) ++
      (match t.framework with
       | some f => if f.length ≠ 0 then [frameworkLineG f] else []
       | none => []) := by
  unfold headerLines
  rw [keptOf_append, keptOf_append, keptOf_append, keptOf_append, keptOf_append,
    keptOf_append]
  rw [keptOf_hdr1, keptOf_name, keptOf_version, keptOf_framework,
    show keptOf [[]] = [] from rfl, keptOf_hints,
    show keptOf [eqHdr, "# TEMPLATE VARIABLES".data, eqHdr, []] = [] from by decide]
  simp

theorem mkReplaceLine_kept (r : KloreReplacement) :
    lineKept (mkReplaceLine r) = true ∧
      jsTrim (mkReplaceLine r) = jsTrim (replCore r) := by
  unfold mkReplaceLine
  constructor
  · rw [lineKept_indent]
    exact lineKept_of_trim_head _ 'R' (replCore_head r) (by decide) (by decide)
  · exact jsTrim_spaces_append _ _ (by decide)

theorem keptOf_repl_map (rs : List KloreReplacement) :
    keptOf (rs.map mkReplaceLine) = rs.map (fun r => jsTrim (replCore r)) := by
  induction rs with
  | nil => rfl
  | cons a rs ih =>
    rw [List.map_cons, keptOf_cons_keep _ _ (mkReplaceLine_kept a).1,
      (mkReplaceLine_kept a).2, ih, List.map_cons]

theorem keptOf_replBlock (t : KloreTemplate) (gk : Str)
    (hgk : gk ∈ groupOrder ++ ["other".data]) :
    keptOf (replBlock t gk) =
      (t.replacements.filter (fun r => replGroupName t r = gk)).map
        (fun r => jsTrim (replCore r)) := by
  unfold replBlock
  rcases hf : t.replacements.filter (fun r => replGroupName t r = gk) with _ | ⟨r, rs⟩
  · rfl
  · rw [keptOf_append, keptOf_append]
    rw [keptOf_cons_drop _ _ (by
      revert hgk
      have h : ∀ g ∈ groupOrder ++ ["other".data],
          lineKept ("    # ".data ++ emojiFor g ++ " ".data ++ descFor g) = false := by
        decide
      exact h gk)]
    rw [keptOf_nil, keptOf_repl_map, show keptOf [[]] = [] from rfl]
    simp

theorem keptOf_replSection (t : KloreTemplate) :
    keptOf (replSection t) = (orderedReps t).map (fun r => jsTrim (replCore r)) := by
  unfold replSection orderedReps
  rw [keptOf_flatten, List.map_map, map_flatMap_eq]
  congr 1
  apply List.map_congr_left
  intro gk hgk
  show keptOf (replBlock t gk) = _
  exact keptOf_replBlock t gk hgk

theorem mkRunLine_kept (cmd : Str) :
    lineKept (mkRunLine cmd) = true ∧ jsTrim (mkRunLine cmd) = runCore cmd := by
  unfold mkRunLine
  constructor
  · rw [lineKept_indent]
    exact lineKept_of_trim_head _ 'R' (runCore_head cmd) (by decide) (by decide)
  · rw [jsTrim_spaces_append _ _ (by decide)]
    exact runCore_trim cmd

theorem keptOf_run_map (cs : List Str) :
    keptOf (cs.map mkRunLine) = cs.map runCore := by
  induction cs with
  | nil => rfl
  | cons a cs ih =>
    rw [List.map_cons, keptOf_cons_keep _ _ (mkRunLine_kept a).1,
      (mkRunLine_kept a).2, ih, List.map_cons]

theorem keptOf_runSection (t : KloreTemplate) :
    keptOf (runSection t) = runCoresOf t ++ ["END".data] := by
  unfold runSection runCoresOf
  rw [keptOf_append, keptOf_append]
  rw [show keptOf ["    # Run setup commands".data] = [] from by decide]
  rw [show keptOf [[], "END".data, [], eqHdr, "# Template ready! 🚀".data, eqHdr] =
      ["END".data] from by decide]
  cases hoi : t.onInstall.getD [] with
  | nil =>
    show [] ++ keptOf defaultRunLines ++ ["END".data] = defaultRunCores ++ ["END".data]
    rw [show keptOf defaultRunLines = defaultRunCores from by decide]
    rfl
  | cons c cs =>
    show [] ++ keptOf ((c :: cs).map mkRunLine) ++ ["END".data] =
      (c :: cs).map runCore ++ ["END".data]
    rw [keptOf_run_map]
    rfl

theorem preprocess_generateKlore (t : KloreTemplate) (hclean : cleanTemplateB t = true) :
    preprocess (generateKlore t) = keptLines t := by
  rw [preprocess_eq_keptOf]
  unfold generateKlore
  rw [splitNl_joinNl (genLines t) (genLines_nl_free t hclean) (genLines_ne_nil t)]
  unfold genLines
  rw [keptOf_append, keptOf_append, keptOf_append, keptOf_append]
  rw [keptOf_headerLines, keptOf_varsSection, keptOf_replSection, keptOf_runSection]
  rw [show keptOf onInstallHeader = ["ON INSTALL".data, copyCore] from by decide]
  unfold keptLines blockCores
  simp [List.append_assoc]

theorem nameLineG_form (t : KloreTemplate) : nameLineG t =
    "NAME".data ++ ' ' :: (dq ++ (collapseWsDash (jsToLower t.name) ++
      ("-template".data ++ dq))) := by
  show "NAME ".data ++ dq ++ collapseWsDash (jsToLower t.name) ++ "-template".data ++ dq = _
  simp only [List.append_assoc]
  rfl

theorem versionLineG_form (t : KloreTemplate) : versionLineG t =
    "VERSION".data ++ ' ' :: (dq ++ (t.version ++ dq)) := by
  show "VERSION ".data ++ dq ++ t.version ++ dq = _
  simp only [List.append_assoc]
  rfl

theorem frameworkLineG_form (f : Str) : frameworkLineG f =
    "FRAMEWORK".data ++ ' ' :: (dq ++ (f ++ dq)) := by
  show "FRAMEWORK ".data ++ dq ++ f ++ dq = _
  simp only [List.append_assoc]
  rfl

theorem mkAskLine_form (v : KloreVariable) (q dv : Str) :
    ∃ r, mkAskLine v q dv = "ASK".data ++ ' ' :: r := by
  refine ⟨v.name ++ (" ".data ++ (dq ++ (q ++ (dq ++
    ((if dv.length ≠ 0 then " DEFAULT ".data ++ dq ++ dv ++ dq else []) ++
     (if v.required then " REQUIRED".data else [])))))), ?_⟩
  show "ASK ".data ++ v.name ++ " ".data ++ dq ++ q ++ dq ++ _ ++ _ = _
  simp only [List.append_assoc]
  rfl

theorem askLineFor_form (gk : Str) (v : KloreVariable) :
    ∃ r, askLineFor gk v = "ASK".data ++ ' ' :: r := by
  unfold askLineFor askLineMain askLineOther
  split_ifs <;> exact mkAskLine_form v _ _

theorem parseLinesF_ask_walk (asks : List Str) (rest : List Str) (t : KloreTemplate)
    (f : Nat) (hform : ∀ a ∈ asks, ∃ r, a = "ASK".data ++ ' ' :: r) :
    parseLinesF (asks.length + f) (asks ++ rest) t =
      parseLinesF f rest { t with vars := t.vars ++ asks.map parseAsk } := by
  induction asks generalizing t with
  | nil => simp
  | cons a as ih =>
    obtain ⟨r, hr⟩ := hform a (List.mem_cons_self a as)
    have hlen : (a :: as).length + f = (as.length + f) + 1 := by
      simp only [List.length_cons]
      omega
    rw [hlen, List.cons_append,
      parseLinesF_cons_plain (as.length + f) a (as ++ rest) t (by
        rw [hr]
        exact isOnInstallCmd_word "ASK".data r (by decide) (by decide) (by decide)
          (by decide) (by decide)),
      show parseLineFn a t = { t with vars := t.vars ++ [parseAsk a] } from by
        rw [hr]; exact parseLineFn_ask r t,
      ih _ (fun x hx => hform x (List.mem_cons_of_mem a hx))]
    simp [List.append_assoc]

theorem parseOnInstall_walk (ls : List Str) (rest : List Str) (t : KloreTemplate)
    (hne : ∀ l ∈ ls, jsToUpper l ≠ "END".data) :
    parseOnInstallLines (ls ++ "END".data :: rest) t =
      (ls.foldl (fun acc l => blockStep l acc) t, rest) := by
  induction ls generalizing t with
  | nil =>
    rw [List.nil_append, parseOnInstallLines_end _ _ _ (by decide)]
    rfl
  | cons a as ih =>
    rw [List.cons_append, parseOnInstallLines_step _ _ _ (hne a (by simp)),
      ih _ (fun x hx => hne x (by simp [hx]))]
    rfl

theorem blockCores_ne_end (t : KloreTemplate) :
    ∀ l ∈ blockCores t, jsToUpper l ≠ "END".data := by
  intro l hl
  unfold blockCores at hl
  rcases List.mem_append.mp hl with h | h
  · rcases List.mem_append.mp h with h2 | h2
    · have h3 : l = copyCore := by simpa using h2
      rw [h3]
      exact copyCore_upper_ne_end
    · rcases List.mem_map.mp h2 with ⟨r, hr, rfl⟩
      exact replCore_trim_upper_ne_end r
  · unfold runCoresOf at h
    revert h
    cases t.onInstall.getD [] with
    | nil =>
      intro h
      exact (by decide : ∀ x ∈ defaultRunCores, jsToUpper x ≠ "END".data) l h
    | cons c cs =>
      intro h
      rcases List.mem_map.mp h with ⟨cmd, hc, rfl⟩
      exact runCore_upper_ne_end cmd

theorem parse_tail_walk (t t0 : KloreTemplate) :
    parseLinesF
      (((orderedVars t).map (fun p => askLineFor p.1 p.2) ++
        ("ON INSTALL".data :: (blockCores t ++ ["END".data]))).length)
      ((orderedVars t).map (fun p => askLineFor p.1 p.2) ++
        ("ON INSTALL".data :: (blockCores t ++ ["END".data]))) t0 =
      (blockCores t).foldl (fun acc l => blockStep l acc)
        { t0 with vars := t0.vars ++
            (orderedVars t).map (fun p => parseAsk (askLineFor p.1 p.2)) } := by
  rw [List.length_append]
  rw [parseLinesF_ask_walk _ _ _ _ (by
    intro a ha
    rcases List.mem_map.mp ha with ⟨p, hp, rfl⟩
    exact askLineFor_form p.1 p.2)]
  rw [show ("ON INSTALL".data :: (blockCores t ++ ["END".data])).length =
      (blockCores t ++ ["END".data]).length + 1 from rfl]
  rw [parseLinesF_cons_on _ _ _ _ (by decide)]
  rw [parseOnInstall_walk (blockCores t) [] _ (blockCores_ne_end t)]
  rw [parseLinesF_nil]
  simp [List.map_map, Function.comp_def]

theorem keptLines_shape (t : KloreTemplate) :
    keptLines t = nameLineG t ::
      ((if t.version.length ≠ 0 then [versionLineG t] else []) ++
       ((match t.framework with
         | some f => if f.length ≠ 0 then [frameworkLineG f] else []
         | none => []) ++
        ((orderedVars t).map (fun p => askLineFor p.1 p.2) ++
         ("ON INSTALL".data :: (blockCores t ++ ["END".data]))))) := by
  unfold keptLines
  simp only [List.append_assoc]
  rfl

theorem parseKlore_generateKlore (t : KloreTemplate) (hclean : cleanTemplateB t = true) :
    parseKlore (generateKlore t) = expectedParse t := by
  show parseLinesF (preprocess (generateKlore t)).length
      (preprocess (generateKlore t)) emptyTemplate = expectedParse t
  rw [preprocess_generateKlore t hclean]
  have hname_not : isOnInstallCmd (nameLineG t) = false := by
    rw [nameLineG_form t]
    exact isOnInstallCmd_word "NAME".data _ (by decide) (by decide) (by decide)
      (by decide) (by decide)
  have hver_not : isOnInstallCmd (versionLineG t) = false := by
    rw [versionLineG_form t]
    exact isOnInstallCmd_word "VERSION".data _ (by decide) (by decide) (by decide)
      (by decide) (by decide)
  have hfw_not : ∀ f, isOnInstallCmd (frameworkLineG f) = false := by
    intro f
    rw [frameworkLineG_form f]
    exact isOnInstallCmd_word "FRAMEWORK".data _ (by decide) (by decide) (by decide)
      (by decide) (by decide)
  have hname_step : ∀ s : KloreTemplate, parseLineFn (nameLineG t) s =
      { s with name := extractString (nameLineG t) } := by
    intro s
    rw [nameLineG_form t]
    exact parseLineFn_name _ s
  have hver_step : ∀ s : KloreTemplate, parseLineFn (versionLineG t) s =
      { s with version := extractString (versionLineG t) } := by
    intro s
    rw [versionLineG_form t]
    exact parseLineFn_version _ s
  have hfw_step : ∀ (f : Str) (s : KloreTemplate), parseLineFn (frameworkLineG f) s =
      { s with framework := some (extractString (frameworkLineG f)) } := by
    intro f s
    rw [frameworkLineG_form f]
    exact parseLineFn_framework _ s
  rw [keptLines_shape t]
  by_cases hv : t.version.length ≠ 0
  · rw [if_pos hv, List.singleton_append]
    cases hfr : t.framework with
    | none =>
      rw [show (match (none : Option Str) with
          | some f => if f.length ≠ 0 then [frameworkLineG f] else []
          | none => ([] : List Str)) = [] from rfl, List.nil_append]
      rw [List.length_cons, parseLinesF_cons_plain _ _ _ _ hname_not, hname_step]
      rw [List.length_cons, parseLinesF_cons_plain _ _ _ _ hver_not, hver_step]
      rw [parse_tail_walk t _]
      unfold expectedParse
      congr 1
      unfold preBlockTemplate
      rw [hfr]
      simp [emptyTemplate, hv]
    | some f =>
      rw [show (match (some f : Option Str) with
          | some f => if f.length ≠ 0 then [frameworkLineG f] else []
          | none => ([] : List Str)) =
          (if f.length ≠ 0 then [frameworkLineG f] else []) from rfl]
      by_cases hf : f.length ≠ 0
      · rw [if_pos hf, List.singleton_append]
        rw [List.length_cons, parseLinesF_cons_plain _ _ _ _ hname_not, hname_step]
        rw [List.length_cons, parseLinesF_cons_plain _ _ _ _ hver_not, hver_step]
        rw [List.length_cons, parseLinesF_cons_plain _ _ _ _ (hfw_not f), hfw_step f]
        rw [parse_tail_walk t _]
        unfold expectedParse
        congr 1
        unfold preBlockTemplate
        rw [hfr]
        simp [emptyTemplate, hv, hf]
      · rw [if_neg hf, List.nil_append]
        rw [List.length_cons, parseLinesF_cons_plain _ _ _ _ hname_not, hname_step]
        rw [List.length_cons, parseLinesF_cons_plain _ _ _ _ hver_not, hver_step]
        rw [parse_tail_walk t _]
        unfold expectedParse
        congr 1
        unfold preBlockTemplate
        rw [hfr]
        simp [emptyTemplate, hv, hf]
  · rw [if_neg hv, List.nil_append]
    cases hfr : t.framework with
    | none =>
      rw [show (match (none : Option Str) with
          | some f => if f.length ≠ 0 then [frameworkLineG f] else []
          | none => ([] : List Str)) = [] from rfl, List.nil_append]
      rw [List.length_cons, parseLinesF_cons_plain _ _ _ _ hname_not, hname_step]
      rw [parse_tail_walk t _]
      unfold expectedParse
      congr 1
      unfold preBlockTemplate
      rw [hfr]
      simp [emptyTemplate, hv]
    | some f =>
      rw [show (match (some f : Option Str) with
          | some f => if f.length ≠ 0 then [frameworkLineG f] else []
          | none => ([] : List Str)) =
          (if f.length ≠ 0 then [frameworkLineG f] else []) from rfl]
      by_cases hf : f.length ≠ 0
      · rw [if_pos hf, List.singleton_append]
        rw [List.length_cons, parseLinesF_cons_plain _ _ _ _ hname_not, hname_step]
        rw [List.length_cons, parseLinesF_cons_plain _ _ _ _ (hfw_not f), hfw_step f]
        rw [parse_tail_walk t _]
        unfold expectedParse
        congr 1
        unfold preBlockTemplate
        rw [hfr]
        simp [emptyTemplate, hv, hf]
      · rw [if_neg hf, List.nil_append]
        rw [List.length_cons, parseLinesF_cons_plain _ _ _ _ hname_not, hname_step]
        rw [parse_tail_walk t _]
        unfold expectedParse
        congr 1
        unfold preBlockTemplate
        rw [hfr]
        simp [emptyTemplate, hv, hf]

theorem ofNat_toNat_small (n : Nat) (h : n ≤ 1000) : (Char.ofNat n).toNat = n := by
  unfold Char.ofNat
  rw [dif_pos (by left; omega)]
  rfl

theorem toLower_of_toUpper_eq (c u : Char) (hu1 : 65 ≤ u.toNat) (hu2 : u.toNat ≤ 90)
    (h : c.toUpper = u) : c.toLower = Char.ofNat (u.toNat + 32) := by
  unfold Char.toUpper at h
  by_cases hc : c.toNat ≥ 97 ∧ c.toNat ≤ 122
  · rw [if_pos hc] at h
    have h1 : (Char.ofNat (c.toNat - 32)).toNat = c.toNat - 32 :=
      ofNat_toNat_small _ (by omega)
    have h2 : c.toNat - 32 = u.toNat := by rw [h] at h1; omega
    unfold Char.toLower
    rw [if_neg (by omega)]
    rw [char_eq_iff_toNat, ofNat_toNat_small _ (by omega)]
    omega
  · rw [if_neg hc] at h
    subst h
    unfold Char.toLower
    rw [if_pos ⟨hu1, hu2⟩]

theorem toLower_fix_of_lower (c : Char) (h : isLowerWordChar c = true) :
    c.toLower = c := by
  have hn := isLowerWordChar_toNat c h
  unfold Char.toLower
  rw [if_neg (by omega)]

theorem jsToLower_fix (s : Str) (h : ∀ c ∈ s, isLowerWordChar c = true) :
    jsToLower s = s := by
  unfold jsToLower
  induction s with
  | nil => rfl
  | cons c cs ih =>
    rw [List.map_cons, toLower_fix_of_lower c (h c (by simp)),
      ih (fun d hd => h d (by simp [hd]))]

theorem mem_of_getLast_opt (l : Str) (c : Char) (h : l.getLast? = some c) : c ∈ l := by
  induction l with
  | nil => simp at h
  | cons a l ih =>
    cases l with
    | nil =>
      have h2 : a = c := by simpa using h
      simp [h2]
    | cons b t => exact List.mem_cons_of_mem a (ih h)

theorem containsSub_of_suffix_prefix (pat x l : Str) (hx : x <:+ l)
    (hp : pat <+: x) : containsSub pat l = true := by
  rcases hx with ⟨pre, rfl⟩
  exact containsSub_append_right pat pre x
    (containsSub_of_startsWith _ _ ((startsWithB_iff_pref _ _).mpr hp))

theorem suffix_getLast (a l : Str) (hs : a <:+ l) (ha : a ≠ []) :
    a.getLast? = l.getLast? := by
  rcases hs with ⟨pre, rfl⟩
  rw [getLast?_append_ne _ _ ha]

theorem generateSmartQuestion_other (vn : Str) :
    generateSmartQuestion vn "other".data =
      "Enter ".data ++ jsToLower (jsTrim (spacedCaps vn)) ++ ":".data := by
  unfold generateSmartQuestion smartQuestionTable
  rw [if_neg (by decide), if_neg (by decide), if_neg (by decide), if_neg (by decide)]

theorem question_other_nice (vn : Str) (h : ∀ c ∈ vn, isLowerWordChar c = true)
    (hne : vn ≠ []) :
    generateSmartQuestion vn "other".data = "Enter ".data ++ vn ++ ":".data := by
  rw [generateSmartQuestion_other, spacedCaps_of_lower vn h]
  rw [jsTrim_eq_self vn ?h1 ?h2, jsToLower_fix vn h]
  case h1 =>
    intro c hc
    have : c ∈ vn := by
      cases vn with
      | nil => simp at hc
      | cons a l =>
        have : a = c := by simpa using hc
        rw [← this]; simp
    exact isSpc_false_of_lower c (h c this)
  case h2 =>
    intro c hc
    exact isSpc_false_of_lower c (h c (mem_of_getLast_opt vn c hc))

theorem mkAskLine_form2 (v : KloreVariable) (q dv : Str) :
    mkAskLine v q dv = "ASK".data ++ (' ' :: (v.name ++ (' ' :: (dq ++ (q ++ (dq ++
      ((if dv.length ≠ 0 then " DEFAULT ".data ++ dq ++ dv ++ dq else []) ++
       (if v.required then " REQUIRED".data else [])))))))) := by
  show "ASK ".data ++ v.name ++ " ".data ++ dq ++ q ++ dq ++ _ ++ _ = _
  simp only [List.append_assoc]
  rfl

theorem matchAskName_shape (n Z : Str) (hn : n ≠ [])
    (hword : ∀ c ∈ n, isWordChar c = true) :
    matchAskName ("ASK".data ++ (' ' :: (n ++ (' ' :: Z)))) = some n := by
  unfold matchAskName
  rw [ciStrip_self_append "ASK".data _]
  simp only []
  cases n with
  | nil => exact absurd rfl hn
  | cons c0 nrest =>
    have hsp : (' ' :: (c0 :: nrest ++ (' ' :: Z))).takeWhile isSpc = [' '] := by
      have := takeWhile_append_stop isSpc [' '] c0 (nrest ++ (' ' :: Z))
        (by intro x hx; simp at hx; subst hx; decide)
        (isSpc_false_of_word c0 (hword c0 (by simp)))
      simpa using this
    have hdw : (' ' :: (c0 :: nrest ++ (' ' :: Z))).dropWhile isSpc =
        c0 :: nrest ++ (' ' :: Z) := by
      have := dropWhile_append_stop isSpc [' '] c0 (nrest ++ (' ' :: Z))
        (by intro x hx; simp at hx; subst hx; decide)
        (isSpc_false_of_word c0 (hword c0 (by simp)))
      simpa using this
    rw [hsp, if_neg (by simp)]
    rw [hdw]
    have hw : (c0 :: nrest ++ (' ' :: Z)).takeWhile isWordChar = c0 :: nrest := by
      have := takeWhile_append_stop isWordChar (c0 :: nrest) ' ' Z hword (by decide)
      simpa using this
    rw [hw, if_neg (by simp)]

theorem startsWith_cons_false (c : Char) (l : Str) (p0 : Char) (ps : Str) (hc : c ≠ p0) :
    startsWithB (c :: l) (p0 :: ps) = false := by
  cases hS : startsWithB (c :: l) (p0 :: ps)
  · rfl
  · exfalso
    rcases (startsWithB_iff_pref _ _).mp hS with ⟨t, ht⟩
    rw [List.cons_append] at ht
    injection ht with h1 h2
    exact hc h1.symm

theorem noSub_cons_bchar (pat : Str) (c : Char) (l : Str)
    (h1 : containsSub pat l = false) (hc : ¬ c ∈ pat) (hpne : pat ≠ []) :
    containsSub pat (c :: l) = false := by
  cases pat with
  | nil => exact absurd rfl hpne
  | cons p0 ps =>
    show (startsWithB (c :: l) (p0 :: ps) || containsSub (p0 :: ps) l) = false
    rw [startsWith_cons_false c l p0 ps (fun he => hc (he ▸ List.mem_cons_self _ _)), h1]
    rfl

theorem noSub_append_bchar (pat a : Str) (c : Char) (b : Str)
    (h1 : containsSub pat a = false) (h2 : containsSub pat (c :: b) = false)
    (hc : ¬ c ∈ pat) : containsSub pat (a ++ c :: b) = false := by
  apply notContains_append_headKill _ _ _ h1 h2
  intro d hd
  have h9 : c = d := by simpa using hd
  subst h9
  exact hc

theorem noSub_append_lchar (pat a b : Str) (c : Char)
    (h1 : containsSub pat (a ++ [c]) = false) (h2 : containsSub pat b = false)
    (hc : ¬ c ∈ pat) : containsSub pat ((a ++ [c]) ++ b) = false := by
  apply notContains_append_lastKill _ _ _ h1 h2
  intro d hd
  rw [getLast?_append_ne _ _ (by simp)] at hd
  have h9 : c = d := by simpa using hd
  subst h9
  exact hc

theorem getLast?_some_decomp (l : Str) (c : Char) (h : l.getLast? = some c) :
    ∃ l', l = l' ++ [c] := by
  induction l with
  | nil => simp at h
  | cons a l ih =>
    cases l with
    | nil =>
      have h2 : a = c := by simpa using h
      exact ⟨[], by simp [h2]⟩
    | cons b t =>
      rcases ih h with ⟨l', hl'⟩
      exact ⟨a :: l', by rw [List.cons_append, ← hl']⟩

theorem mkAskLine_upper2 (v : KloreVariable) (q dv : Str) :
    jsToUpper (mkAskLine v q dv) =
      "ASK ".data ++ (jsToUpper v.name ++ (' ' :: (dqChar :: (jsToUpper q ++
        (dqChar :: ((if dv.length ≠ 0 then
            ' ' :: ("DEFAULT ".data ++ (dqChar :: (jsToUpper dv ++ [dqChar])))
          else []) ++
          (if v.required then ' ' :: "REQUIRED".data else []))))))) := by
  unfold mkAskLine
  split_ifs <;>
    (simp only [jsToUpper_append]
     simp only [show jsToUpper "ASK ".data = "ASK ".data from rfl,
       show jsToUpper " ".data = " ".data from rfl,
       show jsToUpper dq = dq from rfl,
       show jsToUpper " DEFAULT ".data = " DEFAULT ".data from rfl,
       show jsToUpper " REQUIRED".data = " REQUIRED".data from rfl,
       show jsToUpper ([] : Str) = [] from rfl]
     simp [List.append_assoc, dq])

theorem ask_required_true (v : KloreVariable) (q dv : Str) (hreq : v.required = true) :
    containsSub "REQUIRED".data (jsToUpper (mkAskLine v q dv)) = true := by
  rw [mkAskLine_upper2 v q dv, if_pos hreq]
  exact containsSub_append_right _ _ _
    (containsSub_append_right _ _ _
      (containsSub_cons_of _ _ _
        (containsSub_cons_of _ _ _
          (containsSub_append_right _ _ _
            (containsSub_cons_of _ _ _
              (containsSub_append_right _ _ _
                (containsSub_cons_of _ _ _
                  (containsSub_of_startsWith _ _
                    ((startsWithB_iff_pref _ _).mpr (List.prefix_refl _))))))))))

theorem ask_required_false (v : KloreVariable) (q dv : Str) (hreq : v.required = false)
    (hUN : containsSub "REQUIRED".data (jsToUpper v.name) = false)
    (hUQ : containsSub "REQUIRED".data (jsToUpper q) = false)
    (hUD : containsSub "REQUIRED".data (jsToUpper dv) = false) :
    containsSub "REQUIRED".data (jsToUpper (mkAskLine v q dv)) = false := by
  rw [mkAskLine_upper2 v q dv, hreq]
  simp only [Bool.false_eq_true, if_false, List.append_nil]
  have hDP : containsSub "REQUIRED".data
      ((if dv.length ≠ 0 then
          ' ' :: ("DEFAULT ".data ++ (dqChar :: (jsToUpper dv ++ [dqChar])))
        else []) : Str) = false := by
    split_ifs
    · apply noSub_cons_bchar _ _ _ _ (by decide) (by decide)
      apply noSub_append_bchar _ _ _ _ (by decide) ?_ (by decide)
      apply noSub_cons_bchar _ _ _ ?_ (by decide) (by decide)
      apply noSub_append_bchar _ _ _ _ hUD (by decide) (by decide)
    · decide
  apply noSub_append_lchar "REQUIRED".data "AS".data _ 'K' ?_ ?_ (by decide)
  case _ => decide
  apply noSub_append_bchar _ _ _ _ hUN ?_ (by decide)
  apply noSub_cons_bchar _ _ _ ?_ (by decide) (by decide)
  apply noSub_cons_bchar _ _ _ ?_ (by decide) (by decide)
  apply noSub_append_bchar _ _ _ _ hUQ ?_ (by decide)
  apply noSub_cons_bchar _ _ _ hDP (by decide) (by decide)

theorem attemptDefault_eq_none (s : Str) (h : ciStrip "DEFAULT".data s = none) :
    attemptDefault s = none := by
  unfold attemptDefault
  rw [h]

theorem matchDefault_none (l : Str)
    (h : containsSub "DEFAULT".data (jsToUpper l) = false) :
    matchDefault l = none := by
  unfold matchDefault
  induction l with
  | nil => rfl
  | cons c cs ih =>
    have hci : ciStrip "DEFAULT".data (c :: cs) = none := by
      cases hcs : ciStrip "DEFAULT".data (c :: cs) with
      | none => rfl
      | some rest =>
        exfalso
        rcases ciStrip_some_decompose _ _ _ hcs with ⟨u, hu1, hu2⟩
        have hcontains : containsSub "DEFAULT".data (jsToUpper (c :: cs)) = true := by
          rw [hu1, jsToUpper_append, hu2]
          rw [show jsToUpper "DEFAULT".data = "DEFAULT".data from rfl]
          exact containsSub_of_startsWith _ _ (startsWithB_append _ _)
        rw [hcontains] at h
        exact Bool.noConfusion h
    rw [scanFirst_cons_none _ _ _ (attemptDefault_eq_none _ hci)]
    apply ih
    have h3 : (startsWithB (c.toUpper :: jsToUpper cs) "DEFAULT".data ||
        containsSub "DEFAULT".data (jsToUpper cs)) = false := h
    exact (Bool.or_eq_false_iff.mp h3).2

theorem mkAskLine_form3 (v : KloreVariable) (q dv : Str) (hdv : dv.length ≠ 0) :
    mkAskLine v q dv =
      (("ASK ".data ++ (v.name ++ (' ' :: (dq ++ (q ++ dq))))) ++ [' ']) ++
      ("DEFAULT".data ++ (' ' :: (dq ++ (dv ++ (dq ++
        (if v.required then " REQUIRED".data else [])))))) := by
  unfold mkAskLine
  rw [if_pos hdv]
  simp [List.append_assoc, dq]

theorem attemptDefault_at_keyword (dv R : Str) (hdvq : dv.contains dqChar = false) :
    attemptDefault ("DEFAULT".data ++ (' ' :: (dq ++ (dv ++ (dq ++ R))))) = some dv := by
  unfold attemptDefault
  rw [ciStrip_self_append "DEFAULT".data _]
  simp only []
  have hsp : (' ' :: (dq ++ (dv ++ (dq ++ R)))).takeWhile isSpc = [' '] := by
    have := takeWhile_append_stop isSpc [' '] dqChar (dv ++ (dq ++ R))
      (by intro x hx; simp at hx; subst hx; decide) (by decide)
    simpa using this
  have hdw : (' ' :: (dq ++ (dv ++ (dq ++ R)))).dropWhile isSpc =
      dqChar :: (dv ++ (dq ++ R)) := by
    have := dropWhile_append_stop isSpc [' '] dqChar (dv ++ (dq ++ R))
      (by intro x hx; simp at hx; subst hx; decide) (by decide)
    simpa using this
  rw [hsp, if_neg (by simp), hdw]
  show (if dqChar = dqChar then
      Option.map Prod.fst (splitAtChar dqChar (dv ++ (dq ++ R))) else none) = some dv
  rw [if_pos rfl]
  rw [show (dv ++ (dq ++ R)) = dv ++ dqChar :: R from rfl]
  rw [splitAtChar_first dqChar dv R hdvq]
  rfl

theorem matchDefault_mkAskLine (v : KloreVariable) (q dv : Str) (hdv : dv.length ≠ 0)
    (hdvq : dv.contains dqChar = false)
    (hUN : containsSub "DEFAULT".data (jsToUpper v.name) = false)
    (hUQ : containsSub "DEFAULT".data (jsToUpper q) = false) :
    matchDefault (mkAskLine v q dv) = some dv := by
  rw [mkAskLine_form3 v q dv hdv]
  unfold matchDefault
  have hA2U : containsSub "DEFAULT".data
      (jsToUpper (("ASK ".data ++ (v.name ++ (' ' :: (dq ++ (q ++ dq))))) ++ [' '])) =
        false := by
    simp only [jsToUpper_append,
      show jsToUpper "ASK ".data = "ASK ".data from rfl,
      show jsToUpper dq = dq from rfl,
      show jsToUpper [' '] = [' '] from rfl,
      show jsToUpper (' ' :: (dq ++ (q ++ dq))) =
        ' ' :: (dq ++ (jsToUpper q ++ dq)) from by
          rw [show jsToUpper (' ' :: (dq ++ (q ++ dq))) =
            ' ' :: jsToUpper (dq ++ (q ++ dq)) from rfl]
          rw [jsToUpper_append, jsToUpper_append,
            show jsToUpper dq = dq from rfl]]
    apply noSub_append_bchar _ _ ' ' [] ?_ (by decide) (by decide)
    apply noSub_append_lchar "DEFAULT".data "AS".data _ 'K' (by decide) ?_ (by decide)
    apply noSub_append_bchar _ _ _ _ hUN ?_ (by decide)
    apply noSub_cons_bchar _ _ _ ?_ (by decide) (by decide)
    rw [show (dq ++ (jsToUpper q ++ dq) : Str) = dqChar :: (jsToUpper q ++ dq) from rfl]
    apply noSub_cons_bchar _ _ _ ?_ (by decide) (by decide)
    apply noSub_append_bchar _ _ _ _ hUQ (by decide) (by decide)
  rw [scanFirst_append_skip attemptDefault _ _ ?hskip]
  case hskip =>
    intro a' hsuf hne
    apply attemptDefault_eq_none
    cases hcs : ciStrip "DEFAULT".data
        (a' ++ ("DEFAULT".data ++ (' ' :: (dq ++ (dv ++ (dq ++
          (if v.required then " REQUIRED".data else []))))))) with
    | none => rfl
    | some rest =>
      exfalso
      rcases ciStrip_some_decompose _ _ _ hcs with ⟨u, hu1, hu2⟩
      have hpre : "DEFAULT".data <+: (jsToUpper a' ++ jsToUpper ("DEFAULT".data ++
          (' ' :: (dq ++ (dv ++ (dq ++ (if v.required then " REQUIRED".data
            else []))))))) := by
        rw [← jsToUpper_append, hu1, jsToUpper_append, hu2]
        exact ⟨jsToUpper rest, rfl⟩
      rcases prefix_append_cases hpre with hp | ⟨z, hz1, hz2⟩
      · have h1 : containsSub "DEFAULT".data
            (jsToUpper (("ASK ".data ++ (v.name ++ (' ' :: (dq ++ (q ++ dq))))) ++
              [' '])) = true :=
          containsSub_of_suffix_prefix _ _ _ (hsuf.map Char.toUpper) hp
        rw [hA2U] at h1
        exact Bool.noConfusion h1
      · have hlastA : a'.getLast? = some ' ' := by
          rw [suffix_getLast a' _ hsuf hne, getLast?_append_ne _ _ (by simp)]
          rfl
        rcases getLast?_some_decomp a' ' ' hlastA with ⟨a'', rfl⟩
        have hmem : (' ' : Char) ∈ "DEFAULT".data := by
          rw [hz1, jsToUpper_append]
          simp [jsToUpper]
        exact absurd hmem (by decide)
  have hstep := scanFirst_cons_some attemptDefault 'D'
    ("EFAULT".data ++ (' ' :: (dq ++ (dv ++ (dq ++
      (if v.required then " REQUIRED".data else [])))))) dv
    (attemptDefault_at_keyword dv _ hdvq)
  exact hstep

theorem mkAskLine_nodefault_upper (v : KloreVariable) (q : Str)
    (hUN : containsSub "DEFAULT".data (jsToUpper v.name) = false)
    (hUQ : containsSub "DEFAULT".data (jsToUpper q) = false) :
    containsSub "DEFAULT".data (jsToUpper (mkAskLine v q [])) = false := by
  rw [mkAskLine_upper2 v q []]
  rw [if_neg (by simp)]
  simp only [List.nil_append]
  apply noSub_append_lchar "DEFAULT".data "AS".data _ 'K' (by decide) ?_ (by decide)
  apply noSub_append_bchar _ _ _ _ hUN ?_ (by decide)
  apply noSub_cons_bchar _ _ _ ?_ (by decide) (by decide)
  apply noSub_cons_bchar _ _ _ ?_ (by decide) (by decide)
  apply noSub_append_bchar _ _ _ _ hUQ ?_ (by decide)
  split_ifs
  · apply noSub_cons_bchar _ _ _ ?_ (by decide) (by decide)
    apply noSub_cons_bchar _ _ _ (by decide) (by decide) (by decide)
  · decide

theorem enter_q_no_required (n : Str)
    (hUN : containsSub "REQUIRED".data (jsToUpper n) = false) :
    containsSub "REQUIRED".data (jsToUpper ("Enter ".data ++ n ++ ":".data)) = false := by
  rw [jsToUpper_append, jsToUpper_append,
    show jsToUpper "Enter ".data = "ENTER ".data from rfl,
    show jsToUpper ":".data = ":".data from rfl]
  apply noSub_append_bchar _ _ ':' [] ?_ (by decide) (by decide)
  exact noSub_append_lchar "REQUIRED".data "ENTER".data _ ' ' (by decide) hUN (by decide)

theorem enter_q_no_default (n : Str)
    (hUN : containsSub "DEFAULT".data (jsToUpper n) = false) :
    containsSub "DEFAULT".data (jsToUpper ("Enter ".data ++ n ++ ":".data)) = false := by
  rw [jsToUpper_append, jsToUpper_append,
    show jsToUpper "Enter ".data = "ENTER ".data from rfl,
    show jsToUpper ":".data = ":".data from rfl]
  apply noSub_append_bchar _ _ ':' [] ?_ (by decide) (by decide)
  exact noSub_append_lchar "DEFAULT".data "ENTER".data _ ' ' (by decide) hUN (by decide)

theorem escDefault_id (s : Str) (h1 : s.contains dqChar = false)
    (h2 : s.contains nlChar = false) : escDefault s = s := by
  unfold escDefault
  rw [contains_false_iff] at h1 h2
  induction s with
  | nil => rfl
  | cons c cs ih =>
    have hc1 : ¬(c = dqChar) := fun he => h1 (by simp [he])
    have hc2 : ¬(c = nlChar) := fun he => h2 (by simp [he])
    rw [List.flatMap_cons, if_neg hc1]
    rw [show ([c] ++ cs.flatMap (fun c => if c = dqChar then [bsChar, dqChar] else [c])) =
      c :: cs.flatMap (fun c => if c = dqChar then [bsChar, dqChar] else [c]) from rfl]
    rw [List.map_cons, if_neg hc2]
    rw [ih (fun hm => h1 (by simp [hm])) (fun hm => h2 (by simp [hm]))]

theorem parseAsk_askLineOther (v : KloreVariable) (h : niceVarB v = true) :
    parseAsk (askLineOther v) = v := by
  unfold niceVarB at h
  simp only [Bool.and_eq_true, Bool.not_eq_true', decide_eq_true_eq, ne_eq,
    List.all_eq_true] at h
  obtain ⟨⟨⟨⟨⟨⟨⟨⟨hne, hlow⟩, hreqN⟩, hdefN⟩, htype⟩, hdq⟩, hnl⟩, hlen⟩, hreqD⟩ := h
  have hne' : v.name ≠ [] := fun he => hne (by rw [he]; rfl)
  have hword : ∀ c ∈ v.name, isWordChar c = true :=
    fun c hc => isWordChar_of_lower c (hlow c hc)
  have hq : generateSmartQuestion v.name "other".data =
      "Enter ".data ++ v.name ++ ":".data := question_other_nice v.name hlow hne'
  have hesc : escDefault v.defaultValue = v.defaultValue := escDefault_id _ hdq hnl
  have htrunc : truncDefault v.defaultValue = v.defaultValue := by
    unfold truncDefault
    rw [if_neg (by omega)]
  have hline : askLineOther v =
      mkAskLine v ("Enter ".data ++ v.name ++ ":".data) v.defaultValue := by
    unfold askLineOther
    rw [hq, hesc, htrunc]
  rw [hline]
  have hname : matchAskName
      (mkAskLine v ("Enter ".data ++ v.name ++ ":".data) v.defaultValue) =
      some v.name := by
    rw [mkAskLine_form2]
    exact matchAskName_shape v.name _ hne' hword
  have hrequired : containsSub "REQUIRED".data
      (jsToUpper (mkAskLine v ("Enter ".data ++ v.name ++ ":".data) v.defaultValue)) =
      v.required := by
    cases hreq : v.required with
    | true => exact ask_required_true v _ _ hreq
    | false =>
      exact ask_required_false v _ _ hreq hreqN (enter_q_no_required _ hreqN) hreqD
  have hdefault : ((matchDefault
      (mkAskLine v ("Enter ".data ++ v.name ++ ":".data) v.defaultValue)).getD []) =
      v.defaultValue := by
    rcases hdv : v.defaultValue with _ | ⟨d0, drest⟩
    · rw [show matchDefault (mkAskLine v ("Enter ".data ++ v.name ++ ":".data) []) =
          none from matchDefault_none _
            (mkAskLine_nodefault_upper v _ hdefN (enter_q_no_default _ hdefN))]
      rfl
    · rw [matchDefault_mkAskLine v _ (d0 :: drest) (by simp) (by rw [← hdv]; exact hdq)
        hdefN (enter_q_no_default _ hdefN)]
      rfl
  unfold parseAsk
  rw [hname]
  simp only [Option.getD_some]
  rw [hdefault, hrequired, ← htype]

theorem joinSpace_map_ne_nil (ps : List Str) (hne : ps ≠ []) :
    joinSpace (ps.map (fun p => dq ++ p ++ dq)) ≠ [] := by
  cases ps with
  | nil => exact absurd rfl hne
  | cons p t =>
    cases t with
    | nil =>
      show (dq ++ p ++ dq) ≠ []
      simp [dq]
    | cons q t2 =>
      show (dq ++ p ++ dq) ++ ' ' ::
        joinSpace ((q :: t2).map (fun p => dq ++ p ++ dq)) ≠ []
      simp

theorem joinSpace_map_last (ps : List Str) (hne : ps ≠ []) :
    (joinSpace (ps.map (fun p => dq ++ p ++ dq))).getLast? = some dqChar := by
  induction ps with
  | nil => exact absurd rfl hne
  | cons p t ih =>
    cases t with
    | nil =>
      show (dq ++ p ++ dq).getLast? = some dqChar
      rw [getLast?_append_ne _ _ (by simp [dq])]
      rfl
    | cons q t2 =>
      show ((dq ++ p ++ dq) ++ ' ' ::
        joinSpace ((q :: t2).map (fun p => dq ++ p ++ dq))).getLast? = some dqChar
      rw [getLast?_append_ne _ _ (by simp)]
      rw [show (' ' :: joinSpace ((q :: t2).map (fun p => dq ++ p ++ dq))) =
        [' '] ++ joinSpace ((q :: t2).map (fun p => dq ++ p ++ dq)) from rfl]
      rw [getLast?_append_ne _ _ (joinSpace_map_ne_nil (q :: t2) (by simp))]
      exact ih (by simp)

theorem replCore_trim_id (r : KloreReplacement) (hne : r.filePatterns ≠ []) :
    jsTrim (replCore r) = replCore r := by
  apply jsTrim_id_of_ends _ 'R' dqChar (replCore_head r) ?_ (by decide) (by decide)
  unfold replCore
  rw [getLast?_append_ne _ _ (joinSpace_map_ne_nil _ hne)]
  exact joinSpace_map_last _ hne

theorem scanQ_escaped (s rest : Str) :
    scanQ (s.flatMap escUnit ++ dqChar :: rest) false = some (s.flatMap escUnit, rest) := by
  induction s with
  | nil =>
    show scanQ (dqChar :: rest) false = some ([], rest)
    simp only [scanQ]
    rw [if_neg (by decide), if_pos (by decide)]
  | cons c cs ih =>
    rw [List.flatMap_cons]
    by_cases h1 : c = bsChar
    · rw [show escUnit c = [bsChar, bsChar] from by rw [h1]; rfl]
      show scanQ (bsChar :: bsChar :: (cs.flatMap escUnit ++ dqChar :: rest)) false =
        some (bsChar :: bsChar :: cs.flatMap escUnit, rest)
      simp only [scanQ]
      rw [if_pos (by decide)]
      rw [if_neg (by decide), if_neg (by decide)]
      rw [ih]
    · by_cases h2 : c = dqChar
      · rw [show escUnit c = [bsChar, dqChar] from by rw [h2]; rfl]
        show scanQ (bsChar :: dqChar :: (cs.flatMap escUnit ++ dqChar :: rest)) false =
          some (bsChar :: dqChar :: cs.flatMap escUnit, rest)
        simp only [scanQ]
        rw [if_pos (by decide)]
        rw [if_neg (by decide), if_neg (by decide)]
        rw [ih]
      · by_cases h3 : c = nlChar
        · rw [show escUnit c = [bsChar, 'n'] from by rw [h3]; rfl]
          show scanQ (bsChar :: 'n' :: (cs.flatMap escUnit ++ dqChar :: rest)) false =
            some (bsChar :: 'n' :: cs.flatMap escUnit, rest)
          simp only [scanQ]
          rw [if_pos (by decide)]
          rw [if_neg (by decide), if_neg (by decide)]
          rw [ih]
        · rw [show escUnit c = [c] from by
            unfold escUnit
            rw [if_neg h1, if_neg h2, if_neg h3]]
          show scanQ (c :: (cs.flatMap escUnit ++ dqChar :: rest)) false =
            some (c :: cs.flatMap escUnit, rest)
          simp only [scanQ]
          rw [if_neg (by simp [h1]), if_neg (by simp [h2])]
          rw [ih]

theorem attemptWith_at (V R : Str) (hV : V ≠ []) (hword : ∀ c ∈ V, isWordChar c = true) :
    attemptWith ("WITH".data ++ (' ' :: (dqChar :: ("\x7b\x7b".data ++
      (' ' :: (V ++ (' ' :: ("\x7d\x7d".data ++ R)))))))) = some V := by
  unfold attemptWith
  rw [ciStrip_self_append "WITH".data _]
  simp only []
  have hsp : ((' ' :: (dqChar :: ("\x7b\x7b".data ++
      (' ' :: (V ++ (' ' :: ("\x7d\x7d".data ++ R))))))).takeWhile isSpc) = [' '] := by
    have := takeWhile_append_stop isSpc [' '] dqChar ("\x7b\x7b".data ++
      (' ' :: (V ++ (' ' :: ("\x7d\x7d".data ++ R)))))
      (by intro x hx; simp at hx; subst hx; decide) (by decide)
    simpa using this
  have hdw : ((' ' :: (dqChar :: ("\x7b\x7b".data ++
      (' ' :: (V ++ (' ' :: ("\x7d\x7d".data ++ R))))))).dropWhile isSpc) =
      dqChar :: ("\x7b\x7b".data ++ (' ' :: (V ++ (' ' :: ("\x7d\x7d".data ++ R))))) := by
    have := dropWhile_append_stop isSpc [' '] dqChar ("\x7b\x7b".data ++
      (' ' :: (V ++ (' ' :: ("\x7d\x7d".data ++ R)))))
      (by intro x hx; simp at hx; subst hx; decide) (by decide)
    simpa using this
  rw [hsp, if_neg (by simp), hdw]
  simp only []
  rw [if_pos (by decide)]
  rw [ciStrip_self_append "\x7b\x7b".data _]
  simp only []
  cases hVc : V with
  | nil => exact absurd hVc hV
  | cons v0 vt =>
    have hdw2 : List.dropWhile isSpc (' ' :: (v0 :: vt ++ ' ' :: ("\x7d\x7d".data ++ R))) =
        v0 :: vt ++ ' ' :: ("\x7d\x7d".data ++ R) := by
      have := dropWhile_append_stop isSpc [' '] v0 (vt ++ ' ' :: ("\x7d\x7d".data ++ R))
        (by intro x hx; simp at hx; subst hx; decide)
        (isSpc_false_of_word v0 (hword v0 (by rw [hVc]; simp)))
      simpa using this
    have htw : List.takeWhile isWordChar (v0 :: vt ++ ' ' :: ("\x7d\x7d".data ++ R)) =
        v0 :: vt := by
      have := takeWhile_append_stop isWordChar (v0 :: vt) ' ' ("\x7d\x7d".data ++ R)
        (by intro x hx; exact hword x (by rw [hVc]; exact hx)) (by decide)
      simpa using this
    have hdw3 : List.dropWhile isWordChar (v0 :: vt ++ ' ' :: ("\x7d\x7d".data ++ R)) =
        ' ' :: ("\x7d\x7d".data ++ R) := by
      have := dropWhile_append_stop isWordChar (v0 :: vt) ' ' ("\x7d\x7d".data ++ R)
        (by intro x hx; exact hword x (by rw [hVc]; exact hx)) (by decide)
      simpa using this
    have hdw4 : List.dropWhile isSpc (' ' :: ("\x7d\x7d".data ++ R)) =
        "\x7d\x7d".data ++ R := by
      have := dropWhile_append_stop isSpc [' '] '\x7d' ("\x7d".data ++ R)
        (by intro x hx; simp at hx; subst hx; decide) (by decide)
      simpa using this
    rw [hdw2, htw, if_neg (by simp), hdw3, hdw4, ciStrip_self_append "\x7d\x7d".data R]

theorem attemptIn_eq_none (s : Str) (h : ciStrip "IN".data s = none) :
    attemptIn s = none := by
  unfold attemptIn
  rw [h]

theorem attemptIn_none_of_head (s : Str) (c : Char) (h : s.head? = some c)
    (hc : c.toUpper ≠ 'I'.toUpper) : attemptIn s = none := by
  cases s with
  | nil => simp at h
  | cons d ds =>
    have hd : d = c := by simpa using h
    rw [hd]
    exact attemptIn_eq_none _ (ciStrip_none_of_head "IN".data "N".data c ds 'I' rfl hc)

theorem attemptIn_none_after (s r : Str) (e : Char) (h : ciStrip "IN".data s = some r)
    (hr : r.head? = some e) (he : isSpc e = false) : attemptIn s = none := by
  unfold attemptIn
  rw [h]
  simp only []
  cases r with
  | nil => simp at hr
  | cons x rt =>
    have hx : x = e := by simpa using hr
    subst hx
    rw [List.takeWhile_cons_of_neg (by simp [he])]

theorem attemptIn_at (J : Str) (hJ : J.head? = some dqChar) :
    attemptIn ("IN".data ++ (' ' :: J)) = some J := by
  unfold attemptIn
  rw [ciStrip_self_append "IN".data _]
  simp only []
  cases J with
  | nil => simp at hJ
  | cons j0 jt =>
    have hj : j0 = dqChar := by simpa using hJ
    subst hj
    have htw : List.takeWhile isSpc (' ' :: dqChar :: jt) = [' '] := by
      have := takeWhile_append_stop isSpc [' '] dqChar jt
        (by intro x hx; simp at hx; subst hx; decide) (by decide)
      simpa using this
    have hdw : List.dropWhile isSpc (' ' :: dqChar :: jt) = dqChar :: jt := by
      have := dropWhile_append_stop isSpc [' '] dqChar jt
        (by intro x hx; simp at hx; subst hx; decide) (by decide)
      simpa using this
    rw [htw, hdw]

theorem ends_in_of_suffix (V : Str) (c d : Char) (hsuf : [c, d] <:+ V)
    (hcI : c.toUpper = 'I'.toUpper) (hdN : d.toUpper = 'N'.toUpper) :
    endsWithB (jsToLower V) "in".data = true := by
  rcases hsuf with ⟨pre, rfl⟩
  have hcl : c.toLower = 'i' := by
    have := toLower_of_toUpper_eq c 'I' (by decide) (by decide) hcI
    rw [this]
    decide
  have hdl : d.toLower = 'n' := by
    have := toLower_of_toUpper_eq d 'N' (by decide) (by decide) hdN
    rw [this]
    decide
  unfold endsWithB
  rw [show jsToLower (pre ++ [c, d]) = jsToLower pre ++ [c.toLower, d.toLower] from by
    unfold jsToLower; rw [List.map_append]; rfl]
  rw [hcl, hdl, List.reverse_append]
  rw [show (['i', 'n'] : Str).reverse = ['n', 'i'] from rfl]
  exact startsWithB_append "in".data.reverse _

theorem attemptIn_skip_V (V : Str) (hword : ∀ c ∈ V, isWordChar c = true)
    (hNoIn : endsWithB (jsToLower V) "in".data = false) (tail : Str)
    (htail : tail.head? = some ' ') :
    ∀ a', a' <:+ V → a' ≠ [] → attemptIn (a' ++ tail) = none := by
  intro a' hsuf hne
  cases a' with
  | nil => exact absurd rfl hne
  | cons c t =>
    have hcV : c ∈ V := hsuf.subset (by simp)
    by_cases hcI : c.toUpper = 'I'.toUpper
    · cases t with
      | nil =>
        apply attemptIn_eq_none
        show ciStrip "IN".data (c :: ([] ++ tail)) = none
        rw [show ciStrip "IN".data (c :: ([] ++ tail)) =
          (if c.toUpper = 'I'.toUpper then ciStrip "N".data ([] ++ tail) else none)
          from rfl]
        rw [if_pos hcI]
        cases tail with
        | nil => rfl
        | cons t0 ts =>
          have ht0 : t0 = ' ' := by simpa using htail
          subst ht0
          exact ciStrip_none_of_head "N".data [] ' ' ts 'N' rfl (by decide)
      | cons d t2 =>
        have hdV : d ∈ V := hsuf.subset (by simp)
        by_cases hdN : d.toUpper = 'N'.toUpper
        · cases t2 with
          | nil =>
            exfalso
            rw [ends_in_of_suffix V c d hsuf hcI hdN] at hNoIn
            exact Bool.noConfusion hNoIn
          | cons e t3 =>
            have heV : e ∈ V := hsuf.subset (by simp)
            apply attemptIn_none_after _ ((e :: t3) ++ tail) e
            · show ciStrip "IN".data (c :: d :: ((e :: t3) ++ tail)) = some ((e :: t3) ++ tail)
              rw [show ciStrip "IN".data (c :: d :: ((e :: t3) ++ tail)) =
                (if c.toUpper = 'I'.toUpper then
                  (if d.toUpper = 'N'.toUpper then some ((e :: t3) ++ tail) else none)
                 else none) from rfl]
              rw [if_pos hcI, if_pos hdN]
            · rfl
            · exact isSpc_false_of_word e (hword e heV)
        · apply attemptIn_eq_none
          show ciStrip "IN".data (c :: ((d :: t2) ++ tail)) = none
          rw [show ciStrip "IN".data (c :: ((d :: t2) ++ tail)) =
            (if c.toUpper = 'I'.toUpper then
              ciStrip "N".data ((d :: t2) ++ tail) else none) from rfl]
          rw [if_pos hcI]
          exact ciStrip_none_of_head "N".data [] d ((t2 ++ tail)) 'N' rfl hdN
    · exact attemptIn_none_of_head _ c rfl hcI

theorem scanFirst_attemptIn_main (V J : Str) (hV : V ≠ [])
    (hword : ∀ c ∈ V, isWordChar c = true)
    (hNoIn : endsWithB (jsToLower V) "in".data = false) (hJ : J.head? = some dqChar) :
    scanFirst attemptIn (" WITH ".data ++ (dq ++ ("\x7b\x7b ".data ++ (V ++
      (" \x7d\x7d".data ++ (dq ++ (" IN ".data ++ J))))))) = some J := by
  show scanFirst attemptIn (' ' :: 'W' :: 'I' :: 'T' :: 'H' :: ' ' :: dqChar ::
    '\x7b' :: '\x7b' :: ' ' :: (V ++ (' ' :: '\x7d' :: '\x7d' :: dqChar :: ' ' ::
      'I' :: 'N' :: ' ' :: J))) = some J
  rw [scanFirst_cons_none _ _ _ (attemptIn_none_of_head _ ' ' rfl (by decide))]
  rw [scanFirst_cons_none _ _ _ (attemptIn_none_of_head _ 'W' rfl (by decide))]
  rw [scanFirst_cons_none _ _ _ (attemptIn_eq_none _ (by rfl))]
  rw [scanFirst_cons_none _ _ _ (attemptIn_none_of_head _ 'T' rfl (by decide))]
  rw [scanFirst_cons_none _ _ _ (attemptIn_none_of_head _ 'H' rfl (by decide))]
  rw [scanFirst_cons_none _ _ _ (attemptIn_none_of_head _ ' ' rfl (by decide))]
  rw [scanFirst_cons_none _ _ _ (attemptIn_none_of_head _ dqChar rfl (by decide))]
  rw [scanFirst_cons_none _ _ _ (attemptIn_none_of_head _ '\x7b' rfl (by decide))]
  rw [scanFirst_cons_none _ _ _ (attemptIn_none_of_head _ '\x7b' rfl (by decide))]
  rw [scanFirst_cons_none _ _ _ (attemptIn_none_of_head _ ' ' rfl (by decide))]
  rw [scanFirst_append_skip attemptIn V _ (attemptIn_skip_V V hword hNoIn
    (' ' :: '\x7d' :: '\x7d' :: dqChar :: ' ' :: 'I' :: 'N' :: ' ' :: J) rfl)]
  rw [scanFirst_cons_none _ _ _ (attemptIn_none_of_head _ ' ' rfl (by decide))]
  rw [scanFirst_cons_none _ _ _ (attemptIn_none_of_head _ '\x7d' rfl (by decide))]
  rw [scanFirst_cons_none _ _ _ (attemptIn_none_of_head _ '\x7d' rfl (by decide))]
  rw [scanFirst_cons_none _ _ _ (attemptIn_none_of_head _ dqChar rfl (by decide))]
  rw [scanFirst_cons_none _ _ _ (attemptIn_none_of_head _ ' ' rfl (by decide))]
  exact scanFirst_cons_some _ _ _ _ (attemptIn_at J hJ)

theorem attemptWith_none_of_head (s : Str) (c : Char) (h : s.head? = some c)
    (hc : c.toUpper ≠ 'W'.toUpper) : attemptWith s = none := by
  cases s with
  | nil => simp at h
  | cons d ds =>
    have hd : d = c := by simpa using h
    rw [hd]
    unfold attemptWith
    rw [ciStrip_none_of_head "WITH".data "ITH".data c ds 'W' rfl hc]

theorem scanFirst_attemptWith_main (V T : Str) (hV : V ≠ [])
    (hword : ∀ c ∈ V, isWordChar c = true) :
    scanFirst attemptWith (" WITH ".data ++ (dq ++ ("\x7b\x7b ".data ++ (V ++
      (" \x7d\x7d".data ++ T))))) = some V := by
  show scanFirst attemptWith (' ' :: ("WITH".data ++ (' ' :: (dqChar ::
    ("\x7b\x7b".data ++ (' ' :: (V ++ (' ' :: ("\x7d\x7d".data ++ T))))))))) = some V
  rw [scanFirst_cons_none _ _ _ (attemptWith_none_of_head _ ' ' rfl (by decide))]
  exact scanFirst_cons_some _ _ _ _ (attemptWith_at V T hV hword)

theorem quotedTokensF_nil_any (f : Nat) : quotedTokensF f [] = [] := by
  cases f <;> rfl

theorem quotedTokensF_join (ps : List Str)
    (hps : ∀ p ∈ ps, p ≠ [] ∧ p.contains dqChar = false) :
    ∀ f, (joinSpace (ps.map (fun p => dq ++ p ++ dq))).length + 1 ≤ f →
      quotedTokensF f (joinSpace (ps.map (fun p => dq ++ p ++ dq))) = ps := by
  induction ps with
  | nil =>
    intro f hf
    exact quotedTokensF_nil_any f
  | cons p t ih =>
    intro f hf
    have hp := hps p (by simp)
    cases t with
    | nil =>
      show quotedTokensF f (dq ++ p ++ dq) = [p]
      have hform : (dq ++ p ++ dq : Str) = dqChar :: (p ++ dqChar :: []) := by
        simp [dq, List.append_assoc]
      rw [hform]
      cases f with
      | zero => simp at hf
      | succ f1 =>
        show (if dqChar = dqChar then
            match splitAtChar dqChar (p ++ dqChar :: []) with
            | some (tok, rest) =>
              if tok.length = 0 then quotedTokensF f1 (p ++ dqChar :: [])
              else tok :: quotedTokensF f1 rest
            | none => []
          else quotedTokensF f1 (p ++ dqChar :: [])) = [p]
        rw [if_pos rfl, splitAtChar_first dqChar p [] hp.2]
        simp only []
        rw [if_neg (by
          intro h0
          exact hp.1 (List.length_eq_zero.mp h0))]
        rw [quotedTokensF_nil_any f1]
    | cons q t2 =>
      show quotedTokensF f ((dq ++ p ++ dq) ++ ' ' ::
        joinSpace ((q :: t2).map (fun p => dq ++ p ++ dq))) = p :: q :: t2
      have hform : ((dq ++ p ++ dq) ++ ' ' ::
          joinSpace ((q :: t2).map (fun p => dq ++ p ++ dq)) : Str) =
          dqChar :: (p ++ dqChar ::
            (' ' :: joinSpace ((q :: t2).map (fun p => dq ++ p ++ dq)))) := by
        simp [dq, List.append_assoc]
      have hlenJ : ((dq ++ p ++ dq) ++ ' ' ::
          joinSpace ((q :: t2).map (fun p => dq ++ p ++ dq))).length =
          p.length + 3 +
            (joinSpace ((q :: t2).map (fun p => dq ++ p ++ dq))).length := by
        simp [dq]
        omega
      have hf2 : (joinSpace ((q :: t2).map (fun p => dq ++ p ++ dq))).length + 3 ≤ f := by
        have := hf
        rw [show joinSpace ((p :: q :: t2).map (fun p => dq ++ p ++ dq)) =
          (dq ++ p ++ dq) ++ ' ' ::
            joinSpace ((q :: t2).map (fun p => dq ++ p ++ dq)) from rfl] at this
        rw [hlenJ] at this
        omega
      rw [hform]
      cases f with
      | zero => omega
      | succ f1 =>
        show (if dqChar = dqChar then
            match splitAtChar dqChar (p ++ dqChar ::
              (' ' :: joinSpace ((q :: t2).map (fun p => dq ++ p ++ dq)))) with
            | some (tok, rest) =>
              if tok.length = 0 then quotedTokensF f1 (p ++ dqChar ::
                (' ' :: joinSpace ((q :: t2).map (fun p => dq ++ p ++ dq))))
              else tok :: quotedTokensF f1 rest
            | none => []
          else quotedTokensF f1 (p ++ dqChar ::
            (' ' :: joinSpace ((q :: t2).map (fun p => dq ++ p ++ dq))))) = p :: q :: t2
        rw [if_pos rfl, splitAtChar_first dqChar p _ hp.2]
        simp only []
        rw [if_neg (by
          intro h0
          exact hp.1 (List.length_eq_zero.mp h0))]
        cases f1 with
        | zero => omega
        | succ f2 =>
          show p :: (if ' ' = dqChar then
              match splitAtChar dqChar (joinSpace ((q :: t2).map (fun p => dq ++ p ++ dq))) with
              | some (tok, rest) =>
                if tok.length = 0 then
                  quotedTokensF f2 (joinSpace ((q :: t2).map (fun p => dq ++ p ++ dq)))
                else tok :: quotedTokensF f2 rest
              | none => []
            else quotedTokensF f2 (joinSpace ((q :: t2).map (fun p => dq ++ p ++ dq)))) =
            p :: q :: t2
          rw [if_neg (by decide)]
          rw [ih (fun x hx => hps x (by simp [hx])) f2 (by omega)]

theorem filter_dq_id (p : Str) (h : p.contains dqChar = false) :
    p.filter (fun c => !(c = dqChar)) = p := by
  rw [contains_false_iff] at h
  rw [List.filter_eq_self]
  intro a ha
  simp only [Bool.not_eq_true']
  simp only [decide_eq_false_iff_not]
  exact fun he => h (he ▸ ha)

theorem afterSub_self (pat rest : Str) : afterSub pat (pat ++ rest) = some rest := by
  have hstart : startsWithB (pat ++ rest) pat = true := startsWithB_append pat rest
  cases hx : pat ++ rest with
  | nil =>
    have hp : pat = [] := (List.append_eq_nil.mp hx).1
    have hr : rest = [] := (List.append_eq_nil.mp hx).2
    subst hp
    subst hr
    rfl
  | cons c cs =>
    rw [hx] at hstart
    show (if startsWithB (c :: cs) pat then some ((c :: cs).drop pat.length)
      else afterSub pat cs) = some rest
    rw [if_pos hstart, ← hx, List.drop_left]

theorem joinSpace_map_head (ps : List Str) (hne : ps ≠ []) :
    (joinSpace (ps.map (fun p => dq ++ p ++ dq))).head? = some dqChar := by
  cases ps with
  | nil => exact absurd rfl hne
  | cons p t =>
    cases t with
    | nil =>
      show (dq ++ p ++ dq).head? = some dqChar
      apply head?_append_of
      apply head?_append_of
      rfl
    | cons q t2 =>
      show ((dq ++ p ++ dq) ++ ' ' ::
        joinSpace ((q :: t2).map (fun p => dq ++ p ++ dq))).head? = some dqChar
      apply head?_append_of
      apply head?_append_of
      apply head?_append_of
      rfl

theorem replCore_last_dq (r : KloreReplacement) (hne : r.filePatterns ≠ []) :
    (replCore r).getLast? = some dqChar := by
  unfold replCore
  rw [getLast?_append_ne _ _ (joinSpace_map_ne_nil _ hne)]
  exact joinSpace_map_last _ hne

theorem scanQ_escaped2 (s rest : Str) :
    scanQ (s.flatMap escUnit ++ (dq ++ rest)) false = some (s.flatMap escUnit, rest) :=
  scanQ_escaped s rest

theorem parseReplacement_roundtrip (r : KloreReplacement) (h : niceReplB r = true) :
    parseReplacement (jsTrim (replCore r)) = r := by
  unfold niceReplB at h
  simp only [Bool.and_eq_true, Bool.not_eq_true', decide_eq_true_eq, ne_eq,
    List.all_eq_true] at h
  obtain ⟨⟨⟨⟨⟨hbs, hvne⟩, hvw⟩, hvin⟩, hpne⟩, hpats⟩ := h
  have hfpne : r.filePatterns ≠ [] := fun he => hpne (by rw [he]; rfl)
  have hvne' : r.varName ≠ [] := fun he => hvne (by rw [he]; rfl)
  have hpne2 : ∀ p ∈ r.filePatterns, p ≠ [] ∧ p.contains dqChar = false := by
    intro p hp
    rcases hpats p hp with ⟨⟨h1, h2⟩, h3⟩
    exact ⟨fun he => h1 (by rw [he]; rfl), h2⟩
  rw [replCore_trim_id r hfpne, replCore_form2 r]
  have hcW : containsSub "WITH".data ("REPLACE".data ++ (' ' :: (dq ++
      (escapeOriginal r.original ++ (dq ++ (" WITH ".data ++ (dq ++ ("\x7b\x7b ".data ++
        (r.varName ++ (" \x7d\x7d".data ++ (dq ++ (" IN ".data ++
          joinSpace (r.filePatterns.map (fun p => dq ++ p ++ dq)))))))))))))) = true := by
    apply containsSub_append_right
    apply containsSub_cons_of
    apply containsSub_append_right
    apply containsSub_append_right
    apply containsSub_append_right
    show containsSub "WITH".data (' ' :: ("WITH".data ++ (' ' :: (dq ++
      ("\x7b\x7b ".data ++ (r.varName ++ (" \x7d\x7d".data ++ (dq ++ (" IN ".data ++
        joinSpace (r.filePatterns.map (fun p => dq ++ p ++ dq))))))))))) = true
    apply containsSub_cons_of
    exact containsSub_of_startsWith _ _ (startsWithB_append _ _)
  have hcR : containsSub "REPLACE".data ("REPLACE".data ++ (' ' :: (dq ++
      (escapeOriginal r.original ++ (dq ++ (" WITH ".data ++ (dq ++ ("\x7b\x7b ".data ++
        (r.varName ++ (" \x7d\x7d".data ++ (dq ++ (" IN ".data ++
          joinSpace (r.filePatterns.map (fun p => dq ++ p ++ dq)))))))))))))) = true :=
    containsSub_of_startsWith _ _ (startsWithB_append _ _)
  unfold parseReplacement
  rw [if_neg (by rw [hcR, hcW]; decide)]
  rw [afterSub_self "REPLACE".data _]
  simp only []
  have hYne : (dq ++ (escapeOriginal r.original ++ (dq ++ (" WITH ".data ++ (dq ++
      ("\x7b\x7b ".data ++ (r.varName ++ (" \x7d\x7d".data ++ (dq ++ (" IN ".data ++
        joinSpace (r.filePatterns.map (fun p => dq ++ p ++ dq)))))))))) : Str)) ≠ [] := by
    simp [dq]
  have hYlast : (dq ++ (escapeOriginal r.original ++ (dq ++ (" WITH ".data ++ (dq ++
      ("\x7b\x7b ".data ++ (r.varName ++ (" \x7d\x7d".data ++ (dq ++ (" IN ".data ++
        joinSpace (r.filePatterns.map (fun p => dq ++ p ++ dq)))))))))) :
          Str)).getLast? = some dqChar := by
    have hlast := replCore_last_dq r hfpne
    rw [replCore_form2 r] at hlast
    rw [getLast?_append_ne _ _ (by simp)] at hlast
    rw [show (' ' :: (dq ++ (escapeOriginal r.original ++ (dq ++ (" WITH ".data ++ (dq ++
        ("\x7b\x7b ".data ++ (r.varName ++ (" \x7d\x7d".data ++ (dq ++ (" IN ".data ++
          joinSpace (r.filePatterns.map (fun p => dq ++ p ++ dq)))))))))))) : Str) =
      [' '] ++ (dq ++ (escapeOriginal r.original ++ (dq ++ (" WITH ".data ++ (dq ++
        ("\x7b\x7b ".data ++ (r.varName ++ (" \x7d\x7d".data ++ (dq ++ (" IN ".data ++
          joinSpace (r.filePatterns.map (fun p => dq ++ p ++ dq)))))))))))) from rfl]
      at hlast
    rw [getLast?_append_ne _ _ hYne] at hlast
    exact hlast
  have htrimY : jsTrim (' ' :: (dq ++ (escapeOriginal r.original ++ (dq ++
      (" WITH ".data ++ (dq ++ ("\x7b\x7b ".data ++ (r.varName ++ (" \x7d\x7d".data ++
        (dq ++ (" IN ".data ++
          joinSpace (r.filePatterns.map (fun p => dq ++ p ++ dq))))))))))))) =
      dqChar :: (escapeOriginal r.original ++ (dq ++ (" WITH ".data ++ (dq ++
        ("\x7b\x7b ".data ++ (r.varName ++ (" \x7d\x7d".data ++ (dq ++ (" IN ".data ++
          joinSpace (r.filePatterns.map (fun p => dq ++ p ++ dq))))))))))) := by
    have h1 : jsTrim (' ' :: (dq ++ (escapeOriginal r.original ++ (dq ++
        (" WITH ".data ++ (dq ++ ("\x7b\x7b ".data ++ (r.varName ++ (" \x7d\x7d".data ++
          (dq ++ (" IN ".data ++
            joinSpace (r.filePatterns.map (fun p => dq ++ p ++ dq))))))))))))) =
        jsTrim (dq ++ (escapeOriginal r.original ++ (dq ++ (" WITH ".data ++ (dq ++
          ("\x7b\x7b ".data ++ (r.varName ++ (" \x7d\x7d".data ++ (dq ++ (" IN ".data ++
            joinSpace (r.filePatterns.map (fun p => dq ++ p ++ dq)))))))))))) :=
      jsTrim_spaces_append [' '] _ (by intro c hc; simp at hc; subst hc; decide)
    rw [h1]
    exact jsTrim_id_of_ends _ dqChar dqChar rfl hYlast (by decide) (by decide)
  rw [htrimY]
  simp only []
  rw [escapeOriginal_eq_flatMap r.original]
  rw [scanQ_escaped2 r.original _]
  simp only []
  rw [← escapeOriginal_eq_flatMap, unescape_escape r.original hbs]
  rw [scanFirst_attemptWith_main r.varName _ hvne' hvw]
  rw [scanFirst_attemptIn_main r.varName _ hvne' hvw hvin (joinSpace_map_head _ hfpne)]
  simp only [Option.getD_some]
  rw [show quotedTokens (joinSpace (r.filePatterns.map (fun p => dq ++ p ++ dq))) =
      r.filePatterns from
    quotedTokensF_join r.filePatterns hpne2 _ (le_refl _)]
  rcases hfp : r.filePatterns with _ | ⟨p0, pt⟩
  · exact absurd hfp hfpne
  · simp only []
    have hmapid : (p0 :: pt).map (fun s => s.filter (fun c => !(c = dqChar))) =
        p0 :: pt := by
      have h9 := List.map_congr_left (l := p0 :: pt)
        (f := fun s => s.filter (fun c => !(c = dqChar))) (g := fun s => s)
        (fun p hp => filter_dq_id p (hpne2 p (by rw [hfp]; exact hp)).2)
      rw [h9]
      simp
    rw [hmapid, ← hfp]
    simp

theorem blockStep_vars (l : Str) (t : KloreTemplate) : (blockStep l t).vars = t.vars := by
  unfold blockStep
  dsimp only []
  split_ifs <;> rfl

theorem foldl_blockStep_vars (ls : List Str) (t : KloreTemplate) :
    (ls.foldl (fun acc l => blockStep l acc) t).vars = t.vars := by
  induction ls generalizing t with
  | nil => rfl
  | cons a ls ih => rw [List.foldl_cons, ih, blockStep_vars]

theorem blockStep_not_replace (l : Str) (t : KloreTemplate)
    (h : startsWithB (jsToUpper (jsTrim l)) "REPLACE".data = false) :
    (blockStep l t).replacements = t.replacements := by
  unfold blockStep
  dsimp only []
  split_ifs with h1 h2 h3
  · rfl
  · rfl
  · rw [h3] at h
    exact Bool.noConfusion h
  · rfl

theorem runCore_not_replace (cmd : Str) :
    startsWithB (jsToUpper (jsTrim (runCore cmd))) "REPLACE".data = false := by
  rw [runCore_trim, runCore_form, jsToUpper_append,
    show jsToUpper "RUN ".data = "RUN ".data from rfl]
  rfl

theorem runCoresOf_not_replace (t : KloreTemplate) :
    ∀ l ∈ runCoresOf t, startsWithB (jsToUpper (jsTrim l)) "REPLACE".data = false := by
  unfold runCoresOf
  cases t.onInstall.getD [] with
  | nil =>
    intro l hl
    exact (by decide : ∀ x ∈ defaultRunCores,
      startsWithB (jsToUpper (jsTrim x)) "REPLACE".data = false) l hl
  | cons c cs =>
    intro l hl
    rcases List.mem_map.mp hl with ⟨cmd, hc, rfl⟩
    exact runCore_not_replace cmd

theorem foldl_not_replace (cs : List Str) (t : KloreTemplate)
    (h : ∀ l ∈ cs, startsWithB (jsToUpper (jsTrim l)) "REPLACE".data = false) :
    (cs.foldl (fun acc l => blockStep l acc) t).replacements = t.replacements := by
  induction cs generalizing t with
  | nil => rfl
  | cons a cs ih =>
    rw [List.foldl_cons, ih _ (fun l hl => h l (by simp [hl])),
      blockStep_not_replace a t (h a (by simp))]

theorem foldl_replCores (rs : List KloreReplacement) (t0 : KloreTemplate) :
    ((rs.map (fun r => jsTrim (replCore r))).foldl (fun acc l => blockStep l acc) t0) =
      { t0 with replacements := t0.replacements ++
          rs.map (fun r => parseReplacement (jsTrim (replCore r))) } := by
  induction rs generalizing t0 with
  | nil => simp
  | cons a rs ih =>
    rw [List.map_cons, List.foldl_cons, blockStep_replCore, ih]
    simp [List.append_assoc]

theorem expectedParse_vars (t : KloreTemplate) :
    (expectedParse t).vars =
      (orderedVars t).map (fun p => parseAsk (askLineFor p.1 p.2)) := by
  unfold expectedParse
  rw [foldl_blockStep_vars]
  rfl

theorem expectedParse_replacements (t : KloreTemplate) :
    (expectedParse t).replacements =
      (orderedReps t).map (fun r => parseReplacement (jsTrim (replCore r))) := by
  unfold expectedParse blockCores
  rw [List.foldl_append, List.foldl_append]
  rw [show ([copyCore].foldl (fun acc l => blockStep l acc) (preBlockTemplate t)) =
      preBlockTemplate t from by rw [List.foldl_cons, blockStep_copyCore]; rfl]
  rw [foldl_not_replace _ _ (runCoresOf_not_replace t), foldl_replCores]
  show (preBlockTemplate t).replacements ++ _ = _
  rw [show (preBlockTemplate t).replacements = [] from rfl]
  rfl

theorem orderedVars_groups_nil (t : KloreTemplate) (h : t.groups = []) :
    orderedVars t = t.vars.map (fun v => ("other".data, v)) := by
  have hg : ∀ v, varGroupName t v = "other".data := by
    intro v
    unfold varGroupName
    rw [h]
    rfl
  unfold orderedVars otherVarsList
  have hb : ∀ gk ∈ groupOrder,
      (t.vars.filter (fun v => varGroupName t v = gk)).map (fun v => (gk, v)) =
        ([] : List (Str × KloreVariable)) := by
    intro gk hgk
    have hf : t.vars.filter (fun v => varGroupName t v = gk) = [] := by
      apply List.filter_eq_nil.mpr
      intro v hv
      simp only [decide_eq_true_eq]
      rw [hg v]
      revert hgk
      have hno : ∀ g ∈ groupOrder, ¬("other".data = g) := by decide
      exact hno gk
    rw [hf]
    rfl
  have h1 : (groupOrder.flatMap (fun gk =>
      (t.vars.filter (fun v => varGroupName t v = gk)).map (fun v => (gk, v)))) = [] := by
    rw [show groupOrder.flatMap (fun gk =>
        (t.vars.filter (fun v => varGroupName t v = gk)).map (fun v => (gk, v))) =
      (groupOrder.map (fun gk =>
        (t.vars.filter (fun v => varGroupName t v = gk)).map (fun v => (gk, v)))).flatten
      from rfl]
    rw [List.map_congr_left hb]
    decide
  rw [h1, List.nil_append]
  have ho : t.vars.filter (fun v => varGroupName t v = "other".data) = t.vars := by
    apply List.filter_eq_self.mpr
    intro v hv
    simp only [decide_eq_true_eq]
    exact hg v
  rw [ho]
  by_cases hlen : t.vars.length ≠ 0
  · rw [if_pos hlen]
  · rw [if_neg hlen]
    have hnil : t.vars = [] := List.length_eq_zero.mp (not_ne_iff.mp hlen)
    rw [hnil]
    rfl

theorem orderedReps_groups_nil (t : KloreTemplate) (h : t.groups = []) :
    orderedReps t = t.replacements := by
  have hg : ∀ r, replGroupName t r = "other".data := by
    intro r
    unfold replGroupName
    rw [h]
    rfl
  unfold orderedReps
  rw [List.flatMap_append]
  have hb : ∀ gk ∈ groupOrder,
      t.replacements.filter (fun r => replGroupName t r = gk) =
        ([] : List KloreReplacement) := by
    intro gk hgk
    apply List.filter_eq_nil.mpr
    intro r hr
    simp only [decide_eq_true_eq]
    rw [hg r]
    revert hgk
    have hno : ∀ g ∈ groupOrder, ¬("other".data = g) := by decide
    exact hno gk
  have h1 : (groupOrder.flatMap (fun gk =>
      t.replacements.filter (fun r => replGroupName t r = gk))) = [] := by
    rw [show groupOrder.flatMap (fun gk =>
        t.replacements.filter (fun r => replGroupName t r = gk)) =
      (groupOrder.map (fun gk =>
        t.replacements.filter (fun r => replGroupName t r = gk))).flatten from rfl]
    rw [List.map_congr_left hb]
    decide
  rw [h1, List.nil_append]
  show t.replacements.filter (fun r => replGroupName t r = "other".data) ++ [] = _
  rw [List.append_nil]
  apply List.filter_eq_self.mpr
  intro r hr
  simp only [decide_eq_true_eq]
  exact hg r

theorem roundtrip_vars_replacements (t : KloreTemplate) (h : niceTemplateB t = true) :
    (parseKlore (generateKlore t)).vars = t.vars ∧
      (parseKlore (generateKlore t)).replacements = t.replacements := by
  unfold niceTemplateB at h
  simp only [Bool.and_eq_true, List.all_eq_true, List.isEmpty_iff] at h
  obtain ⟨⟨⟨hgroups, hclean⟩, hvars⟩, hreps⟩ := h
  rw [parseKlore_generateKlore t hclean]
  constructor
  · rw [expectedParse_vars, orderedVars_groups_nil t hgroups, List.map_map]
    have hpt : ∀ v ∈ t.vars,
        ((fun p => parseAsk (askLineFor p.1 p.2)) ∘ (fun v => ("other".data, v))) v =
          (fun v => v) v := by
      intro v hv
      show parseAsk (askLineFor "other".data v) = v
      unfold askLineFor
      rw [if_pos rfl]
      exact parseAsk_askLineOther v (hvars v hv)
    rw [List.map_congr_left hpt]
    simp
  · rw [expectedParse_replacements, orderedReps_groups_nil t hgroups]
    have hpt : ∀ r ∈ t.replacements,
        (fun r => parseReplacement (jsTrim (replCore r))) r = (fun r => r) r := by
      intro r hr
      exact parseReplacement_roundtrip r (hreps r hr)
    rw [List.map_congr_left hpt]
    simp

theorem foldl_defaultRuns (t0 : KloreTemplate) :
    (defaultRunCores.foldl (fun acc l => blockStep l acc) t0) =
      { t0 with onInstall := t0.onInstall.map (fun l => l ++ defaultCommands) } := by
  have e1 : ∀ t : KloreTemplate,
      blockStep ("RUN ".data ++ dq ++ "composer install".data ++ dq ++ " MESSAGE ".data ++
        dq ++ "Installing PHP dependencies...".data ++ dq) t =
      { t with onInstall := t.onInstall.map (fun l => l ++ ["composer install".data]) } :=
    fun t => rfl
  have e2 : ∀ t : KloreTemplate,
      blockStep ("RUN ".data ++ dq ++ "php artisan key:generate".data ++ dq ++
        " MESSAGE ".data ++ dq ++ "Generating app key...".data ++ dq) t =
      { t with onInstall :=
          t.onInstall.map (fun l => l ++ ["php artisan key:generate".data]) } :=
    fun t => rfl
  have e3 : ∀ t : KloreTemplate,
      blockStep ("RUN ".data ++ dq ++ "php artisan migrate --seed".data ++ dq ++
        " MESSAGE ".data ++ dq ++ "Setting up database...".data ++ dq) t =
      { t with onInstall :=
          t.onInstall.map (fun l => l ++ ["php artisan migrate --seed".data]) } :=
    fun t => rfl
  have e4 : ∀ t : KloreTemplate,
      blockStep ("RUN ".data ++ dq ++ "npm install".data ++ dq ++ " MESSAGE ".data ++
        dq ++ "Installing Node dependencies...".data ++ dq) t =
      { t with onInstall := t.onInstall.map (fun l => l ++ ["npm install".data]) } :=
    fun t => rfl
  have e5 : ∀ t : KloreTemplate,
      blockStep ("RUN ".data ++ dq ++ "npm run build".data ++ dq ++ " MESSAGE ".data ++
        dq ++ "Building assets...".data ++ dq) t =
      { t with onInstall := t.onInstall.map (fun l => l ++ ["npm run build".data]) } :=
    fun t => rfl
  unfold defaultRunCores
  rw [List.foldl_cons, List.foldl_cons, List.foldl_cons, List.foldl_cons,
    List.foldl_cons, List.foldl_nil]
  rw [e1, e2, e3, e4, e5]
  cases hoi : t0.onInstall with
  | none => rfl
  | some l =>
    simp only [Option.map_some']
    congr 1
    simp [List.append_assoc, defaultCommands]

theorem onInstall_default_roundtrip (t : KloreTemplate) (hclean : cleanTemplateB t = true)
    (hoi : t.onInstall = none ∨ t.onInstall = some []) :
    (parseKlore (generateKlore t)).onInstall = some defaultCommands := by
  rw [parseKlore_generateKlore t hclean]
  unfold expectedParse blockCores
  rw [List.foldl_append, List.foldl_append]
  rw [show ([copyCore].foldl (fun acc l => blockStep l acc) (preBlockTemplate t)) =
      preBlockTemplate t from by rw [List.foldl_cons, blockStep_copyCore]; rfl]
  have hrc : runCoresOf t = defaultRunCores := by
    unfold runCoresOf
    rcases hoi with h | h <;> rw [h] <;> rfl
  rw [hrc, foldl_replCores, foldl_defaultRuns]
  show ((preBlockTemplate t).onInstall.map (fun l => l ++ defaultCommands)) =
    some defaultCommands
  rw [show (preBlockTemplate t).onInstall = some [] from rfl]
  rfl

-- ════════════════════════════════════════════════════════════════════
-- Lemmas.  Part G: the installer — substitution semantics, the
-- exists-without-force gate, and the pre-supplied-values path.
-- ════════════════════════════════════════════════════════════════════

theorem expandRepl_id (m b a val : Str) (h : val.contains '$' = false) :
    expandRepl m b a val = val := by
  induction val with
  | nil => rfl
  | cons c r ih =>
    rw [List.contains_cons] at h
    have h2 := Bool.or_eq_false_iff.mp h
    have hc : ¬(c = '$') := by
      intro hcc
      rw [hcc] at h2
      simp at h2
    have hr : r.contains '$' = false := h2.2
    unfold expandRepl
    rw [if_neg hc, ih hr]

theorem jsReplGoF_spec (pat val : Str) (h : val.contains '$' = false) (f : Nat) :
    ∀ (pre s : Str), jsReplGoF pat val f pre s = specReplGoF pat val f s := by
  induction f with
  | zero => intro pre s; rfl
  | succ f ih =>
    intro pre s
    cases s with
    | nil => rfl
    | cons c cs =>
      unfold jsReplGoF specReplGoF
      split_ifs with hs
      · rw [expandRepl_id _ _ _ _ h, ih]
      · rw [ih]

theorem jsReplaceAll_spec (pat val s : Str) (h : val.contains '$' = false) :
    jsReplaceAll pat val s = specReplaceAll pat val s := by
  unfold jsReplaceAll specReplaceAll
  split_ifs with h0
  · rfl
  · exact jsReplGoF_spec pat val h _ [] s

theorem valuesGet_mem (vs : List (Str × Str)) (k v : Str) (h : valuesGet vs k = some v) :
    ∃ p ∈ vs, p.2 = v := by
  unfold valuesGet at h
  cases hf : vs.reverse.find? (fun p => p.1 = k) with
  | none => rw [hf] at h; exact absurd h (by simp)
  | some p =>
    rw [hf] at h
    simp only [Option.map_some'] at h
    exact ⟨p, List.mem_reverse.mp (List.mem_of_find?_eq_some hf), by
      exact Option.some.inj h⟩

theorem applyReplacements_spec (values : List (Str × Str))
    (h : ∀ p ∈ values, p.2.contains '$' = false) :
    ∀ (reps : List KloreReplacement) (content : Str),
      applyReplacements content reps values = specApplyReplacements content reps values := by
  intro reps
  induction reps with
  | nil => intro content; rfl
  | cons r rs ih =>
    intro content
    have hstep :
        (match valuesGet values r.varName with
         | some v => if r.original.length ≠ 0 then jsReplaceAll r.original v content
                     else content
         | none => content) =
        (match valuesGet values r.varName with
         | some v => if r.original.length ≠ 0 then specReplaceAll r.original v content
                     else content
         | none => content) := by
      cases hv : valuesGet values r.varName with
      | none => rfl
      | some v =>
        obtain ⟨p, hp, hpv⟩ := valuesGet_mem values r.varName v hv
        have hvf : v.contains '$' = false := by rw [← hpv]; exact h p hp
        by_cases ho : r.original.length ≠ 0
        · simp only [if_pos ho]
          rw [jsReplaceAll_spec _ _ _ hvf]
        · simp only [if_neg ho]
    have e1 : applyReplacements content (r :: rs) values =
        applyReplacements
          (match valuesGet values r.varName with
           | some v => if r.original.length ≠ 0 then jsReplaceAll r.original v content
                       else content
           | none => content) rs values := rfl
    have e2 : specApplyReplacements content (r :: rs) values =
        specApplyReplacements
          (match valuesGet values r.varName with
           | some v => if r.original.length ≠ 0 then specReplaceAll r.original v content
                       else content
           | none => content) rs values := rfl
    rw [e1, e2, hstep]
    exact ih _

theorem parseOnInstallLines_len (ls : List Str) : ∀ t : KloreTemplate,
    (parseOnInstallLines ls t).2.length ≤ ls.length := by
  induction ls with
  | nil => intro t; exact Nat.le_refl 0
  | cons l rest ih =>
    intro t
    show (if jsToUpper l = "END".data then ((t, rest) : KloreTemplate × List Str)
      else parseOnInstallLines rest (blockStep l t)).2.length ≤ rest.length + 1
    split_ifs with he
    · exact Nat.le_succ rest.length
    · exact Nat.le_succ_of_le (ih _)

theorem parseLinesF_fuel (f : Nat) : ∀ (k : Nat) (ls : List Str) (t : KloreTemplate),
    ls.length ≤ f → parseLinesF (f + k) ls t = parseLinesF f ls t := by
  induction f with
  | zero =>
    intro k ls t hl
    have hnil : ls = [] := List.eq_nil_of_length_eq_zero (Nat.le_zero.mp hl)
    subst hnil
    rw [parseLinesF_nil, parseLinesF_nil]
  | succ f ih =>
    intro k ls t hl
    cases ls with
    | nil => rw [parseLinesF_nil, parseLinesF_nil]
    | cons l rest =>
      have hr : rest.length ≤ f := by simpa using hl
      have hfk : f + 1 + k = (f + k) + 1 := by omega
      have estep : ∀ g : Nat, parseLinesF (g + 1) (l :: rest) t =
          if isOnInstallCmd l then
            parseLinesF g (parseOnInstallLines rest t).2 (parseOnInstallLines rest t).1
          else parseLinesF g rest (parseLineFn l t) := fun g => rfl
      rw [hfk, estep (f + k), estep f]
      split_ifs with hoi
      · exact ih k _ _ (Nat.le_trans (parseOnInstallLines_len rest t) hr)
      · exact ih k _ _ hr

theorem validateInput_required_empty (u : Str → Bool) (value : Str) (v : KloreVariable)
    (hreq : v.required = true) (hval : (jsTrim value).length = 0) :
    validateInput u value v = some "This field is required".data := by
  unfold validateInput
  rw [if_pos]
  rw [hreq, hval]
  rfl

theorem install_values_success (env : InstallEnv) (options : InstallOptions)
    (content : Str) (vs : List (Str × Str))
    (hk : env.kloreContent = some content)
    (hng : (env.outputExists && !options.force) = false)
    (hv : options.values = some vs) :
    (installTemplate env options).1.success = true ∧
    (installTemplate env options).2.prompted = false := by
  unfold installTemplate
  rw [hk]
  dsimp only []
  rw [hng, hv]
  exact ⟨rfl, rfl⟩

-- ════════════════════════════════════════════════════════════════════
-- The claims.
-- ════════════════════════════════════════════════════════════════════

/-- C1 is refuted at `tNum`: the generated ASK line carries no type token,
so the round-trip re-infers the type from the variable name and the
declared NUMBER type comes back as STRING. -/
theorem c1_counterexample :
    ((parseKlore (generateKlore tNum)).vars.map (fun v => v.type) = ["STRING".data]) ∧
    tNum.vars.map (fun v => v.type) = ["NUMBER".data] ∧
    ¬(("STRING".data : Str) = "NUMBER".data) := by
  exact ⟨rfl, rfl, by decide⟩

/-- C1: (as amended) for every group-free template in the round-trip class
`niceTemplateB` — newline-clean fields; nonempty lowercase word-character
variable names free of `required`/`default`, declared types agreeing with
the parser's name-based inference, quote- and newline-free defaults of
bounded length; word-character replacement variables not ending in `in`,
with nonempty quote- and newline-free pattern lists —
`parseKlore (generateKlore t)` restores the variable list (names, types,
defaults, required flags) and the replacement list (originals, variables,
file patterns) exactly. -/
theorem c1_roundtrip (t : KloreTemplate) (h : niceTemplateB t = true) :
    (parseKlore (generateKlore t)).vars = t.vars ∧
    (parseKlore (generateKlore t)).replacements = t.replacements :=
  roundtrip_vars_replacements t h

/-- C1's round-trip theorem evaluated at the concrete template `tNice`. -/
theorem c1_roundtrip_witness :
    (parseKlore (generateKlore tNice)).vars = tNice.vars ∧
    (parseKlore (generateKlore tNice)).replacements = tNice.replacements :=
  c1_roundtrip tNice (by decide)

/-- C2 is refuted at the two-character original backslash-`n`: the
generator escapes it to backslash-backslash-`n`, which the parser's first
unescaping pass (done before the backslash pass) turns into a real
newline, so the round-trip returns backslash-newline instead. -/
theorem c2_counterexample :
    unescapeOriginal (escapeOriginal [bsChar, 'n']) = [bsChar, nlChar] ∧
    ¬(([bsChar, nlChar] : Str) = [bsChar, 'n']) := by
  exact ⟨by decide, by decide⟩

/-- C2: (as amended) on every string without a backslash-immediately-
followed-by-`n` character pair, the parser's REPLACE-original unescaping
exactly inverts the generator's escaping; in particular an original with
an embedded real newline survives the round-trip exactly. -/
theorem c2_unescape_escape (s : Str) (h : hasBSn s = false) :
    unescapeOriginal (escapeOriginal s) = s :=
  unescape_escape s h

/-- C2's inversion theorem evaluated on an original with an embedded
newline byte. -/
theorem c2_unescape_escape_witness :
    unescapeOriginal (escapeOriginal "a\nb".data) = "a\nb".data :=
  c2_unescape_escape "a\nb".data (by decide)

/-- C3 is refuted when a resolved value contains `$`: JavaScript `replace`
expands `$&` to the matched text, so substituting value `<$&>` for
original `x` in content `x` produces `<x>`, not the literal value. -/
theorem c3_counterexample :
    applyReplacements "x".data
      [{ original := "x".data, varName := "v".data, filePatterns := ["**/*".data] }]
      [("v".data, "<$&>".data)] = "<x>".data ∧
    ¬(("<x>".data : Str) = "<$&>".data) := by
  exact ⟨rfl, by decide⟩

/-- C3: (as amended) when no resolved value contains a dollar sign,
`applyReplacements` coincides with `specApplyReplacements`, the exact
literal-substring global substitution written from the specification's
words (each replacement in list order over the already-modified content,
each occurrence replaced by the resolved value); and an original such as
`a.b` matches only as a literal substring — it never matches `axb`. -/
theorem c3_literal_substitution (content : Str) (reps : List KloreReplacement)
    (values : List (Str × Str)) (h : ∀ p ∈ values, p.2.contains '$' = false) :
    applyReplacements content reps values = specApplyReplacements content reps values ∧
    applyReplacements "axb".data
      [{ original := "a.b".data, varName := "v".data, filePatterns := ["**/*".data] }]
      [("v".data, "z".data)] = "axb".data :=
  ⟨applyReplacements_spec values h reps content, rfl⟩

/-- C3's literal-substitution theorem evaluated at a dollar-free value. -/
theorem c3_literal_substitution_witness :
    applyReplacements "Hello x".data
      [{ original := "x".data, varName := "v".data, filePatterns := ["**/*".data] }]
      [("v".data, "World".data)] =
      specApplyReplacements "Hello x".data
        [{ original := "x".data, varName := "v".data, filePatterns := ["**/*".data] }]
        [("v".data, "World".data)] ∧
    applyReplacements "axb".data
      [{ original := "a.b".data, varName := "v".data, filePatterns := ["**/*".data] }]
      [("v".data, "z".data)] = "axb".data :=
  c3_literal_substitution "Hello x".data
    [{ original := "x".data, varName := "v".data, filePatterns := ["**/*".data] }]
    [("v".data, "World".data)] (by decide)

/-- C4: the parser is total: the fuel budget `parseKlore` hands to
`parseLinesF` — the number of preprocessed lines — is always sufficient,
so giving the recursion any additional fuel never changes the result.
This is the shallow-embedding analogue of `parseKlore` never raising on
any input string: the recursion never runs out within its budget, and
every input yields a template. -/
theorem c4_parser_total : ∀ (content : Str) (k : Nat),
    parseLinesF ((preprocess content).length + k) (preprocess content) emptyTemplate =
      parseKlore content := by
  intro content k
  exact parseLinesF_fuel (preprocess content).length k (preprocess content) emptyTemplate
    (Nat.le_refl _)

/-- C5: when the output path exists and force is not set, `installTemplate`
fails with no files created, no replacements applied, and an empty
filesystem-operation trace. -/
theorem c5_exists_no_force (env : InstallEnv) (options : InstallOptions)
    (hex : env.outputExists = true) (hfo : options.force = false) :
    (installTemplate env options).1.success = false ∧
    (installTemplate env options).1.filesCreated = 0 ∧
    (installTemplate env options).1.replacementsApplied = 0 ∧
    (installTemplate env options).2.ops = [] := by
  unfold installTemplate
  cases hk : env.kloreContent with
  | none => exact ⟨rfl, rfl, rfl, rfl⟩
  | some content =>
    dsimp only []
    rw [if_pos (show (env.outputExists && !options.force) = true from by
      rw [hex, hfo]; rfl)]
    exact ⟨rfl, rfl, rfl, rfl⟩

/-- C5's gate theorem evaluated at a concrete environment whose output
path exists, without the force flag. -/
theorem c5_exists_no_force_witness :
    (installTemplate envExists optPlain).1.success = false ∧
    (installTemplate envExists optPlain).1.filesCreated = 0 ∧
    (installTemplate envExists optPlain).1.replacementsApplied = 0 ∧
    (installTemplate envExists optPlain).2.ops = [] :=
  c5_exists_no_force envExists optPlain rfl rfl

/-- C6: a REPLACE line missing the `REPLACE` keyword, missing the `WITH`
keyword, or with an unterminated quoted original (the character scan after
the opening quote finds no closing unescaped quote) parses to
`noopReplacement` — empty original, empty variable, the single catch-all
pattern — and line parsing continues with the remaining lines
unaffected. -/
theorem c6_malformed_noop :
    (∀ line : Str, containsSub "REPLACE".data line = false →
      parseReplacement line = noopReplacement) ∧
    (∀ line : Str, containsSub "WITH".data line = false →
      parseReplacement line = noopReplacement) ∧
    (∀ line afterRaw cs : Str,
      afterSub "REPLACE".data line = some afterRaw →
      jsTrim afterRaw = dqChar :: cs →
      scanQ cs false = none →
      parseReplacement line = noopReplacement) ∧
    noopReplacement.original = [] ∧
    noopReplacement.varName = [] ∧
    noopReplacement.filePatterns = ["**/*".data] ∧
    (∀ (f : Nat) (l : Str) (rest : List Str) (t : KloreTemplate),
      isOnInstallCmd l = false →
      parseLinesF (f + 1) (l :: rest) t = parseLinesF f rest (parseLineFn l t)) := by
  refine ⟨?_, ?_, ?_, rfl, rfl, rfl, ?_⟩
  · intro line hnr
    unfold parseReplacement
    rw [if_pos (show (!containsSub "REPLACE".data line ||
        !containsSub "WITH".data line) = true from by rw [hnr]; rfl)]
  · intro line hnw
    unfold parseReplacement
    rw [if_pos (show (!containsSub "REPLACE".data line ||
        !containsSub "WITH".data line) = true from by rw [hnw]; simp)]
  · intro line afterRaw cs ha ht hq
    unfold parseReplacement
    by_cases hc : (!containsSub "REPLACE".data line ||
        !containsSub "WITH".data line) = true
    · rw [if_pos hc]
    · rw [if_neg hc, ha]
      dsimp only []
      rw [ht]
      dsimp only []
      rw [if_pos rfl, hq]
  · intro f l rest t hoi
    have estep : parseLinesF (f + 1) (l :: rest) t =
        if isOnInstallCmd l then
          parseLinesF f (parseOnInstallLines rest t).2 (parseOnInstallLines rest t).1
        else parseLinesF f rest (parseLineFn l t) := rfl
    rw [estep, if_neg (show ¬(isOnInstallCmd l = true) from by rw [hoi]; simp)]

/-- C6's theorem evaluated at concrete malformed lines and one concrete
parsing continuation. -/
theorem c6_malformed_noop_witness :
    parseReplacement "x WITH y".data = noopReplacement ∧
    parseReplacement "REPLACE x y".data = noopReplacement ∧
    parseReplacement ("REPLACE ".data ++ [dqChar] ++ "abc WITH x".data) =
      noopReplacement ∧
    parseLinesF 2 ["REPLACE x".data, "NAME t".data] emptyTemplate =
      parseLinesF 1 ["NAME t".data]
        (parseLineFn "REPLACE x".data emptyTemplate) :=
  ⟨c6_malformed_noop.1 "x WITH y".data (by decide),
   c6_malformed_noop.2.1 "REPLACE x y".data (by decide),
   c6_malformed_noop.2.2.1 ("REPLACE ".data ++ [dqChar] ++ "abc WITH x".data)
     (" ".data ++ [dqChar] ++ "abc WITH x".data) "abc WITH x".data
     (by decide) (by decide) (by decide),
   c6_malformed_noop.2.2.2.2.2.2 1 "REPLACE x".data ["NAME t".data] emptyTemplate
     (by decide)⟩

/-- C7 is refuted in defaults mode: `reqContent` declares a required
variable with an empty default, yet installing with the pre-filled default
values succeeds with no errors and without prompting — the resolution is
never flagged invalid. -/
theorem c7_counterexample :
    ((parseKlore reqContent).vars.map (fun v => (v.required, v.defaultValue)) =
      [(true, ([] : Str))]) ∧
    (installTemplate envReq optDefaults).1.success = true ∧
    (installTemplate envReq optDefaults).1.errors = [] ∧
    (installTemplate envReq optDefaults).2.prompted = false := by
  exact ⟨rfl, rfl, rfl, rfl⟩

/-- C7: (as amended) interactive mode does validate — `validateInput`
rejects an effectively empty value for a required variable with the
required-field error, for every URL oracle — but the non-interactive
pre-supplied-values mode performs no validation at all: `installTemplate`
with supplied values succeeds without prompting, whatever the values
are. -/
theorem c7_required_gate (u : Str → Bool) (value : Str) (v : KloreVariable)
    (env : InstallEnv) (options : InstallOptions) (content : Str)
    (vs : List (Str × Str))
    (hreq : v.required = true) (hval : (jsTrim value).length = 0)
    (hk : env.kloreContent = some content)
    (hng : (env.outputExists && !options.force) = false)
    (hv : options.values = some vs) :
    validateInput u value v = some "This field is required".data ∧
    (installTemplate env options).1.success = true ∧
    (installTemplate env options).2.prompted = false :=
  ⟨validateInput_required_empty u value v hreq hval,
   (install_values_success env options content vs hk hng hv).1,
   (install_values_success env options content vs hk hng hv).2⟩

/-- C7's theorem evaluated at a concrete required variable and the
concrete defaults-mode installation. -/
theorem c7_required_gate_witness :
    validateInput (fun _ => true) []
      { name := "x".data, type := "STRING".data, defaultValue := [],
        required := true } = some "This field is required".data ∧
    (installTemplate envReq optDefaults).1.success = true ∧
    (installTemplate envReq optDefaults).2.prompted = false :=
  c7_required_gate (fun _ => true) []
    { name := "x".data, type := "STRING".data, defaultValue := [],
      required := true }
    envReq optDefaults reqContent (buildDefaultValues (parseKlore reqContent))
    rfl rfl rfl rfl rfl

/-- C8: refuted by the code — `parseVariable` stores an unrecognized TYPE
token verbatim instead of defaulting it to STRING: `VAR port FOO "8080"`
parses to a variable whose type is the raw string `FOO`, outside the
declared six-value union. -/
theorem c8_unrecognized_type_kept :
    ((parseKlore varLineFoo).vars.map (fun v => v.type) = ["FOO".data]) ∧
    ¬(("FOO".data : Str) ∈ ["STRING".data, "COLOR".data, "EMAIL".data,
        "PHONE".data, "URL".data, "NUMBER".data]) := by
  exact ⟨rfl, by decide⟩

/-- C9 is refuted at `tDup`: two variables named `city` yield two ASK
lines for that name in the generated text, not exactly one. -/
theorem c9_counterexample :
    askLineCount "city".data (generateKlore tDup) = 2 ∧ ¬((2 : Nat) = 1) := by
  exact ⟨rfl, by decide⟩

/-- C9: (as amended) `generateKlore` does not deduplicate variables by
name — every occurrence is rendered as its own ASK line, and for templates
in the nice round-trip class the parsed variable list restores all
occurrences, duplicates included, in order. -/
theorem c9_no_dedup (t : KloreTemplate) (h : niceTemplateB t = true) :
    (parseKlore (generateKlore t)).vars = t.vars :=
  (roundtrip_vars_replacements t h).1

/-- C9's theorem evaluated at the duplicate-name template `tDup`. -/
theorem c9_no_dedup_witness :
    (parseKlore (generateKlore tDup)).vars = tDup.vars :=
  c9_no_dedup tDup (by decide)

/-- C10 is refuted at `tNasty`: a template name containing newlines
smuggles an extra RUN command through the generator, so the round-tripped
onInstall list is not the five default commands even though the input's
onInstall list was empty. -/
theorem c10_counterexample :
    tNasty.onInstall = some [] ∧
    ¬((parseKlore (generateKlore tNasty)).onInstall = some defaultCommands) := by
  exact ⟨rfl, by decide⟩

/-- C10: (as amended) for every template whose verbatim-rendered fields
are newline-clean and whose onInstall list is absent or empty, the
generator emits the five default RUN commands and the round-trip's
onInstall list is exactly those five command strings. -/
theorem c10_default_runs (t : KloreTemplate) (hclean : cleanTemplateB t = true)
    (hoi : t.onInstall = none ∨ t.onInstall = some []) :
    (parseKlore (generateKlore t)).onInstall = some defaultCommands ∧
    defaultCommands = ["composer install".data, "php artisan key:generate".data,
      "php artisan migrate --seed".data, "npm install".data, "npm run build".data] :=
  ⟨onInstall_default_roundtrip t hclean hoi, rfl⟩

/-- C10's theorem evaluated at the clean template `tShop`. -/
theorem c10_default_runs_witness :
    (parseKlore (generateKlore tShop)).onInstall = some defaultCommands ∧
    defaultCommands = ["composer install".data, "php artisan key:generate".data,
      "php artisan migrate --seed".data, "npm install".data, "npm run build".data] :=
  c10_default_runs tShop (by decide) (Or.inr rfl)
